import Mathlib

/-!
Frogger on the MSP430: game logic of `frogger.c`

A shallow embedding of the game logic in `src/frogger/frogger.c`: the lane
tables, `moveFrog`, `wasHit`, `didLose`, `didWin`, `carAdvance`, the compositor
`movLayerDraw` and the game tick of `wdt_c_handler`; of the bounce advance
`mlAdvance` of `src/frogger/shape-motion-demo.c`; and of `containsRegion` of
`src/frogger/shapemotion.c`.  The C globals become the fields of `State`; every
function takes the state and returns the new one.

Conventions.
* `u_char` values are naturals (indices, table entries) or integers reduced
  with `% 256` (`toUChar`); `u_int` values are naturals below `65536`.
* The axes of a `Vec2` are integers.  `axes[0]` is `x`, `axes[1]` is `y`.
* A shape is known to this file only through what the game code asks of it:
  its bounds function (`abShapeGetBounds`) and the word that `carAdvance`
  reads as `size`.
* A pointer to a statically allocated node is modelled by the node itself:
  `car1.layer` is `carLayer1`, `frog.layer` is `frogLayer`.
-/

namespace Frogger

/-! ## Data model -/

/-- A vector of the shape library: position or velocity. -/
structure Vec2 where
  x : Int
  y : Int
deriving DecidableEq, Repr

/-- An axis-aligned region given by two corners. -/
structure Region where
  topLeft : Vec2
  botRight : Vec2
deriving DecidableEq, Repr

/-- An abstract shape.  `getBounds` is the shape's own bounds function, called
through `abShapeGetBounds`; `check` is its point test, called through
`abShapeCheck` with the shape's position and a pixel; `size` is the word
`carAdvance` reads after casting the shape to `AbRArrow`. -/
structure AbShape where
  getBounds : Vec2 → Region
  check : Vec2 → Vec2 → Bool
  size : Int

/-- A layer: `{abShape, pos, posLast, posNext, color, next}`.  The `next` link
is the order of the list the layer is kept in. -/
structure Layer where
  abShape : AbShape
  pos : Vec2
  posLast : Vec2
  posNext : Vec2
  color : Nat

/-- A moving layer: `{layer, velocity, next}`. -/
structure MovLayer where
  layer : Layer
  velocity : Vec2

/-- The mutable globals of `frogger.c` read or written by the tick handler.
The moving list is `car3 -> car2 -> car1 -> frog`. -/
structure State where
  frogPosInd_x : Nat
  frogPosInd_y : Nat
  car1 : MovLayer
  car2 : MovLayer
  car3 : MovLayer
  frog : MovLayer
  prevPress : Nat
  redrawScreen : Int
  count : Int

/-- The global `frogLayer`, the layer of the moving layer `frog`. -/
def State.frogLayer (s : State) : Layer := s.frog.layer

/-- The global `carLayer1`. -/
def State.carLayer1 (s : State) : Layer := s.car1.layer

/-- The global `carLayer2`. -/
def State.carLayer2 (s : State) : Layer := s.car2.layer

/-- The global `carLayer3`. -/
def State.carLayer3 (s : State) : Layer := s.car3.layer

/-- The table `Layer *carLayers[3] = {&carLayer1, &carLayer2, &carLayer3}`. -/
def carLayers (s : State) : List Layer := [s.carLayer1, s.carLayer2, s.carLayer3]

/-! ## Constants -/

/-- `#define START_X 2`. -/
def START_X : Nat := 2

/-- `#define START_Y 0`. -/
def START_Y : Nat := 0

/-- `u_char lanePosX[5] = {21,41,64,87,107}`. -/
def lanePosX : List Nat := [21, 41, 64, 87, 107]

/-- `u_char lanePosY[7] = {17,39,61,83,105,127,149}`. -/
def lanePosY : List Nat := [17, 39, 61, 83, 105, 127, 149]

/-- The read `lanePosX[i]`.  Reading outside the table is undefined in C; the
model returns 0 there, and every statement below about a value read from the
table is made for an index inside it. -/
def lanePosXAt (i : Nat) : Int := (lanePosX.getD i 0 : Nat)

/-- The read `lanePosY[i]`, with the same convention as `lanePosXAt`. -/
def lanePosYAt (i : Nat) : Int := (lanePosY.getD i 0 : Nat)

/-- Width of the display, the constant `screenWidth` of the display header. -/
def screenWidth : Int := 128

/-- Height of the display, the constant `screenHeight` of the display header. -/
def screenHeight : Int := 160

/-- `Region gameViewBoundary = {{0,0}, {screenWidth,screenHeight}}`. -/
def gameViewBoundary : Region := ⟨⟨0, 0⟩, ⟨screenWidth, screenHeight⟩⟩

/-! ## Machine conversions -/

/-- Conversion of a signed value to `u_char`. -/
def toUChar (v : Int) : Int := v % 256

/-- Conversion of a value to `u_int` (16 bits). -/
def toUInt (n : Nat) : Nat := n % 65536

/-- The operator `~` on a `u_int`. -/
def bitNot16 (n : Nat) : Nat := 65535 - toUInt n

/-- `--v` on a `u_char`. -/
def decUChar (v : Nat) : Nat := (v + 255) % 256

/-- `++v` on a `u_char`. -/
def incUChar (v : Nat) : Nat := (v + 1) % 256

/-- Conversion of a value to `short` (16 bits, two's complement). -/
def toShort (v : Int) : Int := (v + 32768) % 65536 - 32768

/-! ## Frog movement -/

/-- The assignment `frogLayer.posNext = v`. -/
def setFrogPosNext (s : State) (v : Vec2) : State :=
  { s with frog := { s.frog with layer := { s.frog.layer with posNext := v } } }

/-- `void moveFrog(u_char direction)`: the `switch` with its four guarded cases
and the `default` that returns. -/
def moveFrog (direction : Nat) (s : State) : State :=
  if direction = 1 then
    if s.frogPosInd_x ≤ 0 then s
    else
      let s1 := { s with frogPosInd_x := decUChar s.frogPosInd_x }
      setFrogPosNext s1 ⟨lanePosXAt s1.frogPosInd_x, lanePosYAt s1.frogPosInd_y⟩
  else if direction = 2 then
    if s.frogPosInd_x ≥ 4 then s
    else
      let s1 := { s with frogPosInd_x := incUChar s.frogPosInd_x }
      setFrogPosNext s1 ⟨lanePosXAt s1.frogPosInd_x, lanePosYAt s1.frogPosInd_y⟩
  else if direction = 3 then
    if s.frogPosInd_y ≤ 0 then s
    else
      let s1 := { s with frogPosInd_y := decUChar s.frogPosInd_y }
      setFrogPosNext s1 ⟨lanePosXAt s1.frogPosInd_x, lanePosYAt s1.frogPosInd_y⟩
  else if direction = 4 then
    if s.frogPosInd_y ≥ 6 then s
    else
      let s1 := { s with frogPosInd_y := incUChar s.frogPosInd_y }
      setFrogPosNext s1 ⟨lanePosXAt s1.frogPosInd_x, lanePosYAt s1.frogPosInd_y⟩
  else s

/-! ## Collision and objective -/

/-- `char wasHit(Region *carReg, Region *frogReg)`: the four x coordinates are
converted to `u_char` and compared. -/
def wasHit (carReg frogReg : Region) : Nat :=
  let car_tlx := toUChar carReg.topLeft.x
  let car_brx := toUChar carReg.botRight.x
  let frog_tlx := toUChar frogReg.topLeft.x
  let frog_brx := toUChar frogReg.botRight.x
  if frog_tlx < car_brx ∧ frog_tlx > car_tlx then 1
  else if frog_brx < car_brx ∧ frog_brx > car_tlx then 1
  else 0

/-- The loop of `didLose` over the remaining entries of `carLayers`. -/
def didLoseLoop (frogLayer : Layer) : List Layer → Nat
  | [] => 0
  | carLayer :: rest =>
    if frogLayer.pos.y ≠ carLayer.pos.y then didLoseLoop frogLayer rest
    else if wasHit (carLayer.abShape.getBounds carLayer.pos)
        (frogLayer.abShape.getBounds frogLayer.pos) ≠ 0 then 1
    else didLoseLoop frogLayer rest

/-- `char didLose()`. -/
def didLose (s : State) : Nat := didLoseLoop s.frogLayer (carLayers s)

/-- `char didWin() { return frogPosInd_y >= 6; }`. -/
def didWin (s : State) : Nat := if s.frogPosInd_y ≥ 6 then 1 else 0

/-! ## Car advance -/

/-- Modelled from the spec: `vec2Add` of the shape library, which is not in the
sources; the motion engine "adds velocity to posNext", axis by axis. -/
def vec2Add (a b : Vec2) : Vec2 := ⟨a.x + b.x, a.y + b.y⟩

/-- The test `&carLayer->velocity > 0` of `carAdvance`: the address of a field
of a list node, which is never null. -/
def velocityAddrGtZero : Bool := true

/-- The test `&carLayer->velocity < 0` of `carAdvance`: an address is never
below the null pointer. -/
def velocityAddrLtZero : Bool := false

/-- The body of the loop of `carAdvance` for one moving layer.  `carSize` is a
`char`, unsigned on this target. -/
def carAdvanceStep (fence : Region) (carLayer : MovLayer) : MovLayer :=
  let newPos := vec2Add carLayer.layer.posNext carLayer.velocity
  let shapeBoundary := carLayer.layer.abShape.getBounds newPos
  let carSize := toUChar carLayer.layer.abShape.size
  let newPos1 : Vec2 :=
    if velocityAddrGtZero = true ∧ shapeBoundary.botRight.x ≥ fence.botRight.x then
      ⟨fence.topLeft.x - carSize, newPos.y⟩
    else if velocityAddrLtZero = true ∧ shapeBoundary.topLeft.x ≤ fence.topLeft.x then
      ⟨fence.botRight.x - 3, newPos.y⟩
    else newPos
  { carLayer with layer := { carLayer.layer with posNext := newPos1 } }

/-- `void carAdvance(MovLayer *carLayer, Region *fence)` over a moving list. -/
def carAdvance : List MovLayer → Region → List MovLayer
  | [], _ => []
  | carLayer :: next, fence => carAdvanceStep fence carLayer :: carAdvance next fence

/-- The call `carAdvance(&car3, fence)` on the game's moving list
`car3 -> car2 -> car1 -> frog`, written back to the four globals. -/
def carAdvanceGame (s : State) (fence : Region) : State :=
  { s with
    car3 := carAdvanceStep fence s.car3
    car2 := carAdvanceStep fence s.car2
    car1 := carAdvanceStep fence s.car1
    frog := carAdvanceStep fence s.frog }

/-! ## The game tick -/

/-- The body of `if (didWin())`: the three car velocities are set to `stop`. -/
def stopCars (s : State) : State :=
  { s with
    car1 := { s.car1 with velocity := ⟨0, 0⟩ }
    car2 := { s.car2 with velocity := ⟨0, 0⟩ }
    car3 := { s.car3 with velocity := ⟨0, 0⟩ } }

/-- The statement `if (didWin()) { ... }` of the tick. -/
def winBranch (s : State) : State :=
  if didWin s ≠ 0 then stopCars s else s

/-- The body of `if (didLose())`: both indices are assigned the start indices
inside the table reads, and the result is stored in `frogLayer.posNext`. -/
def resetFrog (s : State) : State :=
  let s1 := { s with frogPosInd_x := START_X, frogPosInd_y := START_Y }
  setFrogPosNext s1 ⟨lanePosXAt s1.frogPosInd_x, lanePosYAt s1.frogPosInd_y⟩

/-- The statement `if (didLose()) { ... }` of the tick. -/
def loseBranch (s : State) : State :=
  if didLose s ≠ 0 then resetFrog s else s

/-- The four `if (switches & b && changed & b) moveFrog(d);` statements followed
by `prevPress = switches;`, for the button word `pressed` read in this tick. -/
def inputReducer (s : State) (pressed : Nat) : State :=
  let switches := bitNot16 pressed
  let changed := s.prevPress ^^^ switches
  let s1 := if switches &&& 4 ≠ 0 ∧ changed &&& 4 ≠ 0 then moveFrog 4 s else s
  let s2 := if switches &&& 2 ≠ 0 ∧ changed &&& 2 ≠ 0 then moveFrog 3 s1 else s1
  let s3 := if switches &&& 1 ≠ 0 ∧ changed &&& 1 ≠ 0 then moveFrog 1 s2 else s2
  let s4 := if switches &&& 8 ≠ 0 ∧ changed &&& 8 ≠ 0 then moveFrog 2 s3 else s3
  { s4 with prevPress := switches }

/-- The calls of `moveFrog` made by the four `if` statements of the tick, in the
order they are made, for previous mask `prevPress` and button word `pressed`. -/
def moveFrogCalls (prevPress pressed : Nat) : List Nat :=
  let switches := bitNot16 pressed
  let changed := prevPress ^^^ switches
  (if switches &&& 4 ≠ 0 ∧ changed &&& 4 ≠ 0 then [4] else []) ++
  (if switches &&& 2 ≠ 0 ∧ changed &&& 2 ≠ 0 then [3] else []) ++
  (if switches &&& 1 ≠ 0 ∧ changed &&& 1 ≠ 0 then [1] else []) ++
  (if switches &&& 8 ≠ 0 ∧ changed &&& 8 ≠ 0 then [2] else [])

/-- The body of `if (++count == 15) { ... }`: one game tick with button word
`pressed`. -/
def gameTick (s : State) (pressed : Nat) : State :=
  let s1 := winBranch s
  let s2 := loseBranch s1
  let s3 := carAdvanceGame s2 gameViewBoundary
  let s4 := inputReducer s3 pressed
  let s5 := if toUInt pressed ≠ 0 then { s4 with redrawScreen := 1 } else s4
  { s5 with count := 0 }

/-- `void wdt_c_handler()` with `pressed` the value returned by `p2sw_read()`.
The writes to the LED port are not part of the state. -/
def wdt_c_handler (s : State) (pressed : Nat) : State :=
  let s1 := { s with count := toShort (s.count + 1) }
  if s1.count = 15 then gameTick s1 pressed else s1

/-- The handler run once per element of a list of button words. -/
def runHandler (s : State) : List Nat → State
  | [] => s
  | pressed :: rest => runHandler (wdt_c_handler s pressed) rest

/-! ## The program's initial world -/

/-- Modelled from the spec: the bounds of a circle of the shape library, which
is not in the sources: "circle: origin ± radius on both axes". -/
def circleBounds (radius : Int) (centerPos : Vec2) : Region :=
  ⟨⟨centerPos.x - radius, centerPos.y - radius⟩, ⟨centerPos.x + radius, centerPos.y + radius⟩⟩

/-- Modelled from the spec: the bounds of the directional arrow of the shape
library, which is not in the sources.  The spec only asks for an axis-aligned
box covering the shape; the box taken here ends at the arrow's tip,
`[x - size, x]` by `[y - size/2, y + size/2]`.  It is used for worked examples
only. -/
def arrowBounds (size : Int) (centerPos : Vec2) : Region :=
  ⟨⟨centerPos.x - size, centerPos.y - size / 2⟩, ⟨centerPos.x, centerPos.y + size / 2⟩⟩

/-- Modelled from the spec: the point test of a circle of the shape library,
which is not in the sources: "a squared-distance-to-radius comparison". -/
def circleCheck (radius : Int) (centerPos pixel : Vec2) : Bool :=
  decide ((pixel.x - centerPos.x) * (pixel.x - centerPos.x) +
    (pixel.y - centerPos.y) * (pixel.y - centerPos.y) ≤ radius * radius)

/-- Modelled from the spec: the point test of the directional arrow of the shape
library, which is not in the sources: "axis-aligned bound tests", taken here
against the box of `arrowBounds`.  It is used for worked examples only. -/
def arrowCheck (size : Int) (centerPos pixel : Vec2) : Bool :=
  decide ((arrowBounds size centerPos).topLeft.x ≤ pixel.x ∧
    pixel.x ≤ (arrowBounds size centerPos).botRight.x ∧
    (arrowBounds size centerPos).topLeft.y ≤ pixel.y ∧
    pixel.y ≤ (arrowBounds size centerPos).botRight.y)

/-- The shape `circle6` of the frog. -/
def circle6 : AbShape := ⟨circleBounds 6, circleCheck 6, 0⟩

/-- The shapes `carShape1..3`: arrows of size `screenHeight/7`. -/
def carShape : AbShape :=
  ⟨arrowBounds (screenHeight / 7), arrowCheck (screenHeight / 7), screenHeight / 7⟩

/-- The globals when the first tick runs: the initialisers of `frogger.c` (cars
at x = 0 in lanes 39, 83, 127 with velocities 3, 2, 4; frog at `(64, 17)` with
indices `(START_X, START_Y)`), with `posLast` and `posNext` of every layer equal
to its `pos`, as `layerInit` leaves them before interrupts are enabled. -/
def initialState : State where
  frogPosInd_x := START_X
  frogPosInd_y := START_Y
  car1 := ⟨⟨carShape, ⟨0, 39⟩, ⟨0, 39⟩, ⟨0, 39⟩, 1⟩, ⟨3, 0⟩⟩
  car2 := ⟨⟨carShape, ⟨0, 83⟩, ⟨0, 83⟩, ⟨0, 83⟩, 2⟩, ⟨2, 0⟩⟩
  car3 := ⟨⟨carShape, ⟨0, 127⟩, ⟨0, 127⟩, ⟨0, 127⟩, 3⟩, ⟨4, 0⟩⟩
  frog := ⟨⟨circle6, ⟨64, 17⟩, ⟨64, 17⟩, ⟨64, 17⟩, 4⟩, ⟨0, 0⟩⟩
  prevPress := 0
  redrawScreen := 1
  count := 0

/-- A state met in play: in the 22nd tick the frog has moved to the first road
lane (indices `(2,1)`, now committed at `(64,39)`) and `car1` is committed at
x = 66, so that its bounds `[44,66]` hold the frog's left edge 58.  The mask
`prevPress = 4` records the "down" press of that tick. -/
def hitState : State :=
  { initialState with
    frogPosInd_y := 1
    frog := ⟨⟨circle6, ⟨64, 39⟩, ⟨64, 17⟩, ⟨64, 39⟩, 4⟩, ⟨0, 0⟩⟩
    car1 := ⟨⟨carShape, ⟨66, 39⟩, ⟨63, 39⟩, ⟨66, 39⟩, 1⟩, ⟨3, 0⟩⟩
    car2 := ⟨⟨carShape, ⟨44, 83⟩, ⟨42, 83⟩, ⟨44, 83⟩, 2⟩, ⟨2, 0⟩⟩
    car3 := ⟨⟨carShape, ⟨88, 127⟩, ⟨84, 127⟩, ⟨88, 127⟩, 3⟩, ⟨4, 0⟩⟩
    prevPress := 4 }

/-- A state in which the win test and the hit test both fire: the frog's row
index is already 6 (`posNext = (64,149)`) while its committed position is still
`(64,127)` in the third road lane, where `car3`, committed at x = 68 with bounds
`[46,68]`, holds the frog's left edge 58.  The cars still have their velocities
and their staged positions are one tick ahead of the committed ones.  It is a
state of the model that play does not reach (`reachable_not_win_and_hit`); it
serves to evaluate both branches of the tick together. -/
def winHitState : State :=
  { initialState with
    frogPosInd_y := 6
    frog := ⟨⟨circle6, ⟨64, 127⟩, ⟨64, 105⟩, ⟨64, 149⟩, 4⟩, ⟨0, 0⟩⟩
    car1 := ⟨⟨carShape, ⟨51, 39⟩, ⟨48, 39⟩, ⟨54, 39⟩, 1⟩, ⟨3, 0⟩⟩
    car2 := ⟨⟨carShape, ⟨34, 83⟩, ⟨32, 83⟩, ⟨36, 83⟩, 2⟩, ⟨2, 0⟩⟩
    car3 := ⟨⟨carShape, ⟨68, 127⟩, ⟨64, 127⟩, ⟨72, 127⟩, 3⟩, ⟨4, 0⟩⟩
    prevPress := 4 }

/-- The switch bit tested for a direction code, in the words of the claim on
simultaneous presses: bit 4 is down (code 4), bit 2 is up (code 3), bit 1 is
left (code 1), bit 8 is right (code 2). -/
def switchMask (d : Nat) : Nat :=
  if d = 4 then 4 else if d = 3 then 2 else if d = 1 then 1 else if d = 2 then 8 else 0

/-- A direction is newly pressed in a tick when its switch bit is set in
`~pressed` and in `prevPress ^ ~pressed`. -/
def newlyPressed (prevPress pressed d : Nat) : Bool :=
  decide (bitNot16 pressed &&& switchMask d ≠ 0 ∧
    (prevPress ^^^ bitNot16 pressed) &&& switchMask d ≠ 0)

/-- The game tick with the four `moveFrog` statements left out. -/
def gameTickNoMove (s : State) (pressed : Nat) : State :=
  let s1 := winBranch s
  let s2 := loseBranch s1
  let s3 := { carAdvanceGame s2 gameViewBoundary with prevPress := bitNot16 pressed }
  let s5 := if toUInt pressed ≠ 0 then { s3 with redrawScreen := 1 } else s3
  { s5 with count := 0 }

/-! ## Moving lists over a layer memory

The functions `carAdvance`, `mlAdvance` and `movLayerDraw` take a linked list of
`MovLayer` nodes whose `layer` fields point to layers.  Here a pointer to a
layer is an address, the layer memory gives the layer stored at each address,
and a list is the sequence of its nodes from the head. -/

/-- A `MovLayer` node with its `layer` field kept as a pointer: the address of
the layer in the layer memory. -/
structure MovLayerRef where
  layer : Nat
  velocity : Vec2
deriving DecidableEq, Repr

/-- `carAdvance(carLayer, fence)` on a list of nodes over a layer memory: each
node's layer is read through its pointer, advanced by the loop body and written
back.  The result is the list of nodes and the layer memory after the call. -/
def carAdvanceMem (fence : Region) :
    List MovLayerRef → (Nat → Layer) → List MovLayerRef × (Nat → Layer)
  | [], mem => ([], mem)
  | carLayer :: next, mem =>
    let r := carAdvanceStep fence ⟨mem carLayer.layer, carLayer.velocity⟩
    let rest := carAdvanceMem fence next (Function.update mem carLayer.layer r.layer)
    (⟨carLayer.layer, r.velocity⟩ :: rest.1, rest.2)

/-- The call `carAdvance(list, fence)` made `n` times in a row. -/
def carAdvanceMemTimes (fence : Region) :
    Nat → List MovLayerRef → (Nat → Layer) → List MovLayerRef × (Nat → Layer)
  | 0, movLayers, mem => (movLayers, mem)
  | n + 1, movLayers, mem =>
    let r := carAdvanceMem fence movLayers mem
    carAdvanceMemTimes fence n r.1 r.2

/-- The loop body of `carAdvance` applied `n` times to one moving layer: the
layer's state after `n` calls of `carAdvance` on a list that holds it once. -/
def carAdvanceTimes (fence : Region) : Nat → MovLayer → MovLayer
  | 0, carLayer => carLayer
  | n + 1, carLayer => carAdvanceTimes fence n (carAdvanceStep fence carLayer)

/-- The body of the loop of `mlAdvance` (`shape-motion-demo.c`) for one moving
layer.  The bounds are computed once at `posNext + velocity`; then, for axis 0
and axis 1 in turn, a bound outside the fence negates that axis of the velocity
and adds twice the negated velocity to that axis of `newPos`. -/
def mlAdvanceStep (fence : Region) (ml : MovLayer) : MovLayer :=
  let newPos := vec2Add ml.layer.posNext ml.velocity
  let shapeBoundary := ml.layer.abShape.getBounds newPos
  let vx : Int :=
    if shapeBoundary.topLeft.x < fence.topLeft.x ∨ shapeBoundary.botRight.x > fence.botRight.x
    then -ml.velocity.x else ml.velocity.x
  let px : Int :=
    if shapeBoundary.topLeft.x < fence.topLeft.x ∨ shapeBoundary.botRight.x > fence.botRight.x
    then newPos.x + 2 * vx else newPos.x
  let vy : Int :=
    if shapeBoundary.topLeft.y < fence.topLeft.y ∨ shapeBoundary.botRight.y > fence.botRight.y
    then -ml.velocity.y else ml.velocity.y
  let py : Int :=
    if shapeBoundary.topLeft.y < fence.topLeft.y ∨ shapeBoundary.botRight.y > fence.botRight.y
    then newPos.y + 2 * vy else newPos.y
  { layer := { ml.layer with posNext := ⟨px, py⟩ }, velocity := ⟨vx, vy⟩ }

/-- `mlAdvance(ml, fence)` on a list of nodes over a layer memory. -/
def mlAdvanceMem (fence : Region) :
    List MovLayerRef → (Nat → Layer) → List MovLayerRef × (Nat → Layer)
  | [], mem => ([], mem)
  | ml :: next, mem =>
    let r := mlAdvanceStep fence ⟨mem ml.layer, ml.velocity⟩
    let rest := mlAdvanceMem fence next (Function.update mem ml.layer r.layer)
    (⟨ml.layer, r.velocity⟩ :: rest.1, rest.2)

/-- A car of the game near the end of its lane: arrow of size 22, staged at
`(100,39)` with bounds `[78,100]` inside the fence, velocity `(4,0)`. -/
def carNearRightEdge : MovLayer :=
  ⟨⟨carShape, ⟨96, 39⟩, ⟨92, 39⟩, ⟨100, 39⟩, 1⟩, ⟨4, 0⟩⟩

/-- A car moving to the left: arrow of size 22 staged at `(10,39)` with
velocity `(-3,0)`; at `(7,39)` its bounds `[-15,7]` reach past the fence's left
edge and stay below its right edge. -/
def leftMovingCar : MovLayer :=
  ⟨⟨carShape, ⟨13, 39⟩, ⟨16, 39⟩, ⟨10, 39⟩, 1⟩, ⟨-3, 0⟩⟩

/-- A ball of the bounce demo: circle of radius 6 staged at `(120,80)` with
velocity `(5,2)` inside the fence `gameViewBoundary`. -/
def bouncingBall : MovLayer :=
  ⟨⟨circle6, ⟨115, 78⟩, ⟨110, 76⟩, ⟨120, 80⟩, 2⟩, ⟨5, 2⟩⟩

/-! ## The compositor `movLayerDraw` -/

/-- A call made to the display: `lcd_setArea(colStart, rowStart, colEnd, rowEnd)`
or `lcd_writeColor(color)`. -/
inductive LcdCall where
  | setArea (colStart rowStart colEnd rowEnd : Int)
  | writeColor (color : Nat)
deriving DecidableEq, Repr

/-- The first loop of `movLayerDraw`, run with interrupts disabled: for each node
`l->posLast = l->pos; l->pos = l->posNext;` on the layer it points to. -/
def commitLoop : List MovLayerRef → (Nat → Layer) → (Nat → Layer)
  | [], mem => mem
  | movLayer :: next, mem =>
    let l := mem movLayer.layer
    let l1 := { l with posLast := l.pos }
    let l2 := { l1 with pos := l1.posNext }
    commitLoop next (Function.update mem movLayer.layer l2)

/-- The probe loop of `movLayerDraw` over the layer list from `probeLayer` on:
the color starts as `bgColor`, and the first layer whose `abShapeCheck` at its
`pos` holds the pixel sets the color and ends the loop. -/
def probeLoop (bgColor : Nat) (mem : Nat → Layer) (pixelPos : Vec2) : List Nat → Nat
  | [] => bgColor
  | probeLayer :: next =>
    if (mem probeLayer).abShape.check (mem probeLayer).pos pixelPos = true then
      (mem probeLayer).color
    else probeLoop bgColor mem pixelPos next

/-- The loop `for (v = start; ...; v++)` with `n` iterations left, collecting
what each iteration emits. -/
def forLoopFrom (body : Int → List LcdCall) (v : Int) : Nat → List LcdCall
  | 0 => []
  | n + 1 => body v ++ forLoopFrom body (v + 1) n

/-- The loop `for (v = lo; v <= hi; v++)`: it runs `hi + 1 - lo` times when
`lo <= hi` and not at all otherwise. -/
def forLoop (lo hi : Int) (body : Int → List LcdCall) : List LcdCall :=
  forLoopFrom body lo (hi + 1 - lo).toNat

/-- The two nested pixel loops of `movLayerDraw` for one window: rows from
`topLeft.y` to `botRight.y`, in each row the columns from `topLeft.x` to
`botRight.x`, one `lcd_writeColor` of the probed color per pixel. -/
def drawWindow (layers : List Nat) (bgColor : Nat) (mem : Nat → Layer) (bounds : Region) :
    List LcdCall :=
  forLoop bounds.topLeft.y bounds.botRight.y fun row =>
    forLoop bounds.topLeft.x bounds.botRight.x fun col =>
      [LcdCall.writeColor (probeLoop bgColor mem ⟨col, row⟩ layers)]

/-- Modelled from the spec: `layerGetBounds` of the shape library, which is not
in the sources; the compositor redraws "each moving layer's new bounding
region", the bounds of the layer's shape at its committed `pos`. -/
def layerGetBounds (l : Layer) : Region := l.abShape.getBounds l.pos

/-- The second loop of `movLayerDraw`: for each node the bounds of its layer,
`lcd_setArea` on them, and the pixel loops. -/
def drawLoop (layers : List Nat) (bgColor : Nat) (mem : Nat → Layer) :
    List MovLayerRef → List LcdCall
  | [] => []
  | movLayer :: next =>
    let bounds := layerGetBounds (mem movLayer.layer)
    (LcdCall.setArea bounds.topLeft.x bounds.topLeft.y bounds.botRight.x bounds.botRight.y ::
      drawWindow layers bgColor mem bounds) ++ drawLoop layers bgColor mem next

/-- `void movLayerDraw(MovLayer *movLayers, Layer *layers)`: the moving list, the
layer list in paint order (addresses from the head) and the background color
`bgColor`; the result is the layer memory after the commit and the calls made
to the display, in order. -/
def movLayerDraw (movLayers : List MovLayerRef) (layers : List Nat) (bgColor : Nat)
    (mem : Nat → Layer) : (Nat → Layer) × List LcdCall :=
  let mem1 := commitLoop movLayers mem
  (mem1, drawLoop layers bgColor mem1 movLayers)

/-- The pixels of a window in row-major order, as the claim on the painter's
probe words it: pixel number `k` of a window `w` columns wide is in column
`topLeft.x + k % w` of row `topLeft.y + k / w`. -/
def rowMajorPixels (bounds : Region) : List Vec2 :=
  let w := (bounds.botRight.x + 1 - bounds.topLeft.x).toNat
  let h := (bounds.botRight.y + 1 - bounds.topLeft.y).toNat
  (List.range (h * w)).map fun k =>
    ⟨bounds.topLeft.x + ((k % w : Nat) : Int), bounds.topLeft.y + ((k / w : Nat) : Int)⟩

/-- The color of a pixel as the claim on the painter's probe words it: the color
of the first layer of the list whose shape check at its `pos` contains the
pixel, `bgColor` when there is none. -/
def paintedColor (layers : List Nat) (bgColor : Nat) (mem : Nat → Layer) (pixel : Vec2) : Nat :=
  match layers.find? (fun a => (mem a).abShape.check (mem a).pos pixel) with
  | some a => (mem a).color
  | none => bgColor

/-- A small world for worked examples: at address 0 a ball of radius 1 committed
at `(5,5)` and staged at `(6,5)`, color 7; at address 1 an arrow of size 2
committed at `(3,9)` and staged at `(4,9)`, color 9; every other address holds
a layer like the ball that is never referenced. -/
def demoMem : Nat → Layer
  | 1 => ⟨⟨arrowBounds 2, arrowCheck 2, 2⟩, ⟨3, 9⟩, ⟨2, 9⟩, ⟨4, 9⟩, 9⟩
  | _ => ⟨⟨circleBounds 1, circleCheck 1, 0⟩, ⟨5, 5⟩, ⟨4, 5⟩, ⟨6, 5⟩, 7⟩

/-- The moving list of the small world: the arrow (velocity `(1,0)`), then the
ball (velocity `(1,0)`). -/
def demoMovLayers : List MovLayerRef := [⟨1, ⟨1, 0⟩⟩, ⟨0, ⟨1, 0⟩⟩]

/-- The layer list of the small world, in paint order: the ball, then the
arrow. -/
def demoLayers : List Nat := [0, 1]

/-! ## Region containment (`shapemotion.c`) -/

/-- `char containsRegion(Region *region1, Region *region2)` of `shapemotion.c`:
the eight coordinates are converted to `u_char`; the two tests are written as
in the source, where the lower y bound of each is compared with `reg2_tly`. -/
def containsRegion (region1 region2 : Region) : Nat :=
  let reg1_tlx := toUChar region1.topLeft.x
  let reg1_blx := toUChar region1.botRight.x
  let reg1_bly := toUChar region1.botRight.y
  let reg2_tlx := toUChar region2.topLeft.x
  let reg2_tly := toUChar region2.topLeft.y
  let reg2_blx := toUChar region2.botRight.x
  let reg2_bly := toUChar region2.botRight.y
  if (reg2_tlx ≥ reg1_tlx ∧ reg2_tly ≥ reg2_tly) ∧ (reg2_tlx ≤ reg1_blx ∧ reg2_tly ≤ reg1_bly)
  then 1
  else if (reg2_blx ≥ reg1_tlx ∧ reg2_bly ≥ reg2_tly) ∧
      (reg2_blx ≤ reg1_blx ∧ reg2_bly ≤ reg1_bly)
  then 1
  else 0

/-- A pixel lies within a region, boundaries included. -/
def inRegion (r : Region) (p : Vec2) : Prop :=
  (r.topLeft.x ≤ p.x ∧ p.x ≤ r.botRight.x) ∧ (r.topLeft.y ≤ p.y ∧ p.y ≤ r.botRight.y)

/-- A region in the lower half of the screen: `(0,50)-(100,100)`. -/
def lowerRegion : Region := ⟨⟨0, 50⟩, ⟨100, 100⟩⟩

/-- A region above `lowerRegion`, sharing part of its x range: `(10,0)-(20,10)`. -/
def upperRegion : Region := ⟨⟨10, 0⟩, ⟨20, 10⟩⟩

/-- A region inside `lowerRegion`: `(10,60)-(20,70)`. -/
def innerRegion : Region := ⟨⟨10, 60⟩, ⟨20, 70⟩⟩

/-- A ball of the bounce demo staged outside the fence `gameViewBoundary`: circle
of radius 6 at `(130,80)` with velocity `(1,0)`. -/
def ballOutsideFence : MovLayer :=
  ⟨⟨circle6, ⟨129, 80⟩, ⟨128, 80⟩, ⟨130, 80⟩, 2⟩, ⟨1, 0⟩⟩

/-- A ball at rest whose right edge is past the fence `gameViewBoundary`: circle
of radius 6 at `(125,80)` with velocity `(0,0)`. -/
def ballAtRest : MovLayer :=
  ⟨⟨circle6, ⟨125, 80⟩, ⟨125, 80⟩, ⟨125, 80⟩, 2⟩, ⟨0, 0⟩⟩

/-- The state `hitState` with no button held in the tick before. -/
def hitStateReleased : State := { hitState with prevPress := 0 }

/-! ## The states the program reaches

The state is written by the tick handler and by two steps of `main`: the
assignment `redrawScreen = 0` and the first loop of `movLayerDraw(&car3,
&frogLayer)`, which runs with interrupts disabled and so as one step.  The
handler may run between any two steps of `main`. -/

/-- The body of the first loop of `movLayerDraw` on one layer:
`l->posLast = l->pos; l->pos = l->posNext;`. -/
def commitLayer (l : Layer) : Layer :=
  let l1 := { l with posLast := l.pos }
  { l1 with pos := l1.posNext }

/-- The moving list `car3 -> car2 -> car1 -> frog` that `main` passes to
`movLayerDraw` and the handler passes to `carAdvance`. -/
def movLayers (s : State) : List MovLayer := [s.car3, s.car2, s.car1, s.frog]

/-- The first loop of `movLayerDraw(&car3, &frogLayer)` on the game's globals:
the four layers of the moving list are committed. -/
def commitGame (s : State) : State :=
  { s with
    car3 := { s.car3 with layer := commitLayer s.car3.layer }
    car2 := { s.car2 with layer := commitLayer s.car2.layer }
    car1 := { s.car1 with layer := commitLayer s.car1.layer }
    frog := { s.frog with layer := commitLayer s.frog.layer } }

/-- The globals as the initialisers of `frogger.c` and `layerInit` leave them
when interrupts are enabled: start indices, the frog at `(64,17)` with velocity
`(0,0)` and the bounds of `circle6`, the cars at x = 0 in lanes 39, 83, 127
with velocities `(3,0)`, `(2,0)`, `(4,0)` and arrows of size `screenHeight/7`,
every `posNext` equal to `pos`.  The bounds and the point test of the arrows,
which are library code, are left open. -/
def ProgramStart (s : State) : Prop :=
  (s.frogPosInd_x = START_X ∧ s.frogPosInd_y = START_Y) ∧
  (s.frog.velocity = ⟨0, 0⟩ ∧ s.frog.layer.pos = ⟨64, 17⟩ ∧ s.frog.layer.posNext = ⟨64, 17⟩ ∧
    ∀ p : Vec2, s.frog.layer.abShape.getBounds p = circleBounds 6 p) ∧
  (s.car1.velocity = ⟨3, 0⟩ ∧ s.car1.layer.pos = ⟨0, 39⟩ ∧ s.car1.layer.posNext = ⟨0, 39⟩ ∧
    s.car1.layer.abShape.size = screenHeight / 7) ∧
  (s.car2.velocity = ⟨2, 0⟩ ∧ s.car2.layer.pos = ⟨0, 83⟩ ∧ s.car2.layer.posNext = ⟨0, 83⟩ ∧
    s.car2.layer.abShape.size = screenHeight / 7) ∧
  (s.car3.velocity = ⟨4, 0⟩ ∧ s.car3.layer.pos = ⟨0, 127⟩ ∧ s.car3.layer.posNext = ⟨0, 127⟩ ∧
    s.car3.layer.abShape.size = screenHeight / 7) ∧
  (s.prevPress = 0 ∧ s.redrawScreen = 1 ∧ s.count = 0)

/-- The states the program reaches: a start state, followed by any number of
steps, each one an invocation of the handler (`interrupt`), the invocation of
the handler on which `count` reaches 15 (`tick`, the game tick; the invocations
before it only advance `count`), `main`'s `redrawScreen = 0` (`clearFlag`), or
the commit loop of `movLayerDraw` (`commit`).  Every interleaving of the handler
and `main` is a sequence of such steps; `tick` is allowed at any value of
`count`, which only adds states. -/
inductive Reachable : State → Prop where
  | start (s : State) : ProgramStart s → Reachable s
  | interrupt (s : State) (pressed : Nat) : Reachable s → Reachable (wdt_c_handler s pressed)
  | tick (s : State) (pressed : Nat) : Reachable s → Reachable (gameTick s pressed)
  | clearFlag (s : State) : Reachable s → Reachable { s with redrawScreen := 0 }
  | commit (s : State) : Reachable s → Reachable (commitGame s)

/-- One round of play with no button pressed: a game tick, then the redraw's
commit. -/
def playRound (s : State) : State := commitGame (gameTick s 65535)

/-- `n` rounds of play with no button pressed. -/
def playRounds : Nat → State → State
  | 0, s => s
  | n + 1, s => playRounds n (playRound s)

/-- A state met in play: 31 rounds with no button pressed from the initial
state; `car3` is staged at x = 124, `car1` at 93 and `car2` at 62. -/
def carAtRightEdge : State := playRounds 31 initialState

/-- What every step of the program keeps: the frog's moving layer has velocity
`(0,0)` and the bounds of `circle6`; the lane indices are inside the tables and
`frogLayer.posNext` is the table entry pair at them; each car has
`velocity.y = 0`, the size `screenHeight/7`, and both its `posNext` and its
committed `pos` in its own lane 39, 83 or 127; and at row index 6 the hit test
returns 0. -/
def GameInv (s : State) : Prop :=
  ((∀ p : Vec2, s.frogLayer.abShape.getBounds p = circleBounds 6 p) ∧
    s.frog.velocity = ⟨0, 0⟩ ∧ s.frogPosInd_x ≤ 4 ∧ s.frogPosInd_y ≤ 6 ∧
    s.frogLayer.posNext = ⟨lanePosXAt s.frogPosInd_x, lanePosYAt s.frogPosInd_y⟩) ∧
  (s.car1.velocity.y = 0 ∧ s.car2.velocity.y = 0 ∧ s.car3.velocity.y = 0) ∧
  (s.car1.layer.posNext.y = 39 ∧ s.car2.layer.posNext.y = 83 ∧
    s.car3.layer.posNext.y = 127) ∧
  (s.car1.layer.pos.y = 39 ∧ s.car2.layer.pos.y = 83 ∧ s.car3.layer.pos.y = 127) ∧
  (s.car1.layer.abShape.size = screenHeight / 7 ∧
    s.car2.layer.abShape.size = screenHeight / 7 ∧
    s.car3.layer.abShape.size = screenHeight / 7) ∧
  (s.frogPosInd_y = 6 → didLose s = 0)

/-! ## Basic facts about `moveFrog` -/

theorem moveFrog_cases (d : Nat) (s : State) :
    moveFrog d s = s ∨
    (d = 1 ∧ 0 < s.frogPosInd_x ∧ moveFrog d s =
      setFrogPosNext { s with frogPosInd_x := decUChar s.frogPosInd_x }
        ⟨lanePosXAt (decUChar s.frogPosInd_x), lanePosYAt s.frogPosInd_y⟩) ∨
    (d = 2 ∧ s.frogPosInd_x < 4 ∧ moveFrog d s =
      setFrogPosNext { s with frogPosInd_x := incUChar s.frogPosInd_x }
        ⟨lanePosXAt (incUChar s.frogPosInd_x), lanePosYAt s.frogPosInd_y⟩) ∨
    (d = 3 ∧ 0 < s.frogPosInd_y ∧ moveFrog d s =
      setFrogPosNext { s with frogPosInd_y := decUChar s.frogPosInd_y }
        ⟨lanePosXAt s.frogPosInd_x, lanePosYAt (decUChar s.frogPosInd_y)⟩) ∨
    (d = 4 ∧ s.frogPosInd_y < 6 ∧ moveFrog d s =
      setFrogPosNext { s with frogPosInd_y := incUChar s.frogPosInd_y }
        ⟨lanePosXAt s.frogPosInd_x, lanePosYAt (incUChar s.frogPosInd_y)⟩) := by
  unfold moveFrog
  split_ifs with h1 h1x h2 h2x h3 h3y h4 h4y
  · exact Or.inl rfl
  · exact Or.inr (Or.inl ⟨h1, by omega, rfl⟩)
  · exact Or.inl rfl
  · exact Or.inr (Or.inr (Or.inl ⟨h2, by omega, rfl⟩))
  · exact Or.inl rfl
  · exact Or.inr (Or.inr (Or.inr (Or.inl ⟨h3, by omega, rfl⟩)))
  · exact Or.inl rfl
  · exact Or.inr (Or.inr (Or.inr (Or.inr ⟨h4, by omega, rfl⟩)))
  · exact Or.inl rfl

theorem moveFrog_inBounds (d : Nat) (s : State)
    (h : s.frogPosInd_x ≤ 4 ∧ s.frogPosInd_y ≤ 6) :
    (moveFrog d s).frogPosInd_x ≤ 4 ∧ (moveFrog d s).frogPosInd_y ≤ 6 := by
  obtain ⟨hx, hy⟩ := h
  rcases moveFrog_cases d s with e | ⟨_, h0, e⟩ | ⟨_, h0, e⟩ | ⟨_, h0, e⟩ | ⟨_, h0, e⟩
  · rw [e]; exact ⟨hx, hy⟩
  all_goals
    rw [e]
    simp only [setFrogPosNext, decUChar, incUChar]
    omega

theorem moveFrog_cars (d : Nat) (s : State) :
    (moveFrog d s).car1 = s.car1 ∧ (moveFrog d s).car2 = s.car2 ∧
    (moveFrog d s).car3 = s.car3 := by
  rcases moveFrog_cases d s with e | ⟨_, _, e⟩ | ⟨_, _, e⟩ | ⟨_, _, e⟩ | ⟨_, _, e⟩ <;>
    rw [e] <;> simp [setFrogPosNext]

theorem moveFrog_prevPress (d : Nat) (s : State) :
    (moveFrog d s).prevPress = s.prevPress := by
  rcases moveFrog_cases d s with e | ⟨_, _, e⟩ | ⟨_, _, e⟩ | ⟨_, _, e⟩ | ⟨_, _, e⟩ <;>
    rw [e] <;> simp [setFrogPosNext]

/-! ## The lane-index invariant -/

theorem inputReducer_inBounds (s : State) (pressed : Nat)
    (h : s.frogPosInd_x ≤ 4 ∧ s.frogPosInd_y ≤ 6) :
    (inputReducer s pressed).frogPosInd_x ≤ 4 ∧ (inputReducer s pressed).frogPosInd_y ≤ 6 := by
  unfold inputReducer
  simp only []
  split_ifs <;>
    first
      | exact h
      | exact moveFrog_inBounds _ _ h
      | exact moveFrog_inBounds _ _ (moveFrog_inBounds _ _ h)
      | exact moveFrog_inBounds _ _ (moveFrog_inBounds _ _ (moveFrog_inBounds _ _ h))
      | exact moveFrog_inBounds _ _
          (moveFrog_inBounds _ _ (moveFrog_inBounds _ _ (moveFrog_inBounds _ _ h)))

theorem loseBranch_inBounds (s : State)
    (h : s.frogPosInd_x ≤ 4 ∧ s.frogPosInd_y ≤ 6) :
    (loseBranch s).frogPosInd_x ≤ 4 ∧ (loseBranch s).frogPosInd_y ≤ 6 := by
  unfold loseBranch
  split_ifs
  · simp [resetFrog, setFrogPosNext, START_X, START_Y]
  · exact h

theorem winBranch_indices (s : State) :
    (winBranch s).frogPosInd_x = s.frogPosInd_x ∧
    (winBranch s).frogPosInd_y = s.frogPosInd_y := by
  unfold winBranch
  split_ifs <;> simp [stopCars]

theorem gameTick_inBounds (s : State) (pressed : Nat)
    (h : s.frogPosInd_x ≤ 4 ∧ s.frogPosInd_y ≤ 6) :
    (gameTick s pressed).frogPosInd_x ≤ 4 ∧ (gameTick s pressed).frogPosInd_y ≤ 6 := by
  have h1 : (winBranch s).frogPosInd_x ≤ 4 ∧ (winBranch s).frogPosInd_y ≤ 6 := by
    rw [(winBranch_indices s).1, (winBranch_indices s).2]; exact h
  have h2 := loseBranch_inBounds _ h1
  have h3 : (carAdvanceGame (loseBranch (winBranch s)) gameViewBoundary).frogPosInd_x ≤ 4 ∧
      (carAdvanceGame (loseBranch (winBranch s)) gameViewBoundary).frogPosInd_y ≤ 6 := h2
  have h4 := inputReducer_inBounds _ pressed h3
  unfold gameTick
  simp only []
  split_ifs <;> exact h4

theorem wdt_c_handler_inBounds (s : State) (pressed : Nat)
    (h : s.frogPosInd_x ≤ 4 ∧ s.frogPosInd_y ≤ 6) :
    (wdt_c_handler s pressed).frogPosInd_x ≤ 4 ∧
    (wdt_c_handler s pressed).frogPosInd_y ≤ 6 := by
  unfold wdt_c_handler
  simp only []
  split_ifs
  · exact gameTick_inBounds _ pressed h
  · exact h

theorem runHandler_inBounds (inputs : List Nat) :
    ∀ s : State, (s.frogPosInd_x ≤ 4 ∧ s.frogPosInd_y ≤ 6) →
      (runHandler s inputs).frogPosInd_x ≤ 4 ∧ (runHandler s inputs).frogPosInd_y ≤ 6 := by
  induction inputs with
  | nil => intro s h; exact h
  | cons p rest ih =>
    intro s h
    exact ih _ (wdt_c_handler_inBounds s p h)

/-! ## Table reads -/

theorem lanePosXAt_eq (i : Nat) (h : i ≤ 4) : lanePosX[i]? = some (lanePosXAt i).toNat := by
  interval_cases i <;> simp [lanePosXAt, lanePosX]

theorem lanePosYAt_eq (i : Nat) (h : i ≤ 6) : lanePosY[i]? = some (lanePosYAt i).toNat := by
  interval_cases i <;> simp [lanePosYAt, lanePosY]

/-! ## Collision test -/

theorem wasHit_zero_or_one (carReg frogReg : Region) :
    wasHit carReg frogReg = 0 ∨ wasHit carReg frogReg = 1 := by
  unfold wasHit
  simp only []
  split_ifs <;> simp

theorem wasHit_eq_one_iff (carReg frogReg : Region) :
    wasHit carReg frogReg = 1 ↔
      (toUChar carReg.topLeft.x < toUChar frogReg.topLeft.x ∧
        toUChar frogReg.topLeft.x < toUChar carReg.botRight.x) ∨
      (toUChar carReg.topLeft.x < toUChar frogReg.botRight.x ∧
        toUChar frogReg.botRight.x < toUChar carReg.botRight.x) := by
  unfold wasHit
  simp only []
  split_ifs with h1 h2
  · simp only [true_iff]; exact Or.inl ⟨h1.2, h1.1⟩
  · simp only [true_iff]; exact Or.inr ⟨h2.2, h2.1⟩
  · refine ⟨fun h => absurd h (by decide), ?_⟩
    rintro (⟨a, b⟩ | ⟨a, b⟩)
    · exact h1 ⟨b, a⟩
    · exact h2 ⟨b, a⟩

theorem toUChar_of_range (v : Int) (h0 : 0 ≤ v) (h1 : v ≤ 255) : toUChar v = v := by
  unfold toUChar; omega

theorem didLoseLoop_zero_or_one (frogLayer : Layer) (cars : List Layer) :
    didLoseLoop frogLayer cars = 0 ∨ didLoseLoop frogLayer cars = 1 := by
  induction cars with
  | nil => exact Or.inl rfl
  | cons c rest ih =>
    unfold didLoseLoop
    split_ifs
    · exact ih
    · exact Or.inr rfl
    · exact ih

theorem didLoseLoop_eq_one_iff (frogLayer : Layer) (cars : List Layer) :
    didLoseLoop frogLayer cars = 1 ↔
      ∃ carLayer ∈ cars, carLayer.pos.y = frogLayer.pos.y ∧
        wasHit (carLayer.abShape.getBounds carLayer.pos)
          (frogLayer.abShape.getBounds frogLayer.pos) = 1 := by
  induction cars with
  | nil => simp [didLoseLoop]
  | cons c rest ih =>
    unfold didLoseLoop
    split_ifs with hy hh
    · rw [ih]
      constructor
      · rintro ⟨l, hl, h⟩
        exact ⟨l, List.mem_cons_of_mem _ hl, h⟩
      · rintro ⟨l, hl, h⟩
        rcases List.mem_cons.1 hl with rfl | hl
        · exact absurd h.1.symm hy
        · exact ⟨l, hl, h⟩
    · simp only [true_iff]
      refine ⟨c, List.mem_cons_self _ _, ?_, ?_⟩
      · exact (not_not.1 hy).symm
      · rcases wasHit_zero_or_one (c.abShape.getBounds c.pos)
          (frogLayer.abShape.getBounds frogLayer.pos) with h | h
        · exact absurd h hh
        · exact h
    · rw [ih]
      constructor
      · rintro ⟨l, hl, h⟩
        exact ⟨l, List.mem_cons_of_mem _ hl, h⟩
      · rintro ⟨l, hl, h⟩
        rcases List.mem_cons.1 hl with rfl | hl
        · exact absurd h.2 (by rw [not_not.1 hh]; decide)
        · exact ⟨l, hl, h⟩

/-! ## Structure of the game tick -/

theorem inputReducer_eq_foldl (s : State) (pressed : Nat) :
    inputReducer s pressed =
      { (moveFrogCalls s.prevPress pressed).foldl (fun t d => moveFrog d t) s with
        prevPress := bitNot16 pressed } := by
  unfold inputReducer moveFrogCalls
  simp only []
  split_ifs <;> rfl

theorem inputReducer_no_calls (s : State) (pressed : Nat)
    (h : moveFrogCalls s.prevPress pressed = []) :
    inputReducer s pressed = { s with prevPress := bitNot16 pressed } := by
  rw [inputReducer_eq_foldl, h]; rfl

theorem foldl_moveFrog_cars (ds : List Nat) :
    ∀ s : State,
      (ds.foldl (fun t d => moveFrog d t) s).car1 = s.car1 ∧
      (ds.foldl (fun t d => moveFrog d t) s).car2 = s.car2 ∧
      (ds.foldl (fun t d => moveFrog d t) s).car3 = s.car3 := by
  induction ds with
  | nil => intro s; exact ⟨rfl, rfl, rfl⟩
  | cons d rest ih =>
    intro s
    have h := ih (moveFrog d s)
    have m := moveFrog_cars d s
    simp only [List.foldl_cons]
    exact ⟨h.1.trans m.1, h.2.1.trans m.2.1, h.2.2.trans m.2.2⟩

theorem inputReducer_cars (s : State) (pressed : Nat) :
    (inputReducer s pressed).car1 = s.car1 ∧ (inputReducer s pressed).car2 = s.car2 ∧
    (inputReducer s pressed).car3 = s.car3 := by
  rw [inputReducer_eq_foldl]
  exact foldl_moveFrog_cars _ s

theorem loseBranch_cars (s : State) :
    (loseBranch s).car1 = s.car1 ∧ (loseBranch s).car2 = s.car2 ∧
    (loseBranch s).car3 = s.car3 := by
  unfold loseBranch
  split_ifs <;> simp [resetFrog, setFrogPosNext]

theorem winBranch_frog (s : State) : (winBranch s).frog = s.frog := by
  unfold winBranch
  split_ifs <;> simp [stopCars]

theorem didLose_winBranch (s : State) : didLose (winBranch s) = didLose s := by
  unfold winBranch
  split_ifs <;> rfl

theorem gameTick_cars (s : State) (pressed : Nat) :
    (gameTick s pressed).car1 = carAdvanceStep gameViewBoundary (winBranch s).car1 ∧
    (gameTick s pressed).car2 = carAdvanceStep gameViewBoundary (winBranch s).car2 ∧
    (gameTick s pressed).car3 = carAdvanceStep gameViewBoundary (winBranch s).car3 := by
  have hi := inputReducer_cars (carAdvanceGame (loseBranch (winBranch s)) gameViewBoundary) pressed
  have hl := loseBranch_cars (winBranch s)
  unfold gameTick
  simp only []
  split_ifs
  · exact ⟨hi.1.trans (by simp [carAdvanceGame, hl.1]),
      hi.2.1.trans (by simp [carAdvanceGame, hl.2.1]),
      hi.2.2.trans (by simp [carAdvanceGame, hl.2.2])⟩
  · exact ⟨hi.1.trans (by simp [carAdvanceGame, hl.1]),
      hi.2.1.trans (by simp [carAdvanceGame, hl.2.1]),
      hi.2.2.trans (by simp [carAdvanceGame, hl.2.2])⟩

theorem gameTick_no_calls (s : State) (pressed : Nat)
    (h : moveFrogCalls s.prevPress pressed = []) :
    gameTick s pressed = gameTickNoMove s pressed := by
  have hp : (carAdvanceGame (loseBranch (winBranch s)) gameViewBoundary).prevPress
      = s.prevPress := by
    unfold carAdvanceGame loseBranch winBranch
    split_ifs <;> rfl
  unfold gameTick gameTickNoMove
  simp only []
  rw [inputReducer_no_calls _ _ (by rw [hp]; exact h)]

theorem carAdvanceStep_at_rest (fence : Region) (m : MovLayer)
    (hv : m.velocity = ⟨0, 0⟩)
    (hb : (m.layer.abShape.getBounds m.layer.posNext).botRight.x < fence.botRight.x) :
    carAdvanceStep fence m = m := by
  obtain ⟨⟨sh, pos, posLast, ⟨px, py⟩, color⟩, vel⟩ := m
  simp only at hv hb
  subst hv
  have hlt : ¬ (sh.getBounds ⟨px, py⟩).botRight.x ≥ fence.botRight.x := not_le.2 hb
  simp [carAdvanceStep, vec2Add, velocityAddrGtZero, velocityAddrLtZero, hlt]

/-! ## Switch bits -/

theorem and_two_pow_ne_zero_iff (n i : Nat) : n &&& 2 ^ i ≠ 0 ↔ n.testBit i = true := by
  rw [Nat.and_two_pow]
  cases n.testBit i <;> simp

theorem xor_testBit_iff (a b i : Nat) :
    (a ^^^ b).testBit i = true ↔ b.testBit i ≠ a.testBit i := by
  rw [Nat.testBit_xor]
  cases a.testBit i <;> cases b.testBit i <;> simp

theorem bitNot16_testBit (n k : Nat) (hk : k < 16) :
    (bitNot16 n).testBit k = !(toUInt n).testBit k := by
  have hlt : toUInt n < 2 ^ 16 := by unfold toUInt; omega
  have h := Nat.testBit_two_pow_sub_succ hlt k
  have e : bitNot16 n = 2 ^ 16 - (toUInt n + 1) := by unfold bitNot16; omega
  rw [e, h]
  simp [hk]

theorem call_condition_iff (prevPress sw i : Nat) :
    (sw &&& 2 ^ i ≠ 0 ∧ (prevPress ^^^ sw) &&& 2 ^ i ≠ 0) ↔
      (sw.testBit i = true ∧ sw.testBit i ≠ prevPress.testBit i) := by
  rw [and_two_pow_ne_zero_iff, and_two_pow_ne_zero_iff, xor_testBit_iff]

theorem moveFrogCalls_same_mask (pressed : Nat) :
    moveFrogCalls (bitNot16 pressed) pressed = [] := by
  simp [moveFrogCalls]

theorem filter_four (f : Nat → Bool) :
    [4, 3, 1, 2].filter f =
      (if f 4 = true then [4] else []) ++ (if f 3 = true then [3] else []) ++
      (if f 1 = true then [1] else []) ++ (if f 2 = true then [2] else []) := by
  simp only [List.filter]
  cases f 4 <;> cases f 3 <;> cases f 1 <;> cases f 2 <;> rfl

theorem moveFrogCalls_eq_filter (prevPress pressed : Nat) :
    moveFrogCalls prevPress pressed = [4, 3, 1, 2].filter (newlyPressed prevPress pressed) := by
  have e4 : newlyPressed prevPress pressed 4 = decide (bitNot16 pressed &&& 4 ≠ 0 ∧
      (prevPress ^^^ bitNot16 pressed) &&& 4 ≠ 0) := rfl
  have e3 : newlyPressed prevPress pressed 3 = decide (bitNot16 pressed &&& 2 ≠ 0 ∧
      (prevPress ^^^ bitNot16 pressed) &&& 2 ≠ 0) := rfl
  have e1 : newlyPressed prevPress pressed 1 = decide (bitNot16 pressed &&& 1 ≠ 0 ∧
      (prevPress ^^^ bitNot16 pressed) &&& 1 ≠ 0) := rfl
  have e2 : newlyPressed prevPress pressed 2 = decide (bitNot16 pressed &&& 8 ≠ 0 ∧
      (prevPress ^^^ bitNot16 pressed) &&& 8 ≠ 0) := rfl
  rw [filter_four, e4, e3, e1, e2]
  simp only [decide_eq_true_eq]
  rfl

/-! ## The staged position of the frog -/

theorem lanePosXAt_le (i : Nat) (h : i ≤ 4) : lanePosXAt i ≤ 107 := by
  interval_cases i <;> simp [lanePosXAt, lanePosX]

theorem moveFrog_frog_fixed (d : Nat) (s : State) :
    (moveFrog d s).frog.velocity = s.frog.velocity ∧
    (moveFrog d s).frog.layer.abShape = s.frog.layer.abShape ∧
    (moveFrog d s).frog.layer.pos = s.frog.layer.pos := by
  rcases moveFrog_cases d s with e | ⟨_, _, e⟩ | ⟨_, _, e⟩ | ⟨_, _, e⟩ | ⟨_, _, e⟩ <;>
    rw [e] <;> simp [setFrogPosNext]

theorem moveFrog_staged (d : Nat) (s : State)
    (h : s.frogLayer.posNext = ⟨lanePosXAt s.frogPosInd_x, lanePosYAt s.frogPosInd_y⟩) :
    (moveFrog d s).frogLayer.posNext =
      ⟨lanePosXAt (moveFrog d s).frogPosInd_x, lanePosYAt (moveFrog d s).frogPosInd_y⟩ := by
  rcases moveFrog_cases d s with e | ⟨_, _, e⟩ | ⟨_, _, e⟩ | ⟨_, _, e⟩ | ⟨_, _, e⟩
  · rw [e]; exact h
  all_goals
    rw [e]
    rfl

theorem foldl_moveFrog_staged (ds : List Nat) :
    ∀ s : State,
      s.frogLayer.posNext = ⟨lanePosXAt s.frogPosInd_x, lanePosYAt s.frogPosInd_y⟩ →
      (ds.foldl (fun t d => moveFrog d t) s).frogLayer.posNext =
        ⟨lanePosXAt (ds.foldl (fun t d => moveFrog d t) s).frogPosInd_x,
          lanePosYAt (ds.foldl (fun t d => moveFrog d t) s).frogPosInd_y⟩ := by
  induction ds with
  | nil => intro s h; exact h
  | cons d rest ih =>
    intro s h
    simp only [List.foldl_cons]
    exact ih _ (moveFrog_staged d s h)

theorem foldl_moveFrog_frog_fixed (ds : List Nat) :
    ∀ s : State,
      (ds.foldl (fun t d => moveFrog d t) s).frog.velocity = s.frog.velocity ∧
      (ds.foldl (fun t d => moveFrog d t) s).frog.layer.abShape = s.frog.layer.abShape ∧
      (ds.foldl (fun t d => moveFrog d t) s).frog.layer.pos = s.frog.layer.pos := by
  induction ds with
  | nil => intro s; exact ⟨rfl, rfl, rfl⟩
  | cons d rest ih =>
    intro s
    simp only [List.foldl_cons]
    have h := ih (moveFrog d s)
    have m := moveFrog_frog_fixed d s
    exact ⟨h.1.trans m.1, h.2.1.trans m.2.1, h.2.2.trans m.2.2⟩

theorem loseBranch_staged (s : State)
    (h : s.frogLayer.posNext = ⟨lanePosXAt s.frogPosInd_x, lanePosYAt s.frogPosInd_y⟩) :
    (loseBranch s).frogLayer.posNext =
      ⟨lanePosXAt (loseBranch s).frogPosInd_x, lanePosYAt (loseBranch s).frogPosInd_y⟩ := by
  unfold loseBranch
  split_ifs
  · rfl
  · exact h

theorem loseBranch_frog_fixed (s : State) :
    (loseBranch s).frog.velocity = s.frog.velocity ∧
    (loseBranch s).frog.layer.abShape = s.frog.layer.abShape ∧
    (loseBranch s).frog.layer.pos = s.frog.layer.pos := by
  unfold loseBranch
  split_ifs <;> simp [resetFrog, setFrogPosNext]

theorem gameTick_eq_reducer (s : State) (pressed : Nat) :
    (gameTick s pressed).frogPosInd_x =
      (inputReducer (carAdvanceGame (loseBranch (winBranch s)) gameViewBoundary)
        pressed).frogPosInd_x ∧
    (gameTick s pressed).frogPosInd_y =
      (inputReducer (carAdvanceGame (loseBranch (winBranch s)) gameViewBoundary)
        pressed).frogPosInd_y ∧
    (gameTick s pressed).frog =
      (inputReducer (carAdvanceGame (loseBranch (winBranch s)) gameViewBoundary)
        pressed).frog := by
  unfold gameTick
  simp only []
  split_ifs <;> exact ⟨rfl, rfl, rfl⟩

theorem carAdvanceGame_frog_at_rest (s : State)
    (hShape : ∀ p : Vec2, s.frogLayer.abShape.getBounds p = circleBounds 6 p)
    (hVel : s.frog.velocity = ⟨0, 0⟩)
    (hx : s.frogPosInd_x ≤ 4)
    (hPos : s.frogLayer.posNext = ⟨lanePosXAt s.frogPosInd_x, lanePosYAt s.frogPosInd_y⟩) :
    (carAdvanceGame s gameViewBoundary).frog = s.frog := by
  have hb : (s.frog.layer.abShape.getBounds s.frog.layer.posNext).botRight.x <
      gameViewBoundary.botRight.x := by
    have h1 := hShape s.frog.layer.posNext
    have h2 := lanePosXAt_le _ hx
    unfold State.frogLayer at h1 hPos
    rw [h1, hPos]
    simp only [circleBounds, gameViewBoundary, screenWidth]
    omega
  have := carAdvanceStep_at_rest gameViewBoundary s.frog hVel hb
  simp [carAdvanceGame, this]

theorem gameTick_staged (s : State) (pressed : Nat)
    (hShape : ∀ p : Vec2, s.frogLayer.abShape.getBounds p = circleBounds 6 p)
    (hVel : s.frog.velocity = ⟨0, 0⟩)
    (hx : s.frogPosInd_x ≤ 4) (hy : s.frogPosInd_y ≤ 6)
    (hPos : s.frogLayer.posNext = ⟨lanePosXAt s.frogPosInd_x, lanePosYAt s.frogPosInd_y⟩) :
    (∀ p : Vec2, (gameTick s pressed).frogLayer.abShape.getBounds p = circleBounds 6 p) ∧
    (gameTick s pressed).frog.velocity = ⟨0, 0⟩ ∧
    (gameTick s pressed).frogPosInd_x ≤ 4 ∧ (gameTick s pressed).frogPosInd_y ≤ 6 ∧
    (gameTick s pressed).frogLayer.posNext =
      ⟨lanePosXAt (gameTick s pressed).frogPosInd_x,
        lanePosYAt (gameTick s pressed).frogPosInd_y⟩ := by
  have hw := winBranch_frog s
  have hwi := winBranch_indices s
  have hl := loseBranch_frog_fixed (winBranch s)
  -- the state after the win and hit checks
  have lShape : ∀ p : Vec2,
      (loseBranch (winBranch s)).frogLayer.abShape.getBounds p = circleBounds 6 p := by
    intro p
    unfold State.frogLayer
    rw [hl.2.1, hw]
    exact hShape p
  have lVel : (loseBranch (winBranch s)).frog.velocity = ⟨0, 0⟩ := by
    rw [hl.1, hw]; exact hVel
  have lIn := loseBranch_inBounds (winBranch s) (by rw [hwi.1, hwi.2]; exact ⟨hx, hy⟩)
  have lPos := loseBranch_staged (winBranch s) (by
    unfold State.frogLayer
    rw [hw, hwi.1, hwi.2]
    exact hPos)
  -- the car advance leaves the frog where it is
  have hc := carAdvanceGame_frog_at_rest _ lShape lVel lIn.1 lPos
  have cPos : (carAdvanceGame (loseBranch (winBranch s)) gameViewBoundary).frogLayer.posNext =
      ⟨lanePosXAt (carAdvanceGame (loseBranch (winBranch s)) gameViewBoundary).frogPosInd_x,
        lanePosYAt (carAdvanceGame (loseBranch (winBranch s)) gameViewBoundary).frogPosInd_y⟩ := by
    unfold State.frogLayer
    rw [hc]
    exact lPos
  -- the reducer
  have hg := gameTick_eq_reducer s pressed
  have hr := inputReducer_eq_foldl (carAdvanceGame (loseBranch (winBranch s)) gameViewBoundary)
    pressed
  have hf := foldl_moveFrog_frog_fixed
    (moveFrogCalls (carAdvanceGame (loseBranch (winBranch s)) gameViewBoundary).prevPress pressed)
    (carAdvanceGame (loseBranch (winBranch s)) gameViewBoundary)
  have hs := foldl_moveFrog_staged
    (moveFrogCalls (carAdvanceGame (loseBranch (winBranch s)) gameViewBoundary).prevPress pressed)
    (carAdvanceGame (loseBranch (winBranch s)) gameViewBoundary) cPos
  have hin := gameTick_inBounds s pressed ⟨hx, hy⟩
  refine ⟨?_, ?_, hin.1, hin.2, ?_⟩
  · intro p
    unfold State.frogLayer
    rw [hg.2.2, hr]
    simp only []
    rw [hf.2.1, hc]
    exact lShape p
  · rw [hg.2.2, hr]
    simp only []
    rw [hf.1, hc]
    exact lVel
  · unfold State.frogLayer
    rw [hg.2.2, hg.1, hg.2.1, hr]
    exact hs

theorem wdt_c_handler_staged (s : State) (pressed : Nat)
    (h : (∀ p : Vec2, s.frogLayer.abShape.getBounds p = circleBounds 6 p) ∧
      s.frog.velocity = ⟨0, 0⟩ ∧ s.frogPosInd_x ≤ 4 ∧ s.frogPosInd_y ≤ 6 ∧
      s.frogLayer.posNext = ⟨lanePosXAt s.frogPosInd_x, lanePosYAt s.frogPosInd_y⟩) :
    (∀ p : Vec2, (wdt_c_handler s pressed).frogLayer.abShape.getBounds p = circleBounds 6 p) ∧
    (wdt_c_handler s pressed).frog.velocity = ⟨0, 0⟩ ∧
    (wdt_c_handler s pressed).frogPosInd_x ≤ 4 ∧ (wdt_c_handler s pressed).frogPosInd_y ≤ 6 ∧
    (wdt_c_handler s pressed).frogLayer.posNext =
      ⟨lanePosXAt (wdt_c_handler s pressed).frogPosInd_x,
        lanePosYAt (wdt_c_handler s pressed).frogPosInd_y⟩ := by
  obtain ⟨h1, h2, h3, h4, h5⟩ := h
  unfold wdt_c_handler
  simp only []
  split_ifs
  · exact gameTick_staged _ pressed h1 h2 h3 h4 h5
  · exact ⟨h1, h2, h3, h4, h5⟩

theorem runHandler_staged (inputs : List Nat) :
    ∀ s : State,
      ((∀ p : Vec2, s.frogLayer.abShape.getBounds p = circleBounds 6 p) ∧
        s.frog.velocity = ⟨0, 0⟩ ∧ s.frogPosInd_x ≤ 4 ∧ s.frogPosInd_y ≤ 6 ∧
        s.frogLayer.posNext = ⟨lanePosXAt s.frogPosInd_x, lanePosYAt s.frogPosInd_y⟩) →
      (runHandler s inputs).frogLayer.posNext =
        ⟨lanePosXAt (runHandler s inputs).frogPosInd_x,
          lanePosYAt (runHandler s inputs).frogPosInd_y⟩ := by
  induction inputs with
  | nil => intro s h; exact h.2.2.2.2
  | cons p rest ih =>
    intro s h
    exact ih _ (wdt_c_handler_staged s p h)

theorem beforeInput_prevPress (s : State) :
    (carAdvanceGame (loseBranch (winBranch s)) gameViewBoundary).prevPress = s.prevPress := by
  unfold carAdvanceGame loseBranch winBranch
  split_ifs <;> rfl

theorem gameTick_frog_of_calls (s : State) (pressed : Nat) :
    (gameTick s pressed).frogPosInd_x =
      ((moveFrogCalls s.prevPress pressed).foldl (fun t d => moveFrog d t)
        (carAdvanceGame (loseBranch (winBranch s)) gameViewBoundary)).frogPosInd_x ∧
    (gameTick s pressed).frogPosInd_y =
      ((moveFrogCalls s.prevPress pressed).foldl (fun t d => moveFrog d t)
        (carAdvanceGame (loseBranch (winBranch s)) gameViewBoundary)).frogPosInd_y ∧
    (gameTick s pressed).frog =
      ((moveFrogCalls s.prevPress pressed).foldl (fun t d => moveFrog d t)
        (carAdvanceGame (loseBranch (winBranch s)) gameViewBoundary)).frog := by
  have hg := gameTick_eq_reducer s pressed
  have hr := inputReducer_eq_foldl (carAdvanceGame (loseBranch (winBranch s)) gameViewBoundary)
    pressed
  rw [beforeInput_prevPress] at hr
  rw [hg.1, hg.2.1, hg.2.2, hr]
  exact ⟨rfl, rfl, rfl⟩

theorem beforeInput_start_indices (s : State)
    (hx : s.frogPosInd_x = 2) (hy : s.frogPosInd_y = 0) :
    (carAdvanceGame (loseBranch (winBranch s)) gameViewBoundary).frogPosInd_x = 2 ∧
    (carAdvanceGame (loseBranch (winBranch s)) gameViewBoundary).frogPosInd_y = 0 := by
  have hw := winBranch_indices s
  unfold carAdvanceGame loseBranch
  split_ifs
  · exact ⟨rfl, rfl⟩
  · exact ⟨hw.1.trans hx, hw.2.trans hy⟩

/-! ## Car advance: frame and recycle -/

theorem carAdvanceStep_frame (fence : Region) (m : MovLayer) :
    (carAdvanceStep fence m).velocity = m.velocity ∧
    (carAdvanceStep fence m).layer.pos = m.layer.pos ∧
    (carAdvanceStep fence m).layer.posLast = m.layer.posLast ∧
    (carAdvanceStep fence m).layer.color = m.layer.color ∧
    (carAdvanceStep fence m).layer.abShape = m.layer.abShape :=
  ⟨rfl, rfl, rfl, rfl, rfl⟩

theorem carAdvanceStep_posNext (fence : Region) (m : MovLayer) :
    (carAdvanceStep fence m).layer.posNext =
      if (m.layer.abShape.getBounds (vec2Add m.layer.posNext m.velocity)).botRight.x
          ≥ fence.botRight.x
      then ⟨fence.topLeft.x - toUChar m.layer.abShape.size, m.layer.posNext.y + m.velocity.y⟩
      else ⟨m.layer.posNext.x + m.velocity.x, m.layer.posNext.y + m.velocity.y⟩ := by
  simp only [carAdvanceStep, velocityAddrGtZero, velocityAddrLtZero, vec2Add, true_and,
    Bool.false_eq_true, false_and, if_false]

theorem carAdvance_eq_map (fence : Region) (movLayers : List MovLayer) :
    carAdvance movLayers fence = movLayers.map (carAdvanceStep fence) := by
  induction movLayers with
  | nil => rfl
  | cons m rest ih => simp [carAdvance, ih]

theorem carAdvanceMem_nodes (fence : Region) (movLayers : List MovLayerRef) :
    ∀ mem : Nat → Layer, (carAdvanceMem fence movLayers mem).1 = movLayers := by
  induction movLayers with
  | nil => intro mem; rfl
  | cons m rest ih =>
    intro mem
    simp only [carAdvanceMem, ih]
    rfl

theorem carAdvanceMem_frame (fence : Region) (movLayers : List MovLayerRef) :
    ∀ (mem : Nat → Layer) (a : Nat),
      ((carAdvanceMem fence movLayers mem).2 a).pos = (mem a).pos ∧
      ((carAdvanceMem fence movLayers mem).2 a).posLast = (mem a).posLast ∧
      ((carAdvanceMem fence movLayers mem).2 a).color = (mem a).color ∧
      ((carAdvanceMem fence movLayers mem).2 a).abShape = (mem a).abShape := by
  induction movLayers with
  | nil => intro mem a; exact ⟨rfl, rfl, rfl, rfl⟩
  | cons m rest ih =>
    intro mem a
    simp only [carAdvanceMem]
    have h := ih (Function.update mem m.layer
      (carAdvanceStep fence ⟨mem m.layer, m.velocity⟩).layer) a
    by_cases e : a = m.layer
    · subst e
      simp only [Function.update_same] at h
      exact h
    · simp only [Function.update_noteq e] at h
      exact h

theorem carAdvanceMem_unreferenced (fence : Region) (movLayers : List MovLayerRef) :
    ∀ (mem : Nat → Layer) (a : Nat), (∀ m ∈ movLayers, m.layer ≠ a) →
      (carAdvanceMem fence movLayers mem).2 a = mem a := by
  induction movLayers with
  | nil => intro mem a _; rfl
  | cons m rest ih =>
    intro mem a h
    simp only [carAdvanceMem]
    rw [ih _ a (fun n hn => h n (List.mem_cons_of_mem _ hn))]
    exact Function.update_noteq (fun e => h m (List.mem_cons_self _ _) e.symm) _ _

theorem carAdvanceMemTimes_frame (fence : Region) (n : Nat) :
    ∀ (movLayers : List MovLayerRef) (mem : Nat → Layer),
      (carAdvanceMemTimes fence n movLayers mem).1 = movLayers ∧
      (∀ a : Nat,
        ((carAdvanceMemTimes fence n movLayers mem).2 a).pos = (mem a).pos ∧
        ((carAdvanceMemTimes fence n movLayers mem).2 a).posLast = (mem a).posLast ∧
        ((carAdvanceMemTimes fence n movLayers mem).2 a).color = (mem a).color ∧
        ((carAdvanceMemTimes fence n movLayers mem).2 a).abShape = (mem a).abShape) ∧
      (∀ a : Nat, (∀ m ∈ movLayers, m.layer ≠ a) →
        (carAdvanceMemTimes fence n movLayers mem).2 a = mem a) := by
  induction n with
  | zero => intro ms mem; exact ⟨rfl, fun _ => ⟨rfl, rfl, rfl, rfl⟩, fun _ _ => rfl⟩
  | succ k ih =>
    intro ms mem
    simp only [carAdvanceMemTimes]
    have hn := carAdvanceMem_nodes fence ms mem
    have h := ih (carAdvanceMem fence ms mem).1 (carAdvanceMem fence ms mem).2
    rw [hn] at h
    rw [hn]
    refine ⟨h.1, fun a => ?_, fun a ha => ?_⟩
    · have f := carAdvanceMem_frame fence ms mem a
      have g := h.2.1 a
      exact ⟨g.1.trans f.1, g.2.1.trans f.2.1, g.2.2.1.trans f.2.2.1, g.2.2.2.trans f.2.2.2⟩
    · rw [h.2.2 a ha]
      exact carAdvanceMem_unreferenced fence ms mem a ha

theorem carAdvanceTimes_frame (fence : Region) (n : Nat) :
    ∀ m : MovLayer,
      (carAdvanceTimes fence n m).velocity = m.velocity ∧
      (carAdvanceTimes fence n m).layer.abShape = m.layer.abShape ∧
      (carAdvanceTimes fence n m).layer.pos = m.layer.pos := by
  induction n with
  | zero => intro m; exact ⟨rfl, rfl, rfl⟩
  | succ k ih =>
    intro m
    simp only [carAdvanceTimes]
    have h := ih (carAdvanceStep fence m)
    exact ⟨h.1, h.2.1, h.2.2⟩

theorem carAdvanceTimes_succ (fence : Region) (n : Nat) :
    ∀ m : MovLayer,
      carAdvanceTimes fence (n + 1) m = carAdvanceStep fence (carAdvanceTimes fence n m) := by
  induction n with
  | zero => intro m; rfl
  | succ k ih =>
    intro m
    have h := ih (carAdvanceStep fence m)
    simp only [carAdvanceTimes] at h ⊢
    exact h

theorem toUChar_range (v : Int) : 0 ≤ toUChar v ∧ toUChar v ≤ 255 := by
  unfold toUChar
  omega

theorem carAdvanceTimes_range (fence : Region) (m : MovLayer)
    (hv : 0 ≤ m.velocity.x)
    (hStart : fence.topLeft.x - toUChar m.layer.abShape.size ≤ m.layer.posNext.x) (n : Nat) :
    fence.topLeft.x - toUChar m.layer.abShape.size ≤
      (carAdvanceTimes fence n m).layer.posNext.x ∧
    (1 ≤ n →
      (carAdvanceTimes fence n m).layer.posNext.x =
        fence.topLeft.x - toUChar m.layer.abShape.size ∨
      (m.layer.abShape.getBounds (carAdvanceTimes fence n m).layer.posNext).botRight.x <
        fence.botRight.x) := by
  induction n with
  | zero => exact ⟨hStart, fun h => absurd h (by decide)⟩
  | succ k ih =>
    have hf := carAdvanceTimes_frame fence k m
    have hp := carAdvanceStep_posNext fence (carAdvanceTimes fence k m)
    rw [carAdvanceTimes_succ]
    rw [hf.1, hf.2.1] at hp
    rw [hp]
    split_ifs with hb
    · exact ⟨le_refl _, fun _ => Or.inl rfl⟩
    · refine ⟨?_, fun _ => Or.inr ?_⟩
      · have := ih.1
        simp only
        omega
      · have hlt := not_le.1 hb
        simp only [vec2Add, hf.1] at hlt
        exact hlt

/-! ## The commit step -/

theorem commitLoop_frame (movLayers : List MovLayerRef) :
    ∀ (mem : Nat → Layer) (a : Nat),
      (commitLoop movLayers mem a).posNext = (mem a).posNext ∧
      (commitLoop movLayers mem a).color = (mem a).color ∧
      (commitLoop movLayers mem a).abShape = (mem a).abShape := by
  induction movLayers with
  | nil => intro mem a; exact ⟨rfl, rfl, rfl⟩
  | cons m rest ih =>
    intro mem a
    simp only [commitLoop]
    have h := ih (Function.update mem m.layer
      { abShape := (mem m.layer).abShape, pos := (mem m.layer).posNext,
        posLast := (mem m.layer).pos, posNext := (mem m.layer).posNext,
        color := (mem m.layer).color }) a
    by_cases e : a = m.layer
    · subst e
      simp only [Function.update_same] at h
      exact h
    · simp only [Function.update_noteq e] at h
      exact h

theorem commitLoop_unreferenced (movLayers : List MovLayerRef) :
    ∀ (mem : Nat → Layer) (a : Nat), (∀ m ∈ movLayers, m.layer ≠ a) →
      commitLoop movLayers mem a = mem a := by
  induction movLayers with
  | nil => intro mem a _; rfl
  | cons m rest ih =>
    intro mem a h
    simp only [commitLoop]
    rw [ih _ a (fun n hn => h n (List.mem_cons_of_mem _ hn))]
    exact Function.update_noteq (fun e => h m (List.mem_cons_self _ _) e.symm) _ _

theorem commitLoop_referenced_once (movLayers : List MovLayerRef) :
    ∀ (mem : Nat → Layer), (movLayers.map (fun m => m.layer)).Nodup →
      ∀ m ∈ movLayers,
        (commitLoop movLayers mem m.layer).pos = (mem m.layer).posNext ∧
        (commitLoop movLayers mem m.layer).posLast = (mem m.layer).pos := by
  induction movLayers with
  | nil => intro mem _ m hm; exact absurd hm (List.not_mem_nil _)
  | cons n rest ih =>
    intro mem hnd m hm
    simp only [List.map_cons, List.nodup_cons] at hnd
    simp only [commitLoop]
    rcases List.mem_cons.1 hm with rfl | hm
    · have hnot : ∀ k ∈ rest, k.layer ≠ m.layer := by
        intro k hk e
        exact hnd.1 (List.mem_map.2 ⟨k, hk, e⟩)
      rw [commitLoop_unreferenced rest _ m.layer hnot, Function.update_same]
      exact ⟨rfl, rfl⟩
    · have hne : m.layer ≠ n.layer := by
        intro e
        exact hnd.1 (List.mem_map.2 ⟨m, hm, e⟩)
      have h := ih (Function.update mem n.layer
        { abShape := (mem n.layer).abShape, pos := (mem n.layer).posNext,
          posLast := (mem n.layer).pos, posNext := (mem n.layer).posNext,
          color := (mem n.layer).color }) hnd.2 m hm
      simp only [Function.update_noteq hne] at h
      exact h

theorem commitLoop_pos_cases (movLayers : List MovLayerRef) :
    ∀ (mem : Nat → Layer) (a : Nat),
      (commitLoop movLayers mem a).pos = (mem a).pos ∨
      (commitLoop movLayers mem a).pos = (mem a).posNext := by
  induction movLayers with
  | nil => intro mem a; exact Or.inl rfl
  | cons m rest ih =>
    intro mem a
    simp only [commitLoop]
    have h := ih (Function.update mem m.layer
      { abShape := (mem m.layer).abShape, pos := (mem m.layer).posNext,
        posLast := (mem m.layer).pos, posNext := (mem m.layer).posNext,
        color := (mem m.layer).color }) a
    by_cases e : a = m.layer
    · subst e
      simp only [Function.update_same] at h
      rcases h with h | h
      · exact Or.inr h
      · exact Or.inr h
    · simp only [Function.update_noteq e] at h
      exact h

theorem commitLoop_referenced_pos (movLayers : List MovLayerRef) :
    ∀ (mem : Nat → Layer), ∀ m ∈ movLayers,
      (commitLoop movLayers mem m.layer).pos = (mem m.layer).posNext := by
  induction movLayers with
  | nil => intro mem m hm; exact absurd hm (List.not_mem_nil _)
  | cons n rest ih =>
    intro mem m hm
    simp only [commitLoop]
    by_cases e : m.layer = n.layer
    · have h := commitLoop_pos_cases rest (Function.update mem n.layer
        { abShape := (mem n.layer).abShape, pos := (mem n.layer).posNext,
          posLast := (mem n.layer).pos, posNext := (mem n.layer).posNext,
          color := (mem n.layer).color }) m.layer
      rw [e] at h ⊢
      simp only [Function.update_same] at h
      rcases h with h | h <;> exact h
    · rcases List.mem_cons.1 hm with rfl | hm
      · exact absurd rfl e
      · have h := ih (Function.update mem n.layer
          { abShape := (mem n.layer).abShape, pos := (mem n.layer).posNext,
            posLast := (mem n.layer).pos, posNext := (mem n.layer).posNext,
            color := (mem n.layer).color }) m hm
        simp only [Function.update_noteq e] at h
        exact h

theorem commitLoop_pos_after_commit (movLayers : List MovLayerRef) (mem : Nat → Layer)
    (a : Nat) :
    (commitLoop movLayers (commitLoop movLayers mem) a).pos =
      (commitLoop movLayers mem a).pos := by
  by_cases h : ∃ m ∈ movLayers, m.layer = a
  · obtain ⟨m, hm, rfl⟩ := h
    rw [commitLoop_referenced_pos movLayers (commitLoop movLayers mem) m hm,
      (commitLoop_frame movLayers mem m.layer).1,
      commitLoop_referenced_pos movLayers mem m hm]
  · have hn : ∀ m ∈ movLayers, m.layer ≠ a := fun m hm e => h ⟨m, hm, e⟩
    rw [commitLoop_unreferenced movLayers _ a hn]

/-! ## The painter's probe -/

theorem probeLoop_eq_paintedColor (bgColor : Nat) (mem : Nat → Layer) (pixel : Vec2)
    (layers : List Nat) :
    probeLoop bgColor mem pixel layers = paintedColor layers bgColor mem pixel := by
  induction layers with
  | nil => rfl
  | cons a rest ih =>
    unfold paintedColor at ih ⊢
    simp only [probeLoop, List.find?]
    by_cases h : (mem a).abShape.check (mem a).pos pixel = true
    · simp [h]
    · have hf : (mem a).abShape.check (mem a).pos pixel = false := by
        simpa using h
      rw [if_neg h, ih]
      simp only [hf]

theorem forLoopFrom_single (g : Int → LcdCall) (n : Nat) :
    ∀ v : Int, forLoopFrom (fun c => [g c]) v n =
      (List.range n).map (fun j => g (v + ((j : Nat) : Int))) := by
  induction n with
  | zero => intro v; rfl
  | succ k ih =>
    intro v
    simp only [forLoopFrom, ih, List.range_succ_eq_map, List.map_cons, List.map_map,
      List.singleton_append]
    refine congrArg₂ _ (by simp) ?_
    apply List.map_congr_left
    intro j _
    simp only [Function.comp]
    congr 1
    push_cast
    ring

theorem forLoopFrom_nil (n : Nat) :
    ∀ v : Int, forLoopFrom (fun _ => []) v n = [] := by
  induction n with
  | zero => intro v; rfl
  | succ k ih => intro v; simp [forLoopFrom, ih]

theorem forLoopFrom_rows (g : Vec2 → LcdCall) (x0 : Int) (w : Nat) (hw : 0 < w) (h : Nat) :
    ∀ y0 : Int,
      forLoopFrom (fun row => (List.range w).map (fun j => g ⟨x0 + ((j : Nat) : Int), row⟩)) y0 h =
      (List.range (h * w)).map
        (fun k => g ⟨x0 + ((k % w : Nat) : Int), y0 + ((k / w : Nat) : Int)⟩) := by
  induction h with
  | zero => intro y0; simp [forLoopFrom]
  | succ n ih =>
    intro y0
    have e : (n + 1) * w = w + n * w := by ring
    rw [e, List.range_add, List.map_append, List.map_map]
    simp only [forLoopFrom, ih]
    congr 1
    · apply List.map_congr_left
      intro k hk
      have hk' : k < w := List.mem_range.1 hk
      rw [Nat.mod_eq_of_lt hk', Nat.div_eq_of_lt hk']
      simp
    · apply List.map_congr_left
      intro k _
      simp only [Function.comp]
      have h1 : (w + k) % w = k % w := by simp
      have h2 : (w + k) / w = k / w + 1 := by
        rw [Nat.add_comm, Nat.add_div_right _ hw]
      have h3 : y0 + 1 + ((k / w : Nat) : Int) = y0 + ((k / w + 1 : Nat) : Int) := by
        push_cast
        omega
      rw [h1, h2, h3]

theorem drawWindow_eq_rowMajor (layers : List Nat) (bgColor : Nat) (mem : Nat → Layer)
    (bounds : Region) :
    drawWindow layers bgColor mem bounds =
      (rowMajorPixels bounds).map
        (fun pixel => LcdCall.writeColor (paintedColor layers bgColor mem pixel)) := by
  unfold drawWindow rowMajorPixels forLoop
  simp only [List.map_map]
  have hcols : ∀ row : Int,
      forLoopFrom (fun col => [LcdCall.writeColor (probeLoop bgColor mem ⟨col, row⟩ layers)])
        bounds.topLeft.x (bounds.botRight.x + 1 - bounds.topLeft.x).toNat =
      (List.range (bounds.botRight.x + 1 - bounds.topLeft.x).toNat).map
        (fun j => LcdCall.writeColor
          (paintedColor layers bgColor mem ⟨bounds.topLeft.x + ((j : Nat) : Int), row⟩)) := by
    intro row
    rw [forLoopFrom_single (fun col =>
      LcdCall.writeColor (probeLoop bgColor mem ⟨col, row⟩ layers))]
    apply List.map_congr_left
    intro j _
    rw [probeLoop_eq_paintedColor]
  simp only [hcols]
  rcases Nat.eq_zero_or_pos (bounds.botRight.x + 1 - bounds.topLeft.x).toNat with hw | hw
  · rw [hw]
    simp only [List.range_zero, List.map_nil, Nat.mul_zero]
    exact forLoopFrom_nil _ _
  · exact forLoopFrom_rows
      (fun pixel => LcdCall.writeColor (paintedColor layers bgColor mem pixel))
      bounds.topLeft.x _ hw _ bounds.topLeft.y

theorem drawLoop_eq_flatten (layers : List Nat) (bgColor : Nat) (mem : Nat → Layer)
    (movLayers : List MovLayerRef) :
    drawLoop layers bgColor mem movLayers =
      (movLayers.map (fun m =>
        LcdCall.setArea (layerGetBounds (mem m.layer)).topLeft.x
          (layerGetBounds (mem m.layer)).topLeft.y
          (layerGetBounds (mem m.layer)).botRight.x
          (layerGetBounds (mem m.layer)).botRight.y ::
        drawWindow layers bgColor mem (layerGetBounds (mem m.layer)))).flatten := by
  induction movLayers with
  | nil => rfl
  | cons m rest ih => simp only [drawLoop, ih, List.map_cons, List.flatten_cons]

theorem probeLoop_congr (bgColor : Nat) (mem mem1 : Nat → Layer) (pixel : Vec2)
    (hsame : ∀ a : Nat, (mem1 a).pos = (mem a).pos ∧ (mem1 a).abShape = (mem a).abShape ∧
      (mem1 a).color = (mem a).color) (layers : List Nat) :
    probeLoop bgColor mem1 pixel layers = probeLoop bgColor mem pixel layers := by
  induction layers with
  | nil => rfl
  | cons a rest ih =>
    simp only [probeLoop, ih, (hsame a).1, (hsame a).2.1, (hsame a).2.2]

theorem drawLoop_congr (layers : List Nat) (bgColor : Nat) (mem mem1 : Nat → Layer)
    (hsame : ∀ a : Nat, (mem1 a).pos = (mem a).pos ∧ (mem1 a).abShape = (mem a).abShape ∧
      (mem1 a).color = (mem a).color) (movLayers : List MovLayerRef) :
    drawLoop layers bgColor mem1 movLayers = drawLoop layers bgColor mem movLayers := by
  have hp : ∀ pixel : Vec2,
      probeLoop bgColor mem1 pixel layers = probeLoop bgColor mem pixel layers :=
    fun pixel => probeLoop_congr bgColor mem mem1 pixel hsame layers
  induction movLayers with
  | nil => rfl
  | cons m rest ih =>
    simp only [drawLoop, ih, layerGetBounds, drawWindow, hp, (hsame m.layer).1,
      (hsame m.layer).2.1]

theorem rowMajorPixels_length (bounds : Region) :
    (rowMajorPixels bounds).length =
      (bounds.botRight.y + 1 - bounds.topLeft.y).toNat *
        (bounds.botRight.x + 1 - bounds.topLeft.x).toNat := by
  simp [rowMajorPixels]

theorem rowMajorPixels_mem (bounds : Region) (pixel : Vec2) :
    pixel ∈ rowMajorPixels bounds ↔
      (bounds.topLeft.x ≤ pixel.x ∧ pixel.x ≤ bounds.botRight.x) ∧
      (bounds.topLeft.y ≤ pixel.y ∧ pixel.y ≤ bounds.botRight.y) := by
  obtain ⟨px, py⟩ := pixel
  unfold rowMajorPixels
  simp only [List.mem_map, List.mem_range, Vec2.mk.injEq]
  constructor
  · rintro ⟨k, hk, hx, hy⟩
    have hw : 0 < (bounds.botRight.x + 1 - bounds.topLeft.x).toNat := by
      rcases Nat.eq_zero_or_pos (bounds.botRight.x + 1 - bounds.topLeft.x).toNat with h | h
      · rw [h] at hk; simp at hk
      · exact h
    have h1 : k % (bounds.botRight.x + 1 - bounds.topLeft.x).toNat <
        (bounds.botRight.x + 1 - bounds.topLeft.x).toNat := Nat.mod_lt _ hw
    have h2 : k / (bounds.botRight.x + 1 - bounds.topLeft.x).toNat <
        (bounds.botRight.y + 1 - bounds.topLeft.y).toNat :=
      Nat.div_lt_of_lt_mul (by rw [Nat.mul_comm]; exact hk)
    generalize k % (bounds.botRight.x + 1 - bounds.topLeft.x).toNat = r at hx h1
    generalize k / (bounds.botRight.x + 1 - bounds.topLeft.x).toNat = q at hy h2
    omega
  · rintro ⟨⟨hx1, hx2⟩, hy1, hy2⟩
    have hw : (bounds.botRight.x + 1 - bounds.topLeft.x).toNat =
        (px - bounds.topLeft.x).toNat + ((bounds.botRight.x - px).toNat + 1) := by omega
    have hh : (bounds.botRight.y + 1 - bounds.topLeft.y).toNat =
        (py - bounds.topLeft.y).toNat + ((bounds.botRight.y - py).toNat + 1) := by omega
    have hlt : (px - bounds.topLeft.x).toNat <
        (bounds.botRight.x + 1 - bounds.topLeft.x).toNat := by omega
    refine ⟨(py - bounds.topLeft.y).toNat * (bounds.botRight.x + 1 - bounds.topLeft.x).toNat +
      (px - bounds.topLeft.x).toNat, ?_, ?_, ?_⟩
    · calc (py - bounds.topLeft.y).toNat * (bounds.botRight.x + 1 - bounds.topLeft.x).toNat +
            (px - bounds.topLeft.x).toNat
          < (py - bounds.topLeft.y).toNat * (bounds.botRight.x + 1 - bounds.topLeft.x).toNat +
            (bounds.botRight.x + 1 - bounds.topLeft.x).toNat := by omega
        _ = ((py - bounds.topLeft.y).toNat + 1) *
            (bounds.botRight.x + 1 - bounds.topLeft.x).toNat := by ring
        _ ≤ (bounds.botRight.y + 1 - bounds.topLeft.y).toNat *
            (bounds.botRight.x + 1 - bounds.topLeft.x).toNat :=
          Nat.mul_le_mul_right _ (by omega)
    · rw [Nat.mul_add_mod_of_lt hlt]
      omega
    · rw [Nat.add_comm, Nat.add_mul_div_right _ _ (by omega), Nat.div_eq_of_lt hlt]
      omega

theorem rowMajorPixels_nodup (bounds : Region) : (rowMajorPixels bounds).Nodup := by
  unfold rowMajorPixels
  refine List.Nodup.map_on ?_ (List.nodup_range _)
  intro j _ k _ h
  simp only [Vec2.mk.injEq] at h
  have h1 : j % (bounds.botRight.x + 1 - bounds.topLeft.x).toNat =
      k % (bounds.botRight.x + 1 - bounds.topLeft.x).toNat := by
    have := h.1
    exact Int.ofNat_inj.1 (by linarith)
  have h2 : j / (bounds.botRight.x + 1 - bounds.topLeft.x).toNat =
      k / (bounds.botRight.x + 1 - bounds.topLeft.x).toNat := by
    have := h.2
    exact Int.ofNat_inj.1 (by linarith)
  rw [← Nat.div_add_mod j (bounds.botRight.x + 1 - bounds.topLeft.x).toNat,
    ← Nat.div_add_mod k (bounds.botRight.x + 1 - bounds.topLeft.x).toNat, h1, h2]

/-! ## Bounce advance -/

theorem mlAdvanceMem_pos (fence : Region) (movLayers : List MovLayerRef) :
    ∀ (mem : Nat → Layer) (a : Nat),
      ((mlAdvanceMem fence movLayers mem).2 a).pos = (mem a).pos := by
  induction movLayers with
  | nil => intro mem a; rfl
  | cons m rest ih =>
    intro mem a
    simp only [mlAdvanceMem]
    have h := ih (Function.update mem m.layer
      (mlAdvanceStep fence ⟨mem m.layer, m.velocity⟩).layer) a
    by_cases e : a = m.layer
    · subst e
      simp only [Function.update_same] at h
      exact h
    · simp only [Function.update_noteq e] at h
      exact h

/-! ## Hit, win and the cars' lanes -/

theorem beforeInput_after_hit (s : State) (hLose : didLose s = 1) :
    (carAdvanceGame (loseBranch (winBranch s)) gameViewBoundary).frogPosInd_x = 2 ∧
    (carAdvanceGame (loseBranch (winBranch s)) gameViewBoundary).frogPosInd_y = 0 ∧
    (carAdvanceGame (loseBranch (winBranch s)) gameViewBoundary).frog =
      carAdvanceStep gameViewBoundary
        { s.frog with layer := { s.frog.layer with posNext := ⟨64, 17⟩ } } := by
  have hl : loseBranch (winBranch s) = resetFrog (winBranch s) := by
    unfold loseBranch
    rw [didLose_winBranch, hLose]
    simp
  rw [hl]
  refine ⟨rfl, rfl, ?_⟩
  simp [carAdvanceGame, resetFrog, setFrogPosNext, winBranch_frog, lanePosXAt, lanePosYAt,
    lanePosX, lanePosY, START_X, START_Y]

theorem winBranch_car_layers (s : State) :
    (winBranch s).car1.layer = s.car1.layer ∧ (winBranch s).car2.layer = s.car2.layer ∧
    (winBranch s).car3.layer = s.car3.layer := by
  unfold winBranch
  split_ifs <;> simp [stopCars]

theorem winBranch_velocity_y (s : State)
    (h : s.car1.velocity.y = 0 ∧ s.car2.velocity.y = 0 ∧ s.car3.velocity.y = 0) :
    (winBranch s).car1.velocity.y = 0 ∧ (winBranch s).car2.velocity.y = 0 ∧
    (winBranch s).car3.velocity.y = 0 := by
  unfold winBranch
  split_ifs
  · exact ⟨rfl, rfl, rfl⟩
  · exact h

theorem carAdvanceStep_posNext_y (fence : Region) (m : MovLayer) :
    (carAdvanceStep fence m).layer.posNext.y = m.layer.posNext.y + m.velocity.y := by
  rw [carAdvanceStep_posNext]
  split_ifs <;> rfl

theorem gameTick_lanes (s : State) (pressed : Nat)
    (h : s.car1.velocity.y = 0 ∧ s.car2.velocity.y = 0 ∧ s.car3.velocity.y = 0) :
    ((gameTick s pressed).car1.velocity.y = 0 ∧ (gameTick s pressed).car2.velocity.y = 0 ∧
      (gameTick s pressed).car3.velocity.y = 0) ∧
    ((gameTick s pressed).car1.layer.posNext.y = s.car1.layer.posNext.y ∧
      (gameTick s pressed).car2.layer.posNext.y = s.car2.layer.posNext.y ∧
      (gameTick s pressed).car3.layer.posNext.y = s.car3.layer.posNext.y) := by
  have hc := gameTick_cars s pressed
  have hv := winBranch_velocity_y s h
  have hl := winBranch_car_layers s
  rw [hc.1, hc.2.1, hc.2.2]
  refine ⟨⟨hv.1, hv.2.1, hv.2.2⟩, ?_, ?_, ?_⟩
  · rw [carAdvanceStep_posNext_y, hv.1, hl.1]; simp
  · rw [carAdvanceStep_posNext_y, hv.2.1, hl.2.1]; simp
  · rw [carAdvanceStep_posNext_y, hv.2.2, hl.2.2]; simp

theorem wdt_c_handler_lanes (s : State) (pressed : Nat)
    (h : s.car1.velocity.y = 0 ∧ s.car2.velocity.y = 0 ∧ s.car3.velocity.y = 0) :
    ((wdt_c_handler s pressed).car1.velocity.y = 0 ∧
      (wdt_c_handler s pressed).car2.velocity.y = 0 ∧
      (wdt_c_handler s pressed).car3.velocity.y = 0) ∧
    ((wdt_c_handler s pressed).car1.layer.posNext.y = s.car1.layer.posNext.y ∧
      (wdt_c_handler s pressed).car2.layer.posNext.y = s.car2.layer.posNext.y ∧
      (wdt_c_handler s pressed).car3.layer.posNext.y = s.car3.layer.posNext.y) := by
  unfold wdt_c_handler
  simp only []
  split_ifs
  · exact gameTick_lanes _ pressed h
  · exact ⟨h, rfl, rfl, rfl⟩

theorem runHandler_lanes (inputs : List Nat) :
    ∀ s : State,
      (s.car1.velocity.y = 0 ∧ s.car2.velocity.y = 0 ∧ s.car3.velocity.y = 0) →
      (runHandler s inputs).car1.layer.posNext.y = s.car1.layer.posNext.y ∧
      (runHandler s inputs).car2.layer.posNext.y = s.car2.layer.posNext.y ∧
      (runHandler s inputs).car3.layer.posNext.y = s.car3.layer.posNext.y := by
  induction inputs with
  | nil => intro s _; exact ⟨rfl, rfl, rfl⟩
  | cons p rest ih =>
    intro s h
    have hw := wdt_c_handler_lanes s p h
    have hr := ih (wdt_c_handler s p) hw.1
    exact ⟨hr.1.trans hw.2.1, hr.2.1.trans hw.2.2.1, hr.2.2.trans hw.2.2.2⟩

theorem toUChar_add_mul (v k : Int) : toUChar (v + 256 * k) = toUChar v := by
  unfold toUChar
  omega

theorem mlAdvanceStep_out_x (fence : Region) (ml : MovLayer)
    (h : (ml.layer.abShape.getBounds (vec2Add ml.layer.posNext ml.velocity)).topLeft.x <
        fence.topLeft.x ∨
      (ml.layer.abShape.getBounds (vec2Add ml.layer.posNext ml.velocity)).botRight.x >
        fence.botRight.x) :
    (mlAdvanceStep fence ml).velocity.x = -ml.velocity.x ∧
    (mlAdvanceStep fence ml).layer.posNext.x = ml.layer.posNext.x - ml.velocity.x := by
  simp only [vec2Add] at h
  simp only [mlAdvanceStep, vec2Add, if_pos h]
  exact ⟨trivial, by omega⟩

theorem mlAdvanceStep_out_y (fence : Region) (ml : MovLayer)
    (h : (ml.layer.abShape.getBounds (vec2Add ml.layer.posNext ml.velocity)).topLeft.y <
        fence.topLeft.y ∨
      (ml.layer.abShape.getBounds (vec2Add ml.layer.posNext ml.velocity)).botRight.y >
        fence.botRight.y) :
    (mlAdvanceStep fence ml).velocity.y = -ml.velocity.y ∧
    (mlAdvanceStep fence ml).layer.posNext.y = ml.layer.posNext.y - ml.velocity.y := by
  simp only [vec2Add] at h
  simp only [mlAdvanceStep, vec2Add, if_pos h]
  exact ⟨trivial, by omega⟩

/-! ## A hit with no new press -/

theorem gameTick_hit_no_press (s : State) (pressed : Nat)
    (hLose : didLose s = 1)
    (hNoNew : moveFrogCalls s.prevPress pressed = [])
    (hVel : s.frog.velocity = ⟨0, 0⟩)
    (hFrog : (s.frogLayer.abShape.getBounds ⟨64, 17⟩).botRight.x <
      gameViewBoundary.botRight.x) :
    ((gameTick s pressed).frogPosInd_x = 2 ∧ (gameTick s pressed).frogPosInd_y = 0) ∧
    (gameTick s pressed).frogLayer.posNext = ⟨64, 17⟩ ∧
    (lanePosX[START_X]? = some 64 ∧ lanePosY[START_Y]? = some 17) ∧
    (∀ t : State, (resetFrog t).car1 = t.car1 ∧ (resetFrog t).car2 = t.car2 ∧
      (resetFrog t).car3 = t.car3) ∧
    ((winBranch s).car1.layer = s.car1.layer ∧ (winBranch s).car2.layer = s.car2.layer ∧
      (winBranch s).car3.layer = s.car3.layer) ∧
    ((gameTick s pressed).car1 = carAdvanceStep gameViewBoundary (winBranch s).car1 ∧
      (gameTick s pressed).car2 = carAdvanceStep gameViewBoundary (winBranch s).car2 ∧
      (gameTick s pressed).car3 = carAdvanceStep gameViewBoundary (winBranch s).car3) ∧
    (didWin s = 0 →
      (gameTick s pressed).car1.layer.posNext =
        (carAdvanceStep gameViewBoundary s.car1).layer.posNext ∧
      (gameTick s pressed).car2.layer.posNext =
        (carAdvanceStep gameViewBoundary s.car2).layer.posNext ∧
      (gameTick s pressed).car3.layer.posNext =
        (carAdvanceStep gameViewBoundary s.car3).layer.posNext) := by
  have hcars := gameTick_cars s pressed
  have hl : loseBranch (winBranch s) = resetFrog (winBranch s) := by
    unfold loseBranch
    rw [didLose_winBranch, hLose]
    simp
  have hfrog : (resetFrog (winBranch s)).frog =
      { s.frog with layer := { s.frog.layer with posNext := ⟨64, 17⟩ } } := by
    simp [resetFrog, setFrogPosNext, winBranch_frog, lanePosXAt, lanePosYAt, lanePosX, lanePosY,
      START_X, START_Y]
  have hrest : carAdvanceStep gameViewBoundary (resetFrog (winBranch s)).frog =
      (resetFrog (winBranch s)).frog := by
    apply carAdvanceStep_at_rest
    · rw [hfrog]; exact hVel
    · rw [hfrog]; exact hFrog
  have hfinal : (gameTick s pressed).frog = (resetFrog (winBranch s)).frog ∧
      (gameTick s pressed).frogPosInd_x = 2 ∧ (gameTick s pressed).frogPosInd_y = 0 := by
    rw [gameTick_no_calls s pressed hNoNew]
    unfold gameTickNoMove
    simp only [hl]
    split_ifs <;>
      simp [carAdvanceGame, hrest] <;>
      simp [resetFrog, setFrogPosNext, START_X, START_Y]
  refine ⟨⟨hfinal.2.1, hfinal.2.2⟩, ?_, ⟨by decide, by decide⟩, ?_, ?_, hcars, ?_⟩
  · unfold State.frogLayer
    rw [hfinal.1, hfrog]
  · intro t
    simp [resetFrog, setFrogPosNext]
  · unfold winBranch
    split_ifs <;> simp [stopCars]
  · intro hw
    have e : winBranch s = s := by simp [winBranch, hw]
    rw [hcars.1, hcars.2.1, hcars.2.2, e]
    exact ⟨rfl, rfl, rfl⟩

/-! ## Reachable states -/

theorem didLose_congr (s t : State)
    (hf : t.frog.layer.pos = s.frog.layer.pos ∧ t.frog.layer.abShape = s.frog.layer.abShape)
    (h1 : t.car1.layer.pos = s.car1.layer.pos ∧ t.car1.layer.abShape = s.car1.layer.abShape)
    (h2 : t.car2.layer.pos = s.car2.layer.pos ∧ t.car2.layer.abShape = s.car2.layer.abShape)
    (h3 : t.car3.layer.pos = s.car3.layer.pos ∧ t.car3.layer.abShape = s.car3.layer.abShape) :
    didLose t = didLose s := by
  simp only [didLose, carLayers, didLoseLoop, State.frogLayer, State.carLayer1,
    State.carLayer2, State.carLayer3, hf.1, hf.2, h1.1, h1.2, h2.1, h2.2, h3.1, h3.2]

theorem gameTick_layers_fixed (s : State) (pressed : Nat) :
    ((gameTick s pressed).frog.layer.pos = s.frog.layer.pos ∧
      (gameTick s pressed).frog.layer.abShape = s.frog.layer.abShape) ∧
    ((gameTick s pressed).car1.layer.pos = s.car1.layer.pos ∧
      (gameTick s pressed).car1.layer.abShape = s.car1.layer.abShape) ∧
    ((gameTick s pressed).car2.layer.pos = s.car2.layer.pos ∧
      (gameTick s pressed).car2.layer.abShape = s.car2.layer.abShape) ∧
    ((gameTick s pressed).car3.layer.pos = s.car3.layer.pos ∧
      (gameTick s pressed).car3.layer.abShape = s.car3.layer.abShape) := by
  have hc := gameTick_cars s pressed
  have hl := winBranch_car_layers s
  have hf := gameTick_frog_of_calls s pressed
  have hm := foldl_moveFrog_frog_fixed (moveFrogCalls s.prevPress pressed)
    (carAdvanceGame (loseBranch (winBranch s)) gameViewBoundary)
  have hb := loseBranch_frog_fixed (winBranch s)
  have hw := winBranch_frog s
  refine ⟨⟨?_, ?_⟩, ⟨?_, ?_⟩, ⟨?_, ?_⟩, ⟨?_, ?_⟩⟩
  · rw [hf.2.2, hm.2.2]
    show (loseBranch (winBranch s)).frog.layer.pos = _
    rw [hb.2.2, hw]
  · rw [hf.2.2, hm.2.1]
    show (loseBranch (winBranch s)).frog.layer.abShape = _
    rw [hb.2.1, hw]
  · rw [hc.1]; show (winBranch s).car1.layer.pos = _; rw [hl.1]
  · rw [hc.1]; show (winBranch s).car1.layer.abShape = _; rw [hl.1]
  · rw [hc.2.1]; show (winBranch s).car2.layer.pos = _; rw [hl.2.1]
  · rw [hc.2.1]; show (winBranch s).car2.layer.abShape = _; rw [hl.2.1]
  · rw [hc.2.2]; show (winBranch s).car3.layer.pos = _; rw [hl.2.2]
  · rw [hc.2.2]; show (winBranch s).car3.layer.abShape = _; rw [hl.2.2]

theorem didLose_gameTick (s : State) (pressed : Nat) :
    didLose (gameTick s pressed) = didLose s := by
  have h := gameTick_layers_fixed s pressed
  exact didLose_congr s _ h.1 h.2.1 h.2.2.1 h.2.2.2

theorem didLose_zero_or_one (s : State) : didLose s = 0 ∨ didLose s = 1 :=
  didLoseLoop_zero_or_one _ _

theorem moveFrog_y_le (d : Nat) (s : State) (hy : s.frogPosInd_y ≤ 6) :
    (d = 4 → (moveFrog d s).frogPosInd_y ≤ s.frogPosInd_y + 1) ∧
    (d ≠ 4 → (moveFrog d s).frogPosInd_y ≤ s.frogPosInd_y) := by
  rcases moveFrog_cases d s with e | ⟨hd, h0, e⟩ | ⟨hd, h0, e⟩ | ⟨hd, h0, e⟩ | ⟨hd, h0, e⟩
  · rw [e]; exact ⟨fun _ => Nat.le_succ _, fun _ => le_refl _⟩
  · rw [e]; exact ⟨fun _ => Nat.le_succ _, fun _ => le_refl _⟩
  · rw [e]; exact ⟨fun _ => Nat.le_succ _, fun _ => le_refl _⟩
  · rw [e]
    simp only [setFrogPosNext, decUChar]
    constructor <;> intro _ <;> omega
  · rw [e]
    simp only [setFrogPosNext, incUChar]
    constructor
    · intro _; omega
    · intro h; exact absurd hd h

theorem foldl_moveFrog_y_le (l : List Nat) (h : ∀ d ∈ l, d ≠ 4) :
    ∀ s : State, s.frogPosInd_x ≤ 4 ∧ s.frogPosInd_y ≤ 6 →
      (l.foldl (fun t d => moveFrog d t) s).frogPosInd_y ≤ s.frogPosInd_y := by
  induction l with
  | nil => intro s _; exact le_refl _
  | cons d l ih =>
    intro s b
    rw [List.foldl_cons]
    have hd : d ≠ 4 := h d (List.mem_cons_self d l)
    exact le_trans (ih (fun e he => h e (List.mem_cons_of_mem d he)) _ (moveFrog_inBounds d s b))
      ((moveFrog_y_le d s b.2).2 hd)

theorem reducer_y_le (prevPress pressed : Nat) (s : State) (hx : s.frogPosInd_x ≤ 4)
    (hy : s.frogPosInd_y ≤ 6) :
    ((moveFrogCalls prevPress pressed).foldl (fun t d => moveFrog d t) s).frogPosInd_y ≤
      s.frogPosInd_y + 1 := by
  rw [moveFrogCalls_eq_filter, filter_four, List.append_assoc, List.append_assoc,
    List.foldl_append]
  have b0 : s.frogPosInd_x ≤ 4 ∧ s.frogPosInd_y ≤ 6 := ⟨hx, hy⟩
  have hrest : ∀ d ∈ (if newlyPressed prevPress pressed 3 = true then [3] else []) ++
      ((if newlyPressed prevPress pressed 1 = true then [1] else []) ++
        (if newlyPressed prevPress pressed 2 = true then [2] else [])), d ≠ 4 := by
    intro d hd
    simp only [List.mem_append] at hd
    rcases hd with h | h | h <;> split_ifs at h <;> simp at h <;> omega
  by_cases h4 : newlyPressed prevPress pressed 4 = true
  · rw [if_pos h4, List.foldl_cons, List.foldl_nil]
    exact le_trans (foldl_moveFrog_y_le _ hrest _ (moveFrog_inBounds 4 s b0))
      ((moveFrog_y_le 4 s hy).1 rfl)
  · rw [if_neg h4, List.foldl_nil]
    exact le_trans (foldl_moveFrog_y_le _ hrest _ b0) (Nat.le_succ _)

theorem gameTick_y_after_hit (s : State) (pressed : Nat) (hLose : didLose s = 1) :
    (gameTick s pressed).frogPosInd_y ≤ 1 := by
  have hb := beforeInput_after_hit s hLose
  have h := reducer_y_le s.prevPress pressed
    (carAdvanceGame (loseBranch (winBranch s)) gameViewBoundary)
    (by rw [hb.1]; decide) (by rw [hb.2.1]; decide)
  rw [hb.2.1] at h
  rw [(gameTick_frog_of_calls s pressed).2.1]
  exact h

theorem GameInv_of_start (s : State) (h : ProgramStart s) : GameInv s := by
  obtain ⟨⟨hx, hy⟩, ⟨hfv, _, hfn, hfb⟩, ⟨h1v, h1p, h1n, h1s⟩, ⟨h2v, h2p, h2n, h2s⟩,
    ⟨h3v, h3p, h3n, h3s⟩, _⟩ := h
  refine ⟨⟨hfb, hfv, ?_, ?_, ?_⟩, ⟨?_, ?_, ?_⟩, ⟨?_, ?_, ?_⟩, ⟨?_, ?_, ?_⟩,
    ⟨h1s, h2s, h3s⟩, ?_⟩
  · rw [hx]; decide
  · rw [hy]; decide
  · show s.frog.layer.posNext = _
    rw [hfn, hx, hy]; decide
  · rw [h1v]
  · rw [h2v]
  · rw [h3v]
  · rw [h1n]
  · rw [h2n]
  · rw [h3n]
  · rw [h1p]
  · rw [h2p]
  · rw [h3p]
  · intro h6
    rw [hy] at h6
    exact absurd h6 (by decide)

theorem GameInv_gameTick (s : State) (pressed : Nat) (h : GameInv s) :
    GameInv (gameTick s pressed) := by
  obtain ⟨⟨hb, hv, hx, hy, hn⟩, hvy, ⟨n1, n2, n3⟩, ⟨p1, p2, p3⟩, ⟨z1, z2, z3⟩, h6⟩ := h
  have hst := gameTick_staged s pressed hb hv hx hy hn
  have hl := gameTick_lanes s pressed hvy
  have hf := gameTick_layers_fixed s pressed
  refine ⟨hst, hl.1, ⟨?_, ?_, ?_⟩, ⟨?_, ?_, ?_⟩, ⟨?_, ?_, ?_⟩, ?_⟩
  · rw [hl.2.1, n1]
  · rw [hl.2.2.1, n2]
  · rw [hl.2.2.2, n3]
  · rw [hf.2.1.1, p1]
  · rw [hf.2.2.1.1, p2]
  · rw [hf.2.2.2.1, p3]
  · rw [hf.2.1.2, z1]
  · rw [hf.2.2.1.2, z2]
  · rw [hf.2.2.2.2, z3]
  · intro hy6
    rw [didLose_gameTick]
    rcases didLose_zero_or_one s with h0 | h1
    · exact h0
    · have := gameTick_y_after_hit s pressed h1
      omega

theorem GameInv_handler (s : State) (pressed : Nat) (h : GameInv s) :
    GameInv (wdt_c_handler s pressed) := by
  have h1 : GameInv { s with count := toShort (s.count + 1) } := h
  unfold wdt_c_handler
  simp only
  split_ifs
  · exact GameInv_gameTick _ pressed h1
  · exact h1

theorem GameInv_commit (s : State) (h : GameInv s) : GameInv (commitGame s) := by
  obtain ⟨⟨hb, hv, hx, hy, hn⟩, hvy, ⟨n1, n2, n3⟩, _, hz, _⟩ := h
  refine ⟨⟨hb, hv, hx, hy, hn⟩, hvy, ⟨n1, n2, n3⟩, ⟨n1, n2, n3⟩, hz, ?_⟩
  intro h6
  have e6 : s.frogPosInd_y = 6 := h6
  have hfy : s.frog.layer.posNext.y = 149 := by
    have : s.frog.layer.posNext = _ := hn
    rw [this, e6]; rfl
  simp only [didLose, carLayers, didLoseLoop, State.frogLayer, State.carLayer1,
    State.carLayer2, State.carLayer3, commitGame, commitLayer, hfy, n1, n2, n3]
  simp

theorem reachable_invariant (s : State) (h : Reachable s) : GameInv s := by
  induction h with
  | start s hs => exact GameInv_of_start s hs
  | interrupt s pressed _ ih => exact GameInv_handler s pressed ih
  | tick s pressed _ ih => exact GameInv_gameTick s pressed ih
  | clearFlag s _ ih => exact ih
  | commit s _ ih => exact GameInv_commit s ih

theorem reachable_not_win_and_hit (s : State) (h : Reachable s) :
    ¬ (didWin s ≠ 0 ∧ didLose s ≠ 0) := by
  have hi := reachable_invariant s h
  intro ⟨hw, hl⟩
  have h6 : s.frogPosInd_y = 6 := by
    have := hi.1.2.2.2.1
    unfold didWin at hw
    split_ifs at hw with hge
    · omega
    · exact absurd rfl hw
  exact hl (hi.2.2.2.2.2 h6)

theorem reachable_hit_no_win (s : State) (h : Reachable s) (hLose : didLose s = 1) :
    didWin s = 0 := by
  by_contra hw
  exact reachable_not_win_and_hit s h ⟨hw, by rw [hLose]; decide⟩

theorem programStart_initialState : ProgramStart initialState := by
  refine ⟨⟨rfl, rfl⟩, ⟨rfl, rfl, rfl, fun _ => rfl⟩, ⟨rfl, rfl, rfl, rfl⟩,
    ⟨rfl, rfl, rfl, rfl⟩, ⟨rfl, rfl, rfl, rfl⟩, rfl, rfl, rfl⟩

theorem reachable_playRounds (n : Nat) : ∀ s : State, Reachable s →
    Reachable (playRounds n s) := by
  induction n with
  | zero => intro s h; exact h
  | succ n ih =>
    intro s h
    exact ih _ (Reachable.commit _ (Reachable.tick s 65535 h))

theorem reachable_initialState : Reachable initialState :=
  Reachable.start _ programStart_initialState

set_option maxRecDepth 8000 in
theorem hitState_eq_played :
    hitState = commitGame (gameTick (playRounds 21 initialState) 65531) := by
  rfl

theorem reachable_hitState : Reachable hitState := by
  rw [hitState_eq_played]
  exact Reachable.commit _ (Reachable.tick _ 65531
    (reachable_playRounds 21 initialState reachable_initialState))

theorem reachable_carAtRightEdge : Reachable carAtRightEdge :=
  reachable_playRounds 31 initialState reachable_initialState

/-! ## Claims -/

/-- C1: the lane-index bounds are an invariant.  From any state whose indices
satisfy `frogPosInd_x <= 4` and `frogPosInd_y <= 6` (the start indices `(2,0)`
among them), `moveFrog d` for every direction code `d`, one game tick for every
button word, and any run of the tick handler over any sequence of button words
all end with both indices inside the tables `lanePosX[5]` and `lanePosY[7]`. -/
theorem C1_lane_indices_in_bounds (s : State) (d pressed : Nat) (inputs : List Nat)
    (hx : s.frogPosInd_x ≤ 4) (hy : s.frogPosInd_y ≤ 6) :
    ((moveFrog d s).frogPosInd_x ≤ 4 ∧ (moveFrog d s).frogPosInd_y ≤ 6) ∧
    ((gameTick s pressed).frogPosInd_x ≤ 4 ∧ (gameTick s pressed).frogPosInd_y ≤ 6) ∧
    ((runHandler s inputs).frogPosInd_x < lanePosX.length ∧
      (runHandler s inputs).frogPosInd_y < lanePosY.length) := by
  refine ⟨moveFrog_inBounds d s ⟨hx, hy⟩, gameTick_inBounds s pressed ⟨hx, hy⟩, ?_⟩
  have h := runHandler_inBounds inputs s ⟨hx, hy⟩
  simp only [lanePosX, lanePosY, List.length_cons, List.length_nil]
  omega

/-- Witness of C1 at the program's initial state (indices `(2,0)`), direction
code 200, and sixteen handler invocations with the "down" button held. -/
theorem C1_lane_indices_in_bounds_witness :
    (initialState.frogPosInd_x = 2 ∧ initialState.frogPosInd_y = 0) ∧
    ((moveFrog 200 initialState).frogPosInd_x ≤ 4 ∧
      (moveFrog 200 initialState).frogPosInd_y ≤ 6) ∧
    ((gameTick initialState 65531).frogPosInd_x ≤ 4 ∧
      (gameTick initialState 65531).frogPosInd_y ≤ 6) ∧
    ((runHandler initialState (List.replicate 16 65531)).frogPosInd_x < lanePosX.length ∧
      (runHandler initialState (List.replicate 16 65531)).frogPosInd_y < lanePosY.length) :=
  ⟨⟨rfl, rfl⟩,
    C1_lane_indices_in_bounds initialState 200 65531 (List.replicate 16 65531)
      (by decide) (by decide)⟩

/-- C2: an accepted move changes exactly one index by one and recomputes
`posNext` by table lookup.  For in-bounds indices `(x,y)`: `moveFrog 1` with
`x > 0` gives `(x-1,y)`, `moveFrog 2` with `x < 4` gives `(x+1,y)`, `moveFrog 3`
with `y > 0` gives `(x,y-1)`, `moveFrog 4` with `y < 6` gives `(x,y+1)`; in each
case `frogLayer.posNext` is the pair of table entries at the new indices and
`frogLayer.pos` is unchanged. -/
theorem C2_accepted_move (s : State) (hx : s.frogPosInd_x ≤ 4) (hy : s.frogPosInd_y ≤ 6) :
    (0 < s.frogPosInd_x →
      (moveFrog 1 s).frogPosInd_x = s.frogPosInd_x - 1 ∧
      (moveFrog 1 s).frogPosInd_y = s.frogPosInd_y ∧
      (∃ vx vy, lanePosX[s.frogPosInd_x - 1]? = some vx ∧ lanePosY[s.frogPosInd_y]? = some vy ∧
        (moveFrog 1 s).frogLayer.posNext = ⟨vx, vy⟩) ∧
      (moveFrog 1 s).frogLayer.pos = s.frogLayer.pos) ∧
    (s.frogPosInd_x < 4 →
      (moveFrog 2 s).frogPosInd_x = s.frogPosInd_x + 1 ∧
      (moveFrog 2 s).frogPosInd_y = s.frogPosInd_y ∧
      (∃ vx vy, lanePosX[s.frogPosInd_x + 1]? = some vx ∧ lanePosY[s.frogPosInd_y]? = some vy ∧
        (moveFrog 2 s).frogLayer.posNext = ⟨vx, vy⟩) ∧
      (moveFrog 2 s).frogLayer.pos = s.frogLayer.pos) ∧
    (0 < s.frogPosInd_y →
      (moveFrog 3 s).frogPosInd_x = s.frogPosInd_x ∧
      (moveFrog 3 s).frogPosInd_y = s.frogPosInd_y - 1 ∧
      (∃ vx vy, lanePosX[s.frogPosInd_x]? = some vx ∧ lanePosY[s.frogPosInd_y - 1]? = some vy ∧
        (moveFrog 3 s).frogLayer.posNext = ⟨vx, vy⟩) ∧
      (moveFrog 3 s).frogLayer.pos = s.frogLayer.pos) ∧
    (s.frogPosInd_y < 6 →
      (moveFrog 4 s).frogPosInd_x = s.frogPosInd_x ∧
      (moveFrog 4 s).frogPosInd_y = s.frogPosInd_y + 1 ∧
      (∃ vx vy, lanePosX[s.frogPosInd_x]? = some vx ∧ lanePosY[s.frogPosInd_y + 1]? = some vy ∧
        (moveFrog 4 s).frogLayer.posNext = ⟨vx, vy⟩) ∧
      (moveFrog 4 s).frogLayer.pos = s.frogLayer.pos) := by
  have ex := lanePosXAt_eq
  have ey := lanePosYAt_eq
  refine ⟨fun h => ?_, fun h => ?_, fun h => ?_, fun h => ?_⟩
  · have e : decUChar s.frogPosInd_x = s.frogPosInd_x - 1 := by unfold decUChar; omega
    have hm : moveFrog 1 s = setFrogPosNext { s with frogPosInd_x := s.frogPosInd_x - 1 }
        ⟨lanePosXAt (s.frogPosInd_x - 1), lanePosYAt s.frogPosInd_y⟩ := by
      simp [moveFrog, Nat.ne_of_gt h, e]
    rw [hm]
    exact ⟨rfl, rfl, ⟨_, _, ex _ (by omega), ey _ hy, rfl⟩, rfl⟩
  · have e : incUChar s.frogPosInd_x = s.frogPosInd_x + 1 := by unfold incUChar; omega
    have hm : moveFrog 2 s = setFrogPosNext { s with frogPosInd_x := s.frogPosInd_x + 1 }
        ⟨lanePosXAt (s.frogPosInd_x + 1), lanePosYAt s.frogPosInd_y⟩ := by
      simp [moveFrog, h, e]
    rw [hm]
    exact ⟨rfl, rfl, ⟨_, _, ex _ (by omega), ey _ hy, rfl⟩, rfl⟩
  · have e : decUChar s.frogPosInd_y = s.frogPosInd_y - 1 := by unfold decUChar; omega
    have hm : moveFrog 3 s = setFrogPosNext { s with frogPosInd_y := s.frogPosInd_y - 1 }
        ⟨lanePosXAt s.frogPosInd_x, lanePosYAt (s.frogPosInd_y - 1)⟩ := by
      simp [moveFrog, Nat.ne_of_gt h, e]
    rw [hm]
    exact ⟨rfl, rfl, ⟨_, _, ex _ hx, ey _ (by omega), rfl⟩, rfl⟩
  · have e : incUChar s.frogPosInd_y = s.frogPosInd_y + 1 := by unfold incUChar; omega
    have hm : moveFrog 4 s = setFrogPosNext { s with frogPosInd_y := s.frogPosInd_y + 1 }
        ⟨lanePosXAt s.frogPosInd_x, lanePosYAt (s.frogPosInd_y + 1)⟩ := by
      simp [moveFrog, h, e]
    rw [hm]
    exact ⟨rfl, rfl, ⟨_, _, ex _ hx, ey _ (by omega), rfl⟩, rfl⟩

/-- Witness of C2 at the initial state, indices `(2,0)`: "left" gives index
`(1,0)` and `posNext = (41,17)`; "down" (code 4) gives `(2,1)` and `(64,39)`. -/
theorem C2_accepted_move_witness :
    ((moveFrog 1 initialState).frogPosInd_x = 1 ∧
      (moveFrog 1 initialState).frogLayer.posNext = ⟨41, 17⟩) ∧
    ((moveFrog 4 initialState).frogPosInd_y = 1 ∧
      (moveFrog 4 initialState).frogLayer.posNext = ⟨64, 39⟩) := by
  have h := C2_accepted_move initialState (by decide) (by decide)
  obtain ⟨h1, -, -, h4⟩ := h
  obtain ⟨a1, -, ⟨vx, vy, e1, e2, e3⟩, -⟩ := h1 (by decide)
  obtain ⟨-, b1, ⟨wx, wy, g1, g2, g3⟩, -⟩ := h4 (by decide)
  simp [initialState, START_X, START_Y, lanePosX, lanePosY] at e1 e2 g1 g2 a1 b1
  subst e1 e2 g1 g2
  exact ⟨⟨a1, e3⟩, ⟨b1, g3⟩⟩

/-- C3: a move past the grid edge is a silent no-op.  `moveFrog 1` at
`frogPosInd_x = 0`, `moveFrog 2` at `frogPosInd_x = 4`, `moveFrog 3` at
`frogPosInd_y = 0`, `moveFrog 4` at `frogPosInd_y = 6`, and `moveFrog d` for every
`d` outside `1..4`, return the state unchanged (indices, `posNext`, `pos`,
`posLast` and everything else). -/
theorem C3_rejected_move_is_noop (s : State) (d : Nat)
    (h : (d = 1 ∧ s.frogPosInd_x = 0) ∨ (d = 2 ∧ s.frogPosInd_x = 4) ∨
      (d = 3 ∧ s.frogPosInd_y = 0) ∨ (d = 4 ∧ s.frogPosInd_y = 6) ∨
      (d ≠ 1 ∧ d ≠ 2 ∧ d ≠ 3 ∧ d ≠ 4)) :
    moveFrog d s = s := by
  rcases h with ⟨rfl, h⟩ | ⟨rfl, h⟩ | ⟨rfl, h⟩ | ⟨rfl, h⟩ | ⟨h1, h2, h3, h4⟩
  · simp [moveFrog, h]
  · simp [moveFrog, h]
  · simp [moveFrog, h]
  · simp [moveFrog, h]
  · simp [moveFrog, h1, h2, h3, h4]

/-- Witness of C3: at the initial state (row index 0) "up" (code 3) is rejected,
and so is the code 0. -/
theorem C3_rejected_move_is_noop_witness :
    moveFrog 3 initialState = initialState ∧ moveFrog 0 initialState = initialState :=
  ⟨C3_rejected_move_is_noop initialState 3 (Or.inr (Or.inr (Or.inl ⟨rfl, rfl⟩))),
    C3_rejected_move_is_noop initialState 0
      (Or.inr (Or.inr (Or.inr (Or.inr ⟨by decide, by decide, by decide, by decide⟩))))⟩

/-- C4: `wasHit` is the open-interval edge test on x only.  For car and frog
regions whose four x coordinates lie in `0..255`, `wasHit car frog` is 1 exactly
when `car.topLeft.x < frog.topLeft.x < car.botRight.x` or
`car.topLeft.x < frog.botRight.x < car.botRight.x`, it is 0 otherwise, and
replacing the four y coordinates by any others does not change the result. -/
theorem C4_wasHit_open_interval (car frog : Region)
    (hc1 : 0 ≤ car.topLeft.x ∧ car.topLeft.x ≤ 255)
    (hc2 : 0 ≤ car.botRight.x ∧ car.botRight.x ≤ 255)
    (hf1 : 0 ≤ frog.topLeft.x ∧ frog.topLeft.x ≤ 255)
    (hf2 : 0 ≤ frog.botRight.x ∧ frog.botRight.x ≤ 255) :
    (wasHit car frog = 1 ↔
      (car.topLeft.x < frog.topLeft.x ∧ frog.topLeft.x < car.botRight.x) ∨
      (car.topLeft.x < frog.botRight.x ∧ frog.botRight.x < car.botRight.x)) ∧
    (¬ ((car.topLeft.x < frog.topLeft.x ∧ frog.topLeft.x < car.botRight.x) ∨
        (car.topLeft.x < frog.botRight.x ∧ frog.botRight.x < car.botRight.x)) →
      wasHit car frog = 0) ∧
    (∀ y1 y2 y3 y4 : Int,
      wasHit ⟨⟨car.topLeft.x, y1⟩, ⟨car.botRight.x, y2⟩⟩
        ⟨⟨frog.topLeft.x, y3⟩, ⟨frog.botRight.x, y4⟩⟩ = wasHit car frog) := by
  have key : wasHit car frog = 1 ↔
      (car.topLeft.x < frog.topLeft.x ∧ frog.topLeft.x < car.botRight.x) ∨
      (car.topLeft.x < frog.botRight.x ∧ frog.botRight.x < car.botRight.x) := by
    rw [wasHit_eq_one_iff, toUChar_of_range _ hc1.1 hc1.2, toUChar_of_range _ hc2.1 hc2.2,
      toUChar_of_range _ hf1.1 hf1.2, toUChar_of_range _ hf2.1 hf2.2]
  refine ⟨key, fun hn => ?_, fun y1 y2 y3 y4 => rfl⟩
  rcases wasHit_zero_or_one car frog with h | h
  · exact h
  · exact absurd (key.1 h) hn

/-- Witness of C4: car x-bounds `[0,10]` and frog x-bounds `[5,8]` give 1, in the
same lane (y = 39) and with the frog in another lane (y = 61) alike. -/
theorem C4_wasHit_open_interval_witness :
    wasHit ⟨⟨0, 39⟩, ⟨10, 39⟩⟩ ⟨⟨5, 39⟩, ⟨8, 39⟩⟩ = 1 ∧
    wasHit ⟨⟨0, 39⟩, ⟨10, 39⟩⟩ ⟨⟨5, 61⟩, ⟨8, 61⟩⟩ = 1 := by
  have h := C4_wasHit_open_interval ⟨⟨0, 39⟩, ⟨10, 39⟩⟩ ⟨⟨5, 39⟩, ⟨8, 39⟩⟩
    (by decide) (by decide) (by decide) (by decide)
  have h1 : wasHit ⟨⟨0, 39⟩, ⟨10, 39⟩⟩ ⟨⟨5, 39⟩, ⟨8, 39⟩⟩ = 1 :=
    h.1.2 (Or.inl ⟨by decide, by decide⟩)
  exact ⟨h1, (h.2.2 39 39 61 61).trans h1⟩

/-- C5: `didLose` is the lane-filtered collision test on committed positions.
It returns 1 exactly when some car of `carLayers[0..2]` has `pos.y` equal to
`frogLayer.pos.y` and `wasHit` of the two shapes' bounds at their `pos` is 1, and
0 otherwise; so it is 0 whenever `frogLayer.pos.y` differs from every car's
`pos.y` (frog at y = 61 with cars at 39, 83, 127, whatever the x-bounds); and two
states that agree on the shape and `pos` of the frog layer and of the three car
layers give the same result, whatever their `posNext`, `posLast`, lane indices,
velocities and other fields. -/
theorem C5_didLose_lane_filtered (s : State) :
    (didLose s = 1 ↔
      ∃ carLayer ∈ carLayers s, carLayer.pos.y = s.frogLayer.pos.y ∧
        wasHit (carLayer.abShape.getBounds carLayer.pos)
          (s.frogLayer.abShape.getBounds s.frogLayer.pos) = 1) ∧
    (didLose s = 0 ∨ didLose s = 1) ∧
    ((∀ carLayer ∈ carLayers s, s.frogLayer.pos.y ≠ carLayer.pos.y) → didLose s = 0) ∧
    (s.frogLayer.pos.y = 61 → s.carLayer1.pos.y = 39 → s.carLayer2.pos.y = 83 →
      s.carLayer3.pos.y = 127 → didLose s = 0) ∧
    (∀ t : State,
      t.frogLayer.pos = s.frogLayer.pos → t.frogLayer.abShape = s.frogLayer.abShape →
      t.carLayer1.pos = s.carLayer1.pos → t.carLayer1.abShape = s.carLayer1.abShape →
      t.carLayer2.pos = s.carLayer2.pos → t.carLayer2.abShape = s.carLayer2.abShape →
      t.carLayer3.pos = s.carLayer3.pos → t.carLayer3.abShape = s.carLayer3.abShape →
      didLose t = didLose s) := by
  have hiff := didLoseLoop_eq_one_iff s.frogLayer (carLayers s)
  have h01 := didLoseLoop_zero_or_one s.frogLayer (carLayers s)
  have hskip : (∀ carLayer ∈ carLayers s, s.frogLayer.pos.y ≠ carLayer.pos.y) →
      didLose s = 0 := by
    intro hall
    rcases h01 with h | h
    · exact h
    · obtain ⟨l, hl, hy, -⟩ := hiff.1 h
      exact absurd hy.symm (hall l hl)
  refine ⟨hiff, h01, hskip, ?_, ?_⟩
  · intro hf h1 h2 h3
    apply hskip
    intro l hl
    simp only [carLayers, List.mem_cons, List.mem_singleton, List.not_mem_nil, or_false] at hl
    rcases hl with rfl | rfl | rfl
    · rw [hf, h1]; decide
    · rw [hf, h2]; decide
    · rw [hf, h3]; decide
  · intro t f1 f2 a1 a2 b1 b2 c1 c2
    simp only [didLose, carLayers, didLoseLoop, f1, f2, a1, a2, b1, b2, c1, c2]

/-- Witness of C5: in `hitState` the frog and `car1` share lane 39 and `car1`'s
bounds hold the frog's left edge, so `didLose` is 1; in the initial state the
frog is in lane 17 and `didLose` is 0. -/
theorem C5_didLose_lane_filtered_witness :
    didLose hitState = 1 ∧ didLose initialState = 0 := by
  refine ⟨(C5_didLose_lane_filtered hitState).1.2
      ⟨hitState.carLayer1, by simp [carLayers], by decide, by decide⟩,
    (C5_didLose_lane_filtered initialState).2.2.1 ?_⟩
  intro l hl
  simp only [carLayers, List.mem_cons, List.mem_singleton, List.not_mem_nil, or_false] at hl
  rcases hl with rfl | rfl | rfl <;> decide

/-- C6: `didWin` is a function of the row index alone.  For `frogPosInd_y` in
`0..6` it is non-zero exactly when `frogPosInd_y = 6`, the last index of
`lanePosY`; for every index `0..5` it is 0; and two states with the same row
index give the same result, whatever `frogPosInd_x` and the layers are. -/
theorem C6_didWin_row_index (s : State) (hy : s.frogPosInd_y ≤ 6) :
    (didWin s ≠ 0 ↔ s.frogPosInd_y = 6) ∧
    (s.frogPosInd_y = lanePosY.length - 1 → didWin s = 1) ∧
    (s.frogPosInd_y ≤ 5 → didWin s = 0) ∧
    (∀ t : State, t.frogPosInd_y = s.frogPosInd_y → didWin t = didWin s) := by
  refine ⟨?_, ?_, ?_, ?_⟩
  · unfold didWin
    split_ifs with h
    · simp; omega
    · simp; omega
  · intro h
    simp only [lanePosY, List.length_cons, List.length_nil] at h
    simp [didWin, h]
  · intro h
    unfold didWin
    split_ifs with h6
    · omega
    · rfl
  · intro t ht
    simp [didWin, ht]

/-- Witness of C6: at the initial state (row index 0) `didWin` is 0; at
`winHitState` (row index 6) it is 1. -/
theorem C6_didWin_row_index_witness :
    didWin initialState = 0 ∧ didWin winHitState = 1 :=
  ⟨(C6_didWin_row_index initialState (by decide)).2.2.1 (by decide),
    (C6_didWin_row_index winHitState (by decide)).2.1 (by decide)⟩

/-- C7: on a hit the token is reset and the hazards are not.  For every state
the program reaches in which `didLose` returns 1 at a game tick and no button is
newly pressed in that tick: after the tick the lane indices are
`(START_X, START_Y) = (2,0)` and `frogLayer.posNext` is
`(lanePosX[2], lanePosY[0]) = (64,17)`; the reset step changes no car's moving
layer (`pos`, `posNext`, velocity); and each car's `posNext` after the tick is
what `carAdvance` produces from its pre-tick `posNext` and velocity. -/
theorem C7_hit_resets_frog_not_cars (s : State) (pressed : Nat)
    (hReach : Reachable s)
    (hLose : didLose s = 1)
    (hNoNew : moveFrogCalls s.prevPress pressed = []) :
    ((gameTick s pressed).frogPosInd_x = 2 ∧ (gameTick s pressed).frogPosInd_y = 0) ∧
    (gameTick s pressed).frogLayer.posNext = ⟨64, 17⟩ ∧
    (lanePosX[START_X]? = some 64 ∧ lanePosY[START_Y]? = some 17) ∧
    (∀ t : State, (resetFrog t).car1 = t.car1 ∧ (resetFrog t).car2 = t.car2 ∧
      (resetFrog t).car3 = t.car3) ∧
    ((gameTick s pressed).car1.layer.posNext =
        (carAdvanceStep gameViewBoundary s.car1).layer.posNext ∧
      (gameTick s pressed).car2.layer.posNext =
        (carAdvanceStep gameViewBoundary s.car2).layer.posNext ∧
      (gameTick s pressed).car3.layer.posNext =
        (carAdvanceStep gameViewBoundary s.car3).layer.posNext) ∧
    [(gameTick s pressed).car3, (gameTick s pressed).car2, (gameTick s pressed).car1] =
      (carAdvance (movLayers s) gameViewBoundary).take 3 := by
  have hi := reachable_invariant s hReach
  have hFrog : (s.frogLayer.abShape.getBounds ⟨64, 17⟩).botRight.x <
      gameViewBoundary.botRight.x := by
    rw [hi.1.1]
    decide
  have h := gameTick_hit_no_press s pressed hLose hNoNew hi.1.2.1 hFrog
  have hw := reachable_hit_no_win s hReach hLose
  have hc := h.2.2.2.2.2.2 hw
  have e : winBranch s = s := by simp [winBranch, hw]
  have hcars := gameTick_cars s pressed
  rw [e] at hcars
  refine ⟨h.1, h.2.1, h.2.2.1, h.2.2.2.1, hc, ?_⟩
  rw [hcars.1, hcars.2.1, hcars.2.2]
  rfl

/-- Witness of C7 at `hitState`, met in play, where `car1` holds the frog's left
edge and no button is newly pressed: the frog is reset to `(2,0)` with
`posNext = (64,17)` and `car1` advances from `(66,39)` to `(69,39)`. -/
theorem C7_hit_resets_frog_not_cars_witness :
    didLose hitState = 1 ∧
    ((gameTick hitState 65535).frogPosInd_x = 2 ∧ (gameTick hitState 65535).frogPosInd_y = 0) ∧
    (gameTick hitState 65535).frogLayer.posNext = ⟨64, 17⟩ ∧
    (gameTick hitState 65535).car1.layer.posNext = ⟨69, 39⟩ := by
  have h := C7_hit_resets_frog_not_cars hitState 65535 reachable_hitState (by decide)
    (by decide)
  refine ⟨by decide, h.1, h.2.1, ?_⟩
  rw [h.2.2.2.2.1.1]
  decide

/-- C8: on a win the hazards are frozen, idempotently.  For every state in which
`didWin` holds at the start of a game tick, after the tick the velocities of
`car1`, `car2` and `car3` are `(0,0)`; applying the win branch to a state whose
car velocities are already `(0,0)` changes nothing, and applying it twice is the
same as applying it once; the win branch changes neither the lane indices nor
the frog's moving layer, `frogLayer.posNext` included. -/
theorem C8_win_freezes_cars (s : State) (pressed : Nat) (hWin : didWin s ≠ 0) :
    ((gameTick s pressed).car1.velocity = ⟨0, 0⟩ ∧
      (gameTick s pressed).car2.velocity = ⟨0, 0⟩ ∧
      (gameTick s pressed).car3.velocity = ⟨0, 0⟩) ∧
    (∀ t : State, t.car1.velocity = ⟨0, 0⟩ → t.car2.velocity = ⟨0, 0⟩ →
      t.car3.velocity = ⟨0, 0⟩ → stopCars t = t ∧ winBranch t = t) ∧
    (stopCars (stopCars s) = stopCars s ∧ winBranch (winBranch s) = winBranch s) ∧
    ((winBranch s).frogPosInd_x = s.frogPosInd_x ∧
      (winBranch s).frogPosInd_y = s.frogPosInd_y ∧
      (winBranch s).frogLayer.posNext = s.frogLayer.posNext ∧
      (winBranch s).frog = s.frog) := by
  have hcars := gameTick_cars s pressed
  have hw : winBranch s = stopCars s := by simp [winBranch, hWin]
  have hstop : ∀ t : State, t.car1.velocity = ⟨0, 0⟩ → t.car2.velocity = ⟨0, 0⟩ →
      t.car3.velocity = ⟨0, 0⟩ → stopCars t = t := by
    intro t h1 h2 h3
    obtain ⟨x, y, ⟨l1, v1⟩, ⟨l2, v2⟩, ⟨l3, v3⟩, f, pp, rs, cnt⟩ := t
    simp only at h1 h2 h3
    subst h1 h2 h3
    rfl
  refine ⟨?_, ?_, ⟨rfl, ?_⟩, ?_⟩
  · rw [hcars.1, hcars.2.1, hcars.2.2, hw]
    exact ⟨rfl, rfl, rfl⟩
  · intro t h1 h2 h3
    refine ⟨hstop t h1 h2 h3, ?_⟩
    unfold winBranch
    split_ifs
    · exact hstop t h1 h2 h3
    · rfl
  · rw [hw]
    unfold winBranch
    split_ifs <;> rfl
  · rw [hw]
    exact ⟨rfl, rfl, rfl, rfl⟩

/-- Witness of C8 at `winHitState` (row index 6, cars moving at 3, 2, 4): after
the tick all three car velocities are `(0,0)`. -/
theorem C8_win_freezes_cars_witness :
    winHitState.car3.velocity = ⟨4, 0⟩ ∧
    (gameTick winHitState 65531).car1.velocity = ⟨0, 0⟩ ∧
    (gameTick winHitState 65531).car2.velocity = ⟨0, 0⟩ ∧
    (gameTick winHitState 65531).car3.velocity = ⟨0, 0⟩ :=
  ⟨by decide, (C8_win_freezes_cars winHitState 65531 (by decide)).1⟩

/-- C9: input is edge-triggered.  In a game tick that reads button word `pressed`
with previous mask `prevPress`, `moveFrog` is called for a direction exactly when
that direction's bit (bit 2 for code 4, bit 1 for code 3, bit 0 for code 1, bit 3
for code 2) is set in `~pressed` and differs from the same bit of `prevPress`; no
other code is called; the reducer runs exactly these calls and `prevPress`
becomes `~pressed`.  Hence a second game tick reading the same `pressed` calls
`moveFrog` not at all: it is the tick with the four `moveFrog` statements left
out. -/
theorem C9_edge_triggered_input (s : State) (pressed : Nat) :
    ((4 ∈ moveFrogCalls s.prevPress pressed ↔
        ((bitNot16 pressed).testBit 2 = true ∧
          (bitNot16 pressed).testBit 2 ≠ s.prevPress.testBit 2)) ∧
      (3 ∈ moveFrogCalls s.prevPress pressed ↔
        ((bitNot16 pressed).testBit 1 = true ∧
          (bitNot16 pressed).testBit 1 ≠ s.prevPress.testBit 1)) ∧
      (1 ∈ moveFrogCalls s.prevPress pressed ↔
        ((bitNot16 pressed).testBit 0 = true ∧
          (bitNot16 pressed).testBit 0 ≠ s.prevPress.testBit 0)) ∧
      (2 ∈ moveFrogCalls s.prevPress pressed ↔
        ((bitNot16 pressed).testBit 3 = true ∧
          (bitNot16 pressed).testBit 3 ≠ s.prevPress.testBit 3))) ∧
    (∀ d ∈ moveFrogCalls s.prevPress pressed, d = 4 ∨ d = 3 ∨ d = 1 ∨ d = 2) ∧
    (∀ k < 16, (bitNot16 pressed).testBit k = !(toUInt pressed).testBit k) ∧
    inputReducer s pressed =
      { (moveFrogCalls s.prevPress pressed).foldl (fun t d => moveFrog d t) s with
        prevPress := bitNot16 pressed } ∧
    ((inputReducer s pressed).prevPress = bitNot16 pressed ∧
      (gameTick s pressed).prevPress = bitNot16 pressed) ∧
    (moveFrogCalls (gameTick s pressed).prevPress pressed = [] ∧
      gameTick (gameTick s pressed) pressed = gameTickNoMove (gameTick s pressed) pressed ∧
      ∀ t : State, t.prevPress = bitNot16 pressed → inputReducer t pressed = t) := by
  have c4 := call_condition_iff s.prevPress (bitNot16 pressed) 2
  have c3 := call_condition_iff s.prevPress (bitNot16 pressed) 1
  have c1 := call_condition_iff s.prevPress (bitNot16 pressed) 0
  have c2 := call_condition_iff s.prevPress (bitNot16 pressed) 3
  simp only [Nat.reducePow] at c4 c3 c1 c2
  have hprev : (gameTick s pressed).prevPress = bitNot16 pressed := by
    unfold gameTick
    simp only []
    split_ifs <;> rfl
  have hnone : moveFrogCalls (gameTick s pressed).prevPress pressed = [] := by
    rw [hprev]; exact moveFrogCalls_same_mask pressed
  refine ⟨⟨?_, ?_, ?_, ?_⟩, ?_, fun k hk => bitNot16_testBit pressed k hk,
    inputReducer_eq_foldl s pressed, ⟨rfl, hprev⟩, hnone,
    gameTick_no_calls _ _ hnone, ?_⟩
  · rw [← c4]; simp [moveFrogCalls]
  · rw [← c3]; simp [moveFrogCalls]
  · rw [← c1]; simp [moveFrogCalls]
  · rw [← c2]; simp [moveFrogCalls]
  · intro d hd
    simp only [moveFrogCalls, List.mem_append] at hd
    rcases hd with ((hd | hd) | hd) | hd <;> split_ifs at hd <;> simp_all
  · intro t ht
    have h0 : moveFrogCalls t.prevPress pressed = [] := by
      rw [ht]; exact moveFrogCalls_same_mask pressed
    rw [inputReducer_no_calls t pressed h0, ← ht]

/-- Witness of C9 at the initial state with the "down" button held (button word
`65531`, so `~pressed = 4`): the first tick calls `moveFrog 4` once, the second
tick makes no call, and the row index stays at 1. -/
theorem C9_edge_triggered_input_witness :
    moveFrogCalls initialState.prevPress 65531 = [4] ∧
    moveFrogCalls (gameTick initialState 65531).prevPress 65531 = [] ∧
    (gameTick initialState 65531).frogPosInd_y = 1 ∧
    (gameTick (gameTick initialState 65531) 65531).frogPosInd_y = 1 := by
  have h := C9_edge_triggered_input initialState 65531
  refine ⟨by decide, h.2.2.2.2.2.1, by decide, ?_⟩
  rw [h.2.2.2.2.2.2.1]
  decide

/-- C10: simultaneous new presses are all applied, in the order down, up, left,
right.  For every state and button word, with `D` the directions of `[4,3,1,2]`
that are newly pressed (switch bit 4 for down, 2 for up, 1 for left, 8 for
right), the calls made by the reducer are exactly `D` in that order, each
direction once; the state after the reducer is the result of running `moveFrog`
over `D`, with `prevPress` updated, so the lane indices and `frogLayer.posNext`
are those of that run. -/
theorem C10_simultaneous_presses_in_order (s : State) (pressed : Nat) :
    moveFrogCalls s.prevPress pressed =
      [4, 3, 1, 2].filter (newlyPressed s.prevPress pressed) ∧
    (moveFrogCalls s.prevPress pressed).Nodup ∧
    inputReducer s pressed =
      { ([4, 3, 1, 2].filter (newlyPressed s.prevPress pressed)).foldl
          (fun t d => moveFrog d t) s with prevPress := bitNot16 pressed } ∧
    ((inputReducer s pressed).frogPosInd_x =
        (([4, 3, 1, 2].filter (newlyPressed s.prevPress pressed)).foldl
          (fun t d => moveFrog d t) s).frogPosInd_x ∧
      (inputReducer s pressed).frogPosInd_y =
        (([4, 3, 1, 2].filter (newlyPressed s.prevPress pressed)).foldl
          (fun t d => moveFrog d t) s).frogPosInd_y ∧
      (inputReducer s pressed).frogLayer.posNext =
        (([4, 3, 1, 2].filter (newlyPressed s.prevPress pressed)).foldl
          (fun t d => moveFrog d t) s).frogLayer.posNext) ∧
    (newlyPressed s.prevPress pressed 4 = true ∧ newlyPressed s.prevPress pressed 3 = true ∧
      newlyPressed s.prevPress pressed 1 = true ∧ newlyPressed s.prevPress pressed 2 = true →
      inputReducer s pressed =
        { moveFrog 2 (moveFrog 1 (moveFrog 3 (moveFrog 4 s))) with
          prevPress := bitNot16 pressed }) := by
  have hcalls := moveFrogCalls_eq_filter s.prevPress pressed
  have hred := inputReducer_eq_foldl s pressed
  rw [hcalls] at hred
  refine ⟨hcalls, ?_, hred, ?_, ?_⟩
  · rw [hcalls]
    exact List.Nodup.filter _ (by decide)
  · rw [hred]
    exact ⟨rfl, rfl, rfl⟩
  · rintro ⟨h4, h3, h1, h2⟩
    rw [hred]
    simp [List.filter, h4, h3, h1, h2]

/-- Witness of C10 at the initial state, indices `(2,0)`, with all four buttons
newly pressed (button word `65520`): down, up, left, right are run in that
order, which ends at indices `(2,0)` with `posNext = (64,17)`; the order
matters, since "up" before "down" would end in row 1. -/
theorem C10_simultaneous_presses_in_order_witness :
    moveFrogCalls initialState.prevPress 65520 = [4, 3, 1, 2] ∧
    inputReducer initialState 65520 =
      { moveFrog 2 (moveFrog 1 (moveFrog 3 (moveFrog 4 initialState))) with
        prevPress := bitNot16 65520 } ∧
    ((inputReducer initialState 65520).frogPosInd_x = 2 ∧
      (inputReducer initialState 65520).frogPosInd_y = 0 ∧
      (inputReducer initialState 65520).frogLayer.posNext = ⟨64, 17⟩) ∧
    (moveFrog 2 (moveFrog 1 (moveFrog 4 (moveFrog 3 initialState)))).frogPosInd_y = 1 := by
  have h := (C10_simultaneous_presses_in_order initialState 65520).2.2.2.2
    ⟨by decide, by decide, by decide, by decide⟩
  refine ⟨by decide, h, ?_, by decide⟩
  rw [h]
  decide

/-- C11, at the input where the claim as stated fails: from the initial state,
indices `(2,0)`, a tick in which only the "up" button is newly pressed (button
word `65533`, switch bit 2, one call `moveFrog 3`) leaves the row index at 0 and
`frogLayer.posNext` at `(64,17)`, not at row 1 and `(64,39)`. -/
theorem C11_counterexample :
    (initialState.frogPosInd_x = 2 ∧ initialState.frogPosInd_y = 0) ∧
    moveFrogCalls initialState.prevPress 65533 = [3] ∧
    (gameTick initialState 65533).frogPosInd_y = 0 ∧
    (gameTick initialState 65533).frogLayer.posNext = ⟨64, 17⟩ ∧
    (gameTick initialState 65533).frogPosInd_y ≠ 1 ∧
    (gameTick initialState 65533).frogLayer.posNext ≠ ⟨64, 39⟩ := by
  refine ⟨⟨by decide, by decide⟩, by decide, by decide, by decide, by decide, by decide⟩

/-- C11 (amended): the end-to-end scenario of the first move.  From any state
with the start indices `(2,0)`: a game tick in which only the "up" button is
newly pressed (switch bit 2, the one call `moveFrog 3`, which decrements the row
index) is the tick without the `moveFrog` statements, and the indices stay
`(2,0)`; a game tick in which only the "down" button is newly pressed (switch
bit 4, the one call `moveFrog 4`) leaves the indices at `(2,1)` and
`frogLayer.posNext` at `(lanePosX[2], lanePosY[1]) = (64,39)`. -/
theorem C11_first_move_scenario (s : State) (pressed : Nat)
    (hx : s.frogPosInd_x = 2) (hy : s.frogPosInd_y = 0) :
    (moveFrogCalls s.prevPress pressed = [3] →
      (gameTick s pressed).frogPosInd_x = 2 ∧ (gameTick s pressed).frogPosInd_y = 0 ∧
      gameTick s pressed = gameTickNoMove s pressed) ∧
    (moveFrogCalls s.prevPress pressed = [4] →
      (gameTick s pressed).frogPosInd_x = 2 ∧ (gameTick s pressed).frogPosInd_y = 1 ∧
      (gameTick s pressed).frogLayer.posNext = ⟨64, 39⟩ ∧
      lanePosX[2]? = some 64 ∧ lanePosY[1]? = some 39) := by
  have hb := beforeInput_start_indices s hx hy
  have hf := gameTick_frog_of_calls s pressed
  have hp := beforeInput_prevPress s
  constructor
  · intro hc
    have hnoop : moveFrog 3 (carAdvanceGame (loseBranch (winBranch s)) gameViewBoundary) =
        carAdvanceGame (loseBranch (winBranch s)) gameViewBoundary := by
      simp [moveFrog, hb.2]
    rw [hc] at hf
    simp only [List.foldl_cons, List.foldl_nil, hnoop] at hf
    refine ⟨hf.1.trans hb.1, hf.2.1.trans hb.2, ?_⟩
    have hr := inputReducer_eq_foldl
      (carAdvanceGame (loseBranch (winBranch s)) gameViewBoundary) pressed
    rw [hp, hc] at hr
    simp only [List.foldl_cons, List.foldl_nil, hnoop] at hr
    unfold gameTick gameTickNoMove
    simp only []
    rw [hr]
  · intro hc
    rw [hc] at hf
    simp only [List.foldl_cons, List.foldl_nil] at hf
    have hm : moveFrog 4 (carAdvanceGame (loseBranch (winBranch s)) gameViewBoundary) =
        setFrogPosNext
          { carAdvanceGame (loseBranch (winBranch s)) gameViewBoundary with frogPosInd_y := 1 }
          ⟨64, 39⟩ := by
      simp [moveFrog, hb.1, hb.2, incUChar, lanePosXAt, lanePosYAt, lanePosX, lanePosY]
    rw [hm] at hf
    refine ⟨hf.1.trans hb.1, hf.2.1, ?_, by decide, by decide⟩
    unfold State.frogLayer
    rw [hf.2.2]
    rfl

/-- Witness of C11 (amended) at the initial state: with "down" newly pressed
(button word `65531`) the tick ends at indices `(2,1)` with
`posNext = (64,39)`; with "up" newly pressed (`65533`) it ends at `(2,0)`. -/
theorem C11_first_move_scenario_witness :
    ((gameTick initialState 65531).frogPosInd_x = 2 ∧
      (gameTick initialState 65531).frogPosInd_y = 1 ∧
      (gameTick initialState 65531).frogLayer.posNext = ⟨64, 39⟩) ∧
    ((gameTick initialState 65533).frogPosInd_x = 2 ∧
      (gameTick initialState 65533).frogPosInd_y = 0) := by
  have hd := (C11_first_move_scenario initialState 65531 (by decide) (by decide)).2 (by decide)
  have hu := (C11_first_move_scenario initialState 65533 (by decide) (by decide)).1 (by decide)
  exact ⟨⟨hd.1, hd.2.1, hd.2.2.1⟩, ⟨hu.1, hu.2.1⟩⟩

/-- C12: the lane indices are the source of the token's staged position across
whole ticks.  With the frog's shape bounds `origin ± 6` (`circle6`), the fence
`gameViewBoundary = (0,0)-(128,160)` and the frog's moving-layer velocity
`(0,0)`: if `frogLayer.posNext = (lanePosX[frogPosInd_x], lanePosY[frogPosInd_y])`
with in-bounds indices before a game tick, the same equation holds after the
tick, for every button word and every state of the cars, although `carAdvance`
also walks over the frog; the assumptions themselves are kept by the tick, so
the equation holds after any run of the tick handler. -/
theorem C12_indices_determine_posNext (s : State) (pressed : Nat) (inputs : List Nat)
    (hShape : ∀ p : Vec2, s.frogLayer.abShape.getBounds p = circleBounds 6 p)
    (hVel : s.frog.velocity = ⟨0, 0⟩)
    (hx : s.frogPosInd_x ≤ 4) (hy : s.frogPosInd_y ≤ 6)
    (hPos : s.frogLayer.posNext = ⟨lanePosXAt s.frogPosInd_x, lanePosYAt s.frogPosInd_y⟩) :
    (gameViewBoundary = ⟨⟨0, 0⟩, ⟨128, 160⟩⟩) ∧
    ((gameTick s pressed).frogLayer.posNext =
      ⟨lanePosXAt (gameTick s pressed).frogPosInd_x,
        lanePosYAt (gameTick s pressed).frogPosInd_y⟩ ∧
      lanePosX[(gameTick s pressed).frogPosInd_x]? =
        some (lanePosXAt (gameTick s pressed).frogPosInd_x).toNat ∧
      lanePosY[(gameTick s pressed).frogPosInd_y]? =
        some (lanePosYAt (gameTick s pressed).frogPosInd_y).toNat) ∧
    ((∀ p : Vec2, (gameTick s pressed).frogLayer.abShape.getBounds p = circleBounds 6 p) ∧
      (gameTick s pressed).frog.velocity = ⟨0, 0⟩ ∧
      (gameTick s pressed).frogPosInd_x ≤ 4 ∧ (gameTick s pressed).frogPosInd_y ≤ 6) ∧
    (runHandler s inputs).frogLayer.posNext =
      ⟨lanePosXAt (runHandler s inputs).frogPosInd_x,
        lanePosYAt (runHandler s inputs).frogPosInd_y⟩ := by
  have h := gameTick_staged s pressed hShape hVel hx hy hPos
  exact ⟨rfl, ⟨h.2.2.2.2, lanePosXAt_eq _ h.2.2.1, lanePosYAt_eq _ h.2.2.2.1⟩,
    ⟨h.1, h.2.1, h.2.2.1, h.2.2.2.1⟩,
    runHandler_staged inputs s ⟨hShape, hVel, hx, hy, hPos⟩⟩

/-- Witness of C12 at `hitState` (indices `(2,1)`, `posNext = (64,39)`) with
"right" newly pressed: the hit resets the frog and the press moves it, and
`posNext = (87,17)` is the table entry pair at the new indices `(3,0)`. -/
theorem C12_indices_determine_posNext_witness :
    hitState.frogLayer.posNext = ⟨64, 39⟩ ∧
    ((gameTick hitState 65527).frogPosInd_x = 3 ∧ (gameTick hitState 65527).frogPosInd_y = 0) ∧
    (gameTick hitState 65527).frogLayer.posNext = ⟨87, 17⟩ := by
  have h := C12_indices_determine_posNext hitState 65527 [] (fun _ => rfl) (by decide)
    (by decide) (by decide) (by decide)
  have hx : (gameTick hitState 65527).frogPosInd_x = 3 := by decide
  have hy : (gameTick hitState 65527).frogPosInd_y = 0 := by decide
  refine ⟨by decide, ⟨hx, hy⟩, ?_⟩
  rw [h.2.1.1, hx, hy]
  decide

/-- C13: rightward recycle.  For every moving layer of the program's list
`car3 -> car2 -> car1 -> frog`, in any state the program reaches, with positive
x velocity, for any fence, with `b` the shape's bounds at `posNext + velocity`:
`carAdvance` sets `posNext.x` to `fence.topLeft.x - size`, `size` being the
shape's size field, when `b.botRight.x >= fence.botRight.x`, and otherwise sets
`posNext.x` to the old `posNext.x + velocity.x`; in both cases `posNext.y`
becomes the old `posNext.y + velocity.y`.  The call on the list is the loop body
applied to each of its moving layers. -/
theorem C13_rightward_recycle (s : State) (fence : Region) (carLayer : MovLayer)
    (hReach : Reachable s)
    (hIn : carLayer ∈ movLayers s)
    (hPos : 0 < carLayer.velocity.x) :
    ((carLayer.layer.abShape.getBounds
        (vec2Add carLayer.layer.posNext carLayer.velocity)).botRight.x ≥ fence.botRight.x →
      (carAdvanceStep fence carLayer).layer.posNext.x =
        fence.topLeft.x - carLayer.layer.abShape.size) ∧
    ((carLayer.layer.abShape.getBounds
        (vec2Add carLayer.layer.posNext carLayer.velocity)).botRight.x < fence.botRight.x →
      (carAdvanceStep fence carLayer).layer.posNext.x =
        carLayer.layer.posNext.x + carLayer.velocity.x) ∧
    (carAdvanceStep fence carLayer).layer.posNext.y =
      carLayer.layer.posNext.y + carLayer.velocity.y ∧
    carAdvance (movLayers s) fence = (movLayers s).map (carAdvanceStep fence) ∧
    movLayers (carAdvanceGame s fence) = carAdvance (movLayers s) fence := by
  have hi := reachable_invariant s hReach
  have hsize : carLayer.layer.abShape.size = screenHeight / 7 := by
    simp only [movLayers, List.mem_cons, List.mem_singleton, List.not_mem_nil, or_false] at hIn
    rcases hIn with e | e | e | e
    · rw [e]; exact hi.2.2.2.2.1.2.2
    · rw [e]; exact hi.2.2.2.2.1.2.1
    · rw [e]; exact hi.2.2.2.2.1.1
    · rw [e, hi.1.2.1] at hPos
      exact absurd hPos (by decide)
  have h := carAdvanceStep_posNext fence carLayer
  refine ⟨fun hb => ?_, fun hb => ?_, ?_, carAdvance_eq_map fence (movLayers s), rfl⟩
  · rw [h, if_pos hb, hsize]
    rfl
  · rw [h, if_neg (not_le.2 hb)]
  · rw [h]
    split_ifs <;> rfl

set_option maxRecDepth 8000 in
/-- Witness of C13 in play: after 31 rounds `car3` (size 22, velocity 4) is
staged at x = 124, and the next call recycles it to `0 - 22`; `car1`, staged at
x = 93 with velocity 3, advances to 96. -/
theorem C13_rightward_recycle_witness :
    (carAdvanceStep gameViewBoundary carAtRightEdge.car3).layer.posNext = ⟨-22, 127⟩ ∧
    (carAdvanceStep gameViewBoundary carAtRightEdge.car1).layer.posNext = ⟨96, 39⟩ := by
  have h3 := C13_rightward_recycle carAtRightEdge gameViewBoundary carAtRightEdge.car3
    reachable_carAtRightEdge (by simp [movLayers]) (by decide)
  have h1 := C13_rightward_recycle carAtRightEdge gameViewBoundary carAtRightEdge.car1
    reachable_carAtRightEdge (by simp [movLayers]) (by decide)
  refine ⟨?_, ?_⟩
  · have hx := h3.1 (by decide)
    have hy := h3.2.2.1
    have e : (carAdvanceStep gameViewBoundary carAtRightEdge.car3).layer.posNext =
        ⟨(carAdvanceStep gameViewBoundary carAtRightEdge.car3).layer.posNext.x,
          (carAdvanceStep gameViewBoundary carAtRightEdge.car3).layer.posNext.y⟩ := rfl
    rw [e, hx, hy]
    decide
  · have hx := h1.2.1 (by decide)
    have hy := h1.2.2.1
    have e : (carAdvanceStep gameViewBoundary carAtRightEdge.car1).layer.posNext =
        ⟨(carAdvanceStep gameViewBoundary carAtRightEdge.car1).layer.posNext.x,
          (carAdvanceStep gameViewBoundary carAtRightEdge.car1).layer.posNext.y⟩ := rfl
    rw [e, hx, hy]
    decide

/-- C14, the code evaluated at the failing input: no moving layer is ever
recycled to the fence's right side.  When the right edge of the bounds at
`posNext + velocity` is below the fence's right edge, `carAdvance` stores
`posNext + velocity`, also for a negative x velocity whose bounds have
`topLeft.x <= fence.topLeft.x`.  For `leftMovingCar` (velocity `(-3,0)`, bounds
`[-15,7]` at `(7,39)`) the result is `(7,39)`, not `(128 - 3, 39)`. -/
theorem C14_leftward_recycle_not_taken :
    (∀ (fence : Region) (carLayer : MovLayer),
      carLayer.velocity.x < 0 →
      (carLayer.layer.abShape.getBounds
        (vec2Add carLayer.layer.posNext carLayer.velocity)).topLeft.x ≤ fence.topLeft.x →
      (carLayer.layer.abShape.getBounds
        (vec2Add carLayer.layer.posNext carLayer.velocity)).botRight.x < fence.botRight.x →
      (carAdvanceStep fence carLayer).layer.posNext =
        vec2Add carLayer.layer.posNext carLayer.velocity) ∧
    (leftMovingCar.velocity.x < 0 ∧
      (leftMovingCar.layer.abShape.getBounds
        (vec2Add leftMovingCar.layer.posNext leftMovingCar.velocity)).topLeft.x
          ≤ gameViewBoundary.topLeft.x ∧
      (leftMovingCar.layer.abShape.getBounds
        (vec2Add leftMovingCar.layer.posNext leftMovingCar.velocity)).botRight.x
          < gameViewBoundary.botRight.x) ∧
    (carAdvanceStep gameViewBoundary leftMovingCar).layer.posNext = ⟨7, 39⟩ ∧
    (carAdvanceStep gameViewBoundary leftMovingCar).layer.posNext.x ≠
      gameViewBoundary.botRight.x - 3 := by
  refine ⟨fun fence m _ _ hb => ?_, ⟨by decide, by decide, by decide⟩, by decide, by decide⟩
  rw [carAdvanceStep_posNext, if_neg (not_le.2 hb)]
  rfl

/-- C15: `carAdvance` writes only `posNext`.  For every moving list over every
layer memory and every fence, after `carAdvance`, and after any number of calls,
each node has its old layer pointer and its old velocity; every layer has its
old `pos`, `posLast`, `color` and shape; and a layer that no node of the list
points to is unchanged altogether. -/
theorem C15_carAdvance_writes_only_posNext (fence : Region) (movLayers : List MovLayerRef)
    (mem : Nat → Layer) (n : Nat) :
    ((carAdvanceMem fence movLayers mem).1 = movLayers ∧
      (∀ a : Nat,
        ((carAdvanceMem fence movLayers mem).2 a).pos = (mem a).pos ∧
        ((carAdvanceMem fence movLayers mem).2 a).posLast = (mem a).posLast ∧
        ((carAdvanceMem fence movLayers mem).2 a).color = (mem a).color ∧
        ((carAdvanceMem fence movLayers mem).2 a).abShape = (mem a).abShape) ∧
      (∀ a : Nat, (∀ m ∈ movLayers, m.layer ≠ a) →
        (carAdvanceMem fence movLayers mem).2 a = mem a)) ∧
    ((carAdvanceMemTimes fence n movLayers mem).1 = movLayers ∧
      (∀ a : Nat,
        ((carAdvanceMemTimes fence n movLayers mem).2 a).pos = (mem a).pos ∧
        ((carAdvanceMemTimes fence n movLayers mem).2 a).posLast = (mem a).posLast ∧
        ((carAdvanceMemTimes fence n movLayers mem).2 a).color = (mem a).color ∧
        ((carAdvanceMemTimes fence n movLayers mem).2 a).abShape = (mem a).abShape) ∧
      (∀ a : Nat, (∀ m ∈ movLayers, m.layer ≠ a) →
        (carAdvanceMemTimes fence n movLayers mem).2 a = mem a)) ∧
    (∀ s : State,
      (carAdvanceGame s fence).car1.velocity = s.car1.velocity ∧
      (carAdvanceGame s fence).car2.velocity = s.car2.velocity ∧
      (carAdvanceGame s fence).car3.velocity = s.car3.velocity ∧
      (carAdvanceGame s fence).frog.velocity = s.frog.velocity ∧
      (carAdvanceGame s fence).car1.layer.pos = s.car1.layer.pos ∧
      (carAdvanceGame s fence).car2.layer.pos = s.car2.layer.pos ∧
      (carAdvanceGame s fence).car3.layer.pos = s.car3.layer.pos ∧
      (carAdvanceGame s fence).frog.layer.pos = s.frog.layer.pos) :=
  ⟨⟨carAdvanceMem_nodes fence movLayers mem, carAdvanceMem_frame fence movLayers mem,
      carAdvanceMem_unreferenced fence movLayers mem⟩,
    carAdvanceMemTimes_frame fence n movLayers mem,
    fun _ => ⟨rfl, rfl, rfl, rfl, rfl, rfl, rfl, rfl⟩⟩

/-- Witness of C15 on the small world: after `carAdvance` on its moving list the
two nodes keep their velocities, the ball at address 0 keeps `pos = (5,5)` while
its `posNext` advances to `(7,5)`, and the unreferenced layer at address 2 is
unchanged. -/
theorem C15_carAdvance_writes_only_posNext_witness :
    (carAdvanceMem gameViewBoundary demoMovLayers demoMem).1 = demoMovLayers ∧
    ((carAdvanceMem gameViewBoundary demoMovLayers demoMem).2 0).pos = ⟨5, 5⟩ ∧
    ((carAdvanceMem gameViewBoundary demoMovLayers demoMem).2 0).posNext = ⟨7, 5⟩ ∧
    (carAdvanceMem gameViewBoundary demoMovLayers demoMem).2 2 = demoMem 2 := by
  have h := (C15_carAdvance_writes_only_posNext gameViewBoundary demoMovLayers demoMem 1).1
  exact ⟨h.1, (h.2.1 0).1, by decide, h.2.2 2 (by decide)⟩

/-- C16, at an input where the claim as stated fails: `carNearRightEdge` is a car
of the game (arrow of size 22, velocity `(4,0)`, fence `gameViewBoundary`) whose
bounds contain its origin on the x axis and start inside the fence, `[78,100]`.
The seventh call of `carAdvance` recycles it to x = -22, where its bounds begin
at -44: 44 pixels outside the fence, more than `|velocity.x| = 4`.  The same
holds for every shape of size 22 whose bounds contain its origin: recycled from
x = 124, its bounds begin at least 22 pixels left of the fence. -/
theorem C16_counterexample :
    (∀ p : Vec2, (carNearRightEdge.layer.abShape.getBounds p).topLeft.x ≤ p.x ∧
      p.x ≤ (carNearRightEdge.layer.abShape.getBounds p).botRight.x) ∧
    (gameViewBoundary.topLeft.x ≤
        (carNearRightEdge.layer.abShape.getBounds carNearRightEdge.layer.posNext).topLeft.x ∧
      (carNearRightEdge.layer.abShape.getBounds carNearRightEdge.layer.posNext).botRight.x ≤
        gameViewBoundary.botRight.x) ∧
    carNearRightEdge.velocity = ⟨4, 0⟩ ∧
    (carAdvanceTimes gameViewBoundary 7 carNearRightEdge).layer.posNext.x = -22 ∧
    (carNearRightEdge.layer.abShape.getBounds
      (carAdvanceTimes gameViewBoundary 7 carNearRightEdge).layer.posNext).topLeft.x = -44 ∧
    ¬ (gameViewBoundary.topLeft.x - 4 ≤
      (carNearRightEdge.layer.abShape.getBounds
        (carAdvanceTimes gameViewBoundary 7 carNearRightEdge).layer.posNext).topLeft.x) ∧
    (∀ (shape : AbShape) (y : Int), shape.size = 22 →
      (∀ p : Vec2, (shape.getBounds p).topLeft.x ≤ p.x ∧ p.x ≤ (shape.getBounds p).botRight.x) →
      (shape.getBounds
        (carAdvanceTimes gameViewBoundary 1
          ⟨⟨shape, ⟨124, y⟩, ⟨124, y⟩, ⟨124, y⟩, 1⟩, ⟨4, 0⟩⟩).layer.posNext).topLeft.x ≤ -22) := by
  refine ⟨fun p => ?_, ⟨by decide, by decide⟩, by decide, by decide, by decide, by decide, ?_⟩
  · simp only [carNearRightEdge, carShape, arrowBounds, screenHeight]
    omega
  · intro shape y hs ho
    have hp := carAdvanceStep_posNext gameViewBoundary
      ⟨⟨shape, ⟨124, y⟩, ⟨124, y⟩, ⟨124, y⟩, 1⟩, ⟨4, 0⟩⟩
    have hb : (shape.getBounds (vec2Add ⟨124, y⟩ ⟨4, 0⟩)).botRight.x ≥
        gameViewBoundary.botRight.x := by
      have := (ho (vec2Add ⟨124, y⟩ ⟨4, 0⟩)).2
      simp only [vec2Add, gameViewBoundary, screenWidth] at this ⊢
      omega
    simp only [carAdvanceTimes]
    rw [hp, if_pos hb]
    have h1 := (ho ⟨gameViewBoundary.topLeft.x - toUChar shape.size, y + 0⟩).1
    simp only [hs, gameViewBoundary, toUChar] at h1 ⊢
    omega

/-- C16 (amended): the range of a recycled car.  Assuming the shape's bounds
contain its origin on the x axis, for every car with non-negative x velocity
(the game's are 3, 2 and 4, and 0 after a win) that starts with bounds inside
the game's fence, after every number `n` of `carAdvance` calls: the velocity is
the old one; the origin `posNext.x` lies between `fence.topLeft.x - carSize` and
`fence.botRight.x`; after at least one call either the car has just been recycled
(`posNext.x = fence.topLeft.x - carSize`) or the right edge of its bounds is below
the fence's right edge; and the bounds of a just-recycled car begin at least
`carSize` pixels left of the fence, which for the game's cars (22) is more than
`|velocity.x|`. -/
theorem C16_recycle_range (carLayer : MovLayer) (n : Nat)
    (hOrigin : ∀ p : Vec2, (carLayer.layer.abShape.getBounds p).topLeft.x ≤ p.x ∧
      p.x ≤ (carLayer.layer.abShape.getBounds p).botRight.x)
    (hv : 0 ≤ carLayer.velocity.x)
    (hStart : gameViewBoundary.topLeft.x ≤
        (carLayer.layer.abShape.getBounds carLayer.layer.posNext).topLeft.x ∧
      (carLayer.layer.abShape.getBounds carLayer.layer.posNext).botRight.x ≤
        gameViewBoundary.botRight.x) :
    (carAdvanceTimes gameViewBoundary n carLayer).velocity = carLayer.velocity ∧
    (gameViewBoundary.topLeft.x - toUChar carLayer.layer.abShape.size ≤
        (carAdvanceTimes gameViewBoundary n carLayer).layer.posNext.x ∧
      (carAdvanceTimes gameViewBoundary n carLayer).layer.posNext.x ≤
        gameViewBoundary.botRight.x) ∧
    (1 ≤ n →
      (carAdvanceTimes gameViewBoundary n carLayer).layer.posNext.x =
        gameViewBoundary.topLeft.x - toUChar carLayer.layer.abShape.size ∨
      (carLayer.layer.abShape.getBounds
        (carAdvanceTimes gameViewBoundary n carLayer).layer.posNext).botRight.x <
          gameViewBoundary.botRight.x) ∧
    ((carAdvanceTimes gameViewBoundary n carLayer).layer.posNext.x =
        gameViewBoundary.topLeft.x - toUChar carLayer.layer.abShape.size →
      (carLayer.layer.abShape.getBounds
        (carAdvanceTimes gameViewBoundary n carLayer).layer.posNext).topLeft.x ≤
          gameViewBoundary.topLeft.x - toUChar carLayer.layer.abShape.size) := by
  have hsz := toUChar_range carLayer.layer.abShape.size
  have h0 := hOrigin carLayer.layer.posNext
  have hlow : gameViewBoundary.topLeft.x - toUChar carLayer.layer.abShape.size ≤
      carLayer.layer.posNext.x := by omega
  have hr := carAdvanceTimes_range gameViewBoundary carLayer hv hlow n
  have hn := hOrigin (carAdvanceTimes gameViewBoundary n carLayer).layer.posNext
  refine ⟨(carAdvanceTimes_frame gameViewBoundary n carLayer).1, ⟨hr.1, ?_⟩, hr.2, ?_⟩
  · rcases Nat.eq_zero_or_pos n with h | h
    · subst h
      simp only [carAdvanceTimes]
      omega
    · rcases hr.2 h with e | e
      · rw [e]
        simp only [gameViewBoundary, screenWidth]
        omega
      · omega
  · intro e
    rw [← e]
    exact hn.1

/-- Witness of C16 (amended) on `carNearRightEdge`: after 7 calls the car has
velocity `(4,0)`, sits at x = -22 and its bounds begin at or left of -22. -/
theorem C16_recycle_range_witness :
    (carAdvanceTimes gameViewBoundary 7 carNearRightEdge).velocity = ⟨4, 0⟩ ∧
    (carAdvanceTimes gameViewBoundary 7 carNearRightEdge).layer.posNext.x = -22 ∧
    (carNearRightEdge.layer.abShape.getBounds
      (carAdvanceTimes gameViewBoundary 7 carNearRightEdge).layer.posNext).topLeft.x ≤ -22 := by
  have ho : ∀ p : Vec2, (carNearRightEdge.layer.abShape.getBounds p).topLeft.x ≤ p.x ∧
      p.x ≤ (carNearRightEdge.layer.abShape.getBounds p).botRight.x := by
    intro p
    simp only [carNearRightEdge, carShape, arrowBounds, screenHeight]
    omega
  have h := C16_recycle_range carNearRightEdge 7 ho (by decide) ⟨by decide, by decide⟩
  exact ⟨h.1, by decide, h.2.2.2 (by decide)⟩

/-- C17: the commit step of `movLayerDraw`.  For every moving list in which each
layer is referenced once, after `movLayerDraw` every referenced layer has `pos`
equal to its old `posNext`, `posLast` equal to its old `pos` and its `posNext`
unchanged; every layer not referenced by the moving list is unchanged, `pos`,
`posLast` and `posNext` included. -/
theorem C17_commit_step (movLayers : List MovLayerRef) (layers : List Nat) (bgColor : Nat)
    (mem : Nat → Layer) (hOnce : (movLayers.map (fun m => m.layer)).Nodup) :
    (∀ m ∈ movLayers,
      ((movLayerDraw movLayers layers bgColor mem).1 m.layer).pos = (mem m.layer).posNext ∧
      ((movLayerDraw movLayers layers bgColor mem).1 m.layer).posLast = (mem m.layer).pos ∧
      ((movLayerDraw movLayers layers bgColor mem).1 m.layer).posNext =
        (mem m.layer).posNext) ∧
    (∀ a : Nat, (∀ m ∈ movLayers, m.layer ≠ a) →
      (movLayerDraw movLayers layers bgColor mem).1 a = mem a) := by
  refine ⟨fun m hm => ?_, fun a ha => commitLoop_unreferenced movLayers mem a ha⟩
  have h := commitLoop_referenced_once movLayers mem hOnce m hm
  exact ⟨h.1, h.2, (commitLoop_frame movLayers mem m.layer).1⟩

/-- Witness of C17 on the small world: the ball at address 0 goes from
`pos = (5,5)`, `posNext = (6,5)` to `pos = (6,5)`, `posLast = (5,5)`, and the
unreferenced layer at address 2 is unchanged. -/
theorem C17_commit_step_witness :
    ((movLayerDraw demoMovLayers demoLayers 0 demoMem).1 0).pos = ⟨6, 5⟩ ∧
    ((movLayerDraw demoMovLayers demoLayers 0 demoMem).1 0).posLast = ⟨5, 5⟩ ∧
    ((movLayerDraw demoMovLayers demoLayers 0 demoMem).1 0).posNext = ⟨6, 5⟩ ∧
    (movLayerDraw demoMovLayers demoLayers 0 demoMem).1 2 = demoMem 2 := by
  have h := C17_commit_step demoMovLayers demoLayers 0 demoMem (by decide)
  have h0 := h.1 ⟨0, ⟨1, 0⟩⟩ (by decide)
  exact ⟨h0.1, h0.2.1, h0.2.2, h.2 2 (by decide)⟩

/-- C18: the painter's-algorithm probe.  The calls `movLayerDraw` makes to the
display are, for each moving layer in list order, one `lcd_setArea` on the bounds
of that layer at its committed `pos`, followed by one `lcd_writeColor` per pixel
of that window in row-major order; the window's pixels are exactly the pixels
with `topLeft.x <= x <= botRight.x` and `topLeft.y <= y <= botRight.y`, each
once; the color written for a pixel is the color of the first layer of the layer
list, from the head, whose shape check at its committed `pos` contains the
pixel, and `bgColor` when no layer contains it. -/
theorem C18_painters_probe (movLayers : List MovLayerRef) (layers : List Nat) (bgColor : Nat)
    (mem : Nat → Layer) :
    (movLayerDraw movLayers layers bgColor mem).2 =
      (movLayers.map (fun m =>
        LcdCall.setArea
          (layerGetBounds ((movLayerDraw movLayers layers bgColor mem).1 m.layer)).topLeft.x
          (layerGetBounds ((movLayerDraw movLayers layers bgColor mem).1 m.layer)).topLeft.y
          (layerGetBounds ((movLayerDraw movLayers layers bgColor mem).1 m.layer)).botRight.x
          (layerGetBounds ((movLayerDraw movLayers layers bgColor mem).1 m.layer)).botRight.y ::
        (rowMajorPixels
          (layerGetBounds ((movLayerDraw movLayers layers bgColor mem).1 m.layer))).map
          (fun pixel => LcdCall.writeColor
            (paintedColor layers bgColor (movLayerDraw movLayers layers bgColor mem).1
              pixel)))).flatten ∧
    (∀ m ∈ movLayers,
      layerGetBounds ((movLayerDraw movLayers layers bgColor mem).1 m.layer) =
        (mem m.layer).abShape.getBounds
          ((movLayerDraw movLayers layers bgColor mem).1 m.layer).pos ∧
      ((movLayerDraw movLayers layers bgColor mem).1 m.layer).pos = (mem m.layer).posNext) ∧
    (∀ (bounds : Region) (pixel : Vec2),
      (pixel ∈ rowMajorPixels bounds ↔
        (bounds.topLeft.x ≤ pixel.x ∧ pixel.x ≤ bounds.botRight.x) ∧
        (bounds.topLeft.y ≤ pixel.y ∧ pixel.y ≤ bounds.botRight.y)) ∧
      (rowMajorPixels bounds).Nodup) ∧
    (∀ (m1 : Nat → Layer) (pixel : Vec2),
      probeLoop bgColor m1 pixel layers = paintedColor layers bgColor m1 pixel) := by
  refine ⟨?_, fun m hm => ⟨?_, commitLoop_referenced_pos movLayers mem m hm⟩,
    fun bounds pixel => ⟨rowMajorPixels_mem bounds pixel, rowMajorPixels_nodup bounds⟩,
    fun m1 pixel => probeLoop_eq_paintedColor bgColor m1 pixel layers⟩
  · simp only [movLayerDraw]
    rw [drawLoop_eq_flatten]
    simp only [drawWindow_eq_rowMajor]
  · simp only [movLayerDraw, layerGetBounds]
    rw [(commitLoop_frame movLayers mem m.layer).2.2]

/-- Witness of C18 on the small world: the window of the ball, committed at
`(6,5)`, is `(5,4)-(7,6)`; its nine pixels are written row by row, the ball's
color 7 on the five pixels of the ball and `bgColor` 0 on the four corners. -/
theorem C18_painters_probe_witness :
    (movLayerDraw demoMovLayers demoLayers 0 demoMem).2.drop 10 =
      [LcdCall.setArea 5 4 7 6,
        LcdCall.writeColor 0, LcdCall.writeColor 7, LcdCall.writeColor 0,
        LcdCall.writeColor 7, LcdCall.writeColor 7, LcdCall.writeColor 7,
        LcdCall.writeColor 0, LcdCall.writeColor 7, LcdCall.writeColor 0] := by
  rw [(C18_painters_probe demoMovLayers demoLayers 0 demoMem).1]
  decide

/-- C19: compositor idempotence.  For every moving list, layer list and layer
memory, a second call of `movLayerDraw` right after a first one (no `posNext`
changed in between) makes the same calls to the display, windows and pixel
colors in the same order, and leaves the `pos` of every layer unchanged. -/
theorem C19_redraw_idempotent (movLayers : List MovLayerRef) (layers : List Nat)
    (bgColor : Nat) (mem : Nat → Layer) :
    (movLayerDraw movLayers layers bgColor
        (movLayerDraw movLayers layers bgColor mem).1).2 =
      (movLayerDraw movLayers layers bgColor mem).2 ∧
    (∀ a : Nat,
      ((movLayerDraw movLayers layers bgColor
          (movLayerDraw movLayers layers bgColor mem).1).1 a).pos =
        ((movLayerDraw movLayers layers bgColor mem).1 a).pos) := by
  have hpos := commitLoop_pos_after_commit movLayers mem
  refine ⟨?_, hpos⟩
  simp only [movLayerDraw]
  apply drawLoop_congr
  intro a
  have f := commitLoop_frame movLayers (commitLoop movLayers mem) a
  exact ⟨hpos a, f.2.2, f.2.1⟩

/-- Witness of C19 on the small world: the two calls make the same twenty calls
to the display, and the ball stays committed at `(6,5)`. -/
theorem C19_redraw_idempotent_witness :
    (movLayerDraw demoMovLayers demoLayers 0
        (movLayerDraw demoMovLayers demoLayers 0 demoMem).1).2 =
      (movLayerDraw demoMovLayers demoLayers 0 demoMem).2 ∧
    (movLayerDraw demoMovLayers demoLayers 0 demoMem).2.length = 20 ∧
    ((movLayerDraw demoMovLayers demoLayers 0
        (movLayerDraw demoMovLayers demoLayers 0 demoMem).1).1 0).pos = ⟨6, 5⟩ := by
  have h := C19_redraw_idempotent demoMovLayers demoLayers 0 demoMem
  refine ⟨h.1, by decide, ?_⟩
  rw [h.2 0]
  decide

/-- C20: bounce-advance per axis.  For a moving layer with staged position
`p = posNext` and velocity `v`, and `b` the shape's bounds at `p + v`, computed
once: on each axis, if `b.topLeft < fence.topLeft` or `b.botRight > fence.botRight`
on that axis, the new velocity on the axis is `-v` and the new `posNext` is
`p - v` there; otherwise the velocity on the axis is unchanged and the new
`posNext` is `p + v` there.  The committed `pos` is not modified, for one layer
and for every layer of the memory after `mlAdvance` on a list. -/
theorem C20_bounce_per_axis (fence : Region) (ml : MovLayer)
    (movLayers : List MovLayerRef) (mem : Nat → Layer) :
    (((ml.layer.abShape.getBounds (vec2Add ml.layer.posNext ml.velocity)).topLeft.x <
          fence.topLeft.x ∨
        (ml.layer.abShape.getBounds (vec2Add ml.layer.posNext ml.velocity)).botRight.x >
          fence.botRight.x) →
      (mlAdvanceStep fence ml).velocity.x = -ml.velocity.x ∧
      (mlAdvanceStep fence ml).layer.posNext.x = ml.layer.posNext.x - ml.velocity.x) ∧
    (¬ ((ml.layer.abShape.getBounds (vec2Add ml.layer.posNext ml.velocity)).topLeft.x <
          fence.topLeft.x ∨
        (ml.layer.abShape.getBounds (vec2Add ml.layer.posNext ml.velocity)).botRight.x >
          fence.botRight.x) →
      (mlAdvanceStep fence ml).velocity.x = ml.velocity.x ∧
      (mlAdvanceStep fence ml).layer.posNext.x = ml.layer.posNext.x + ml.velocity.x) ∧
    (((ml.layer.abShape.getBounds (vec2Add ml.layer.posNext ml.velocity)).topLeft.y <
          fence.topLeft.y ∨
        (ml.layer.abShape.getBounds (vec2Add ml.layer.posNext ml.velocity)).botRight.y >
          fence.botRight.y) →
      (mlAdvanceStep fence ml).velocity.y = -ml.velocity.y ∧
      (mlAdvanceStep fence ml).layer.posNext.y = ml.layer.posNext.y - ml.velocity.y) ∧
    (¬ ((ml.layer.abShape.getBounds (vec2Add ml.layer.posNext ml.velocity)).topLeft.y <
          fence.topLeft.y ∨
        (ml.layer.abShape.getBounds (vec2Add ml.layer.posNext ml.velocity)).botRight.y >
          fence.botRight.y) →
      (mlAdvanceStep fence ml).velocity.y = ml.velocity.y ∧
      (mlAdvanceStep fence ml).layer.posNext.y = ml.layer.posNext.y + ml.velocity.y) ∧
    (mlAdvanceStep fence ml).layer.pos = ml.layer.pos ∧
    (∀ a : Nat, ((mlAdvanceMem fence movLayers mem).2 a).pos = (mem a).pos) := by
  refine ⟨fun h => ?_, fun h => ?_, fun h => ?_, fun h => ?_, rfl,
    mlAdvanceMem_pos fence movLayers mem⟩
  · simp only [vec2Add] at h
    simp only [mlAdvanceStep, vec2Add, if_pos h]
    exact ⟨trivial, by omega⟩
  · simp only [vec2Add] at h
    simp only [mlAdvanceStep, vec2Add, if_neg h]
    exact ⟨trivial, trivial⟩
  · simp only [vec2Add] at h
    simp only [mlAdvanceStep, vec2Add, if_pos h]
    exact ⟨trivial, by omega⟩
  · simp only [vec2Add] at h
    simp only [mlAdvanceStep, vec2Add, if_neg h]
    exact ⟨trivial, trivial⟩

/-- Witness of C20 on `bouncingBall` (staged at `(120,80)`, velocity `(5,2)`,
radius 6, fence `gameViewBoundary`): at `(125,82)` the right edge 131 is outside
on x only, so the velocity becomes `(-5,2)` and `posNext` becomes `(115,82)`. -/
theorem C20_bounce_per_axis_witness :
    (mlAdvanceStep gameViewBoundary bouncingBall).velocity = ⟨-5, 2⟩ ∧
    (mlAdvanceStep gameViewBoundary bouncingBall).layer.posNext = ⟨115, 82⟩ ∧
    (mlAdvanceStep gameViewBoundary bouncingBall).layer.pos = ⟨115, 78⟩ := by
  have h := C20_bounce_per_axis gameViewBoundary bouncingBall [] demoMem
  have hx := h.1 (by decide)
  have hy := h.2.2.2.1 (by decide)
  refine ⟨?_, ?_, h.2.2.2.2.1⟩
  · have e : (mlAdvanceStep gameViewBoundary bouncingBall).velocity =
        ⟨(mlAdvanceStep gameViewBoundary bouncingBall).velocity.x,
          (mlAdvanceStep gameViewBoundary bouncingBall).velocity.y⟩ := rfl
    rw [e, hx.1, hy.1]
    decide
  · have e : (mlAdvanceStep gameViewBoundary bouncingBall).layer.posNext =
        ⟨(mlAdvanceStep gameViewBoundary bouncingBall).layer.posNext.x,
          (mlAdvanceStep gameViewBoundary bouncingBall).layer.posNext.y⟩ := rfl
    rw [e, hx.2, hy.2]
    decide

/-- C21, at inputs where the claim as stated fails.  `ballOutsideFence` (radius
6, staged at `(130,80)`, velocity `(1,0)`, fence `gameViewBoundary`): its bounds
at `posNext + velocity` exceed the fence on x (right edge 137), `mlAdvance`
negates the x velocity and stages x = 129, where the bounds `[123,135]` are
still outside the fence.  `ballAtRest` (staged at `(125,80)`, velocity
`(0,0)`): its bounds exceed the fence on x (right edge 131), the negated x
velocity is still 0, and the bounds stay where they are. -/
theorem C21_counterexample :
    ((ballOutsideFence.layer.abShape.getBounds
        (vec2Add ballOutsideFence.layer.posNext ballOutsideFence.velocity)).botRight.x >
        gameViewBoundary.botRight.x ∧
      (mlAdvanceStep gameViewBoundary ballOutsideFence).velocity.x = -1 ∧
      (mlAdvanceStep gameViewBoundary ballOutsideFence).layer.posNext = ⟨129, 80⟩ ∧
      (ballOutsideFence.layer.abShape.getBounds
        (mlAdvanceStep gameViewBoundary ballOutsideFence).layer.posNext).botRight.x = 135 ∧
      ¬ ((ballOutsideFence.layer.abShape.getBounds
        (mlAdvanceStep gameViewBoundary ballOutsideFence).layer.posNext).botRight.x ≤
          gameViewBoundary.botRight.x)) ∧
    ((ballAtRest.layer.abShape.getBounds
        (vec2Add ballAtRest.layer.posNext ballAtRest.velocity)).botRight.x >
        gameViewBoundary.botRight.x ∧
      ballAtRest.velocity.x = 0 ∧
      (mlAdvanceStep gameViewBoundary ballAtRest).velocity.x = 0 ∧
      ¬ ((ballAtRest.layer.abShape.getBounds
        (mlAdvanceStep gameViewBoundary ballAtRest).layer.posNext).botRight.x ≤
          gameViewBoundary.botRight.x)) := by
  refine ⟨⟨by decide, by decide, by decide, by decide, by decide⟩,
    ⟨by decide, by decide, by decide, by decide⟩⟩

/-- C21 (amended): the bounce.  For every moving layer and fence such that the
shape's bounds at `posNext + velocity` exceed the fence on an axis, `mlAdvance`
negates the velocity on that axis and stages `posNext - velocity` there.  When
moreover the shape's bounds follow its position on that axis (from
`origin - lo` to `origin + hi`), the bounds at the old `posNext` lie inside the
fence on the axis, and the fence is at least `lo + hi + 2 |velocity|` wide on
the axis, then the velocity on the axis is not 0, so its sign flips, and the
shape's bounds at the new `posNext` lie strictly inside the fence on the axis.
Stated for the x axis and for the y axis. -/
theorem C21_bounce_back_inside (fence : Region) (ml : MovLayer) (lo hi : Int) :
    (((ml.layer.abShape.getBounds (vec2Add ml.layer.posNext ml.velocity)).topLeft.x <
          fence.topLeft.x ∨
        (ml.layer.abShape.getBounds (vec2Add ml.layer.posNext ml.velocity)).botRight.x >
          fence.botRight.x) →
      ((mlAdvanceStep fence ml).velocity.x = -ml.velocity.x ∧
        (mlAdvanceStep fence ml).layer.posNext.x = ml.layer.posNext.x - ml.velocity.x) ∧
      ((∀ q : Vec2, (ml.layer.abShape.getBounds q).topLeft.x = q.x - lo ∧
          (ml.layer.abShape.getBounds q).botRight.x = q.x + hi) →
        (fence.topLeft.x ≤ (ml.layer.abShape.getBounds ml.layer.posNext).topLeft.x ∧
          (ml.layer.abShape.getBounds ml.layer.posNext).botRight.x ≤ fence.botRight.x) →
        lo + hi + 2 * |ml.velocity.x| ≤ fence.botRight.x - fence.topLeft.x →
        ml.velocity.x ≠ 0 ∧
        (0 < ml.velocity.x ↔ (mlAdvanceStep fence ml).velocity.x < 0) ∧
        fence.topLeft.x <
          (ml.layer.abShape.getBounds (mlAdvanceStep fence ml).layer.posNext).topLeft.x ∧
        (ml.layer.abShape.getBounds (mlAdvanceStep fence ml).layer.posNext).botRight.x <
          fence.botRight.x)) ∧
    (((ml.layer.abShape.getBounds (vec2Add ml.layer.posNext ml.velocity)).topLeft.y <
          fence.topLeft.y ∨
        (ml.layer.abShape.getBounds (vec2Add ml.layer.posNext ml.velocity)).botRight.y >
          fence.botRight.y) →
      ((mlAdvanceStep fence ml).velocity.y = -ml.velocity.y ∧
        (mlAdvanceStep fence ml).layer.posNext.y = ml.layer.posNext.y - ml.velocity.y) ∧
      ((∀ q : Vec2, (ml.layer.abShape.getBounds q).topLeft.y = q.y - lo ∧
          (ml.layer.abShape.getBounds q).botRight.y = q.y + hi) →
        (fence.topLeft.y ≤ (ml.layer.abShape.getBounds ml.layer.posNext).topLeft.y ∧
          (ml.layer.abShape.getBounds ml.layer.posNext).botRight.y ≤ fence.botRight.y) →
        lo + hi + 2 * |ml.velocity.y| ≤ fence.botRight.y - fence.topLeft.y →
        ml.velocity.y ≠ 0 ∧
        (0 < ml.velocity.y ↔ (mlAdvanceStep fence ml).velocity.y < 0) ∧
        fence.topLeft.y <
          (ml.layer.abShape.getBounds (mlAdvanceStep fence ml).layer.posNext).topLeft.y ∧
        (ml.layer.abShape.getBounds (mlAdvanceStep fence ml).layer.posNext).botRight.y <
          fence.botRight.y)) := by
  constructor
  · intro hOut
    have hstep := mlAdvanceStep_out_x fence ml hOut
    refine ⟨hstep, fun hB hIn hWide => ?_⟩
    have b0 := hB ml.layer.posNext
    have b1 := hB (vec2Add ml.layer.posNext ml.velocity)
    have b2 := hB (mlAdvanceStep fence ml).layer.posNext
    rw [b1.1, b1.2] at hOut
    rw [b0.1, b0.2] at hIn
    rw [b2.1, b2.2, hstep.1, hstep.2]
    simp only [vec2Add] at hOut
    rcases abs_cases ml.velocity.x with ⟨ha, _⟩ | ⟨ha, _⟩ <;> rw [ha] at hWide <;>
      refine ⟨?_, ?_, ?_, ?_⟩ <;> omega
  · intro hOut
    have hstep := mlAdvanceStep_out_y fence ml hOut
    refine ⟨hstep, fun hB hIn hWide => ?_⟩
    have b0 := hB ml.layer.posNext
    have b1 := hB (vec2Add ml.layer.posNext ml.velocity)
    have b2 := hB (mlAdvanceStep fence ml).layer.posNext
    rw [b1.1, b1.2] at hOut
    rw [b0.1, b0.2] at hIn
    rw [b2.1, b2.2, hstep.1, hstep.2]
    simp only [vec2Add] at hOut
    rcases abs_cases ml.velocity.y with ⟨ha, _⟩ | ⟨ha, _⟩ <;> rw [ha] at hWide <;>
      refine ⟨?_, ?_, ?_, ?_⟩ <;> omega

/-- Witness of C21 (amended) on `bouncingBall` (radius 6, staged at `(120,80)`
with bounds `[114,126]` inside the fence, velocity `(5,2)`): the bounds at
`(125,82)` exceed the fence on x, the x velocity becomes -5 and the bounds at the
new `posNext`, `[109,121]`, lie strictly inside `[0,128]`. -/
theorem C21_bounce_back_inside_witness :
    (mlAdvanceStep gameViewBoundary bouncingBall).velocity.x = -5 ∧
    (mlAdvanceStep gameViewBoundary bouncingBall).layer.posNext.x = 115 ∧
    gameViewBoundary.topLeft.x <
      (bouncingBall.layer.abShape.getBounds
        (mlAdvanceStep gameViewBoundary bouncingBall).layer.posNext).topLeft.x ∧
    (bouncingBall.layer.abShape.getBounds
      (mlAdvanceStep gameViewBoundary bouncingBall).layer.posNext).botRight.x <
        gameViewBoundary.botRight.x := by
  have h := (C21_bounce_back_inside gameViewBoundary bouncingBall 6 6).1 (by decide)
  have h2 := h.2 (fun q => ⟨rfl, rfl⟩) (by decide) (by decide)
  exact ⟨h.1.1.trans (by decide), h.1.2.trans (by decide), h2.2.2.1, h2.2.2.2⟩

/-- C23, the code evaluated at the failing input: `containsRegion` is not sound
as an overlap test.  With `region1 = (0,50)-(100,100)` and
`region2 = (10,0)-(20,10)`, both well formed and with coordinates in `0..255`,
the function returns 1, yet neither corner of `region2` lies within `region1`
and no point of `region2` does: `region2` is entirely above `region1`.  On a
region inside `region1` it returns 1 as well. -/
theorem C23_containsRegion_unsound :
    containsRegion lowerRegion upperRegion = 1 ∧
    ¬ inRegion lowerRegion upperRegion.topLeft ∧
    ¬ inRegion lowerRegion upperRegion.botRight ∧
    (∀ p : Vec2, inRegion upperRegion p → ¬ inRegion lowerRegion p) ∧
    (containsRegion lowerRegion innerRegion = 1 ∧ inRegion lowerRegion innerRegion.topLeft) ∧
    (∀ region1 region2 : Region, containsRegion region1 region2 = 1 →
      (toUChar region1.topLeft.x ≤ toUChar region2.topLeft.x ∧
        toUChar region2.topLeft.x ≤ toUChar region1.botRight.x ∧
        toUChar region2.topLeft.y ≤ toUChar region1.botRight.y) ∨
      (toUChar region1.topLeft.x ≤ toUChar region2.botRight.x ∧
        toUChar region2.botRight.x ≤ toUChar region1.botRight.x ∧
        toUChar region2.botRight.y ≤ toUChar region1.botRight.y)) := by
  refine ⟨by decide, ?_, ?_, ?_, ⟨by decide, ?_⟩, ?_⟩
  · simp [inRegion, lowerRegion, upperRegion]
  · simp [inRegion, lowerRegion, upperRegion]
  · intro p hp hq
    simp only [inRegion, lowerRegion, upperRegion] at hp hq
    omega
  · simp [inRegion, lowerRegion, innerRegion]
  · intro region1 region2 h
    unfold containsRegion at h
    simp only [] at h
    split_ifs at h with h1 h2
    · exact Or.inl ⟨h1.1.1, h1.2.1, h1.2.2⟩
    · exact Or.inr ⟨h2.1.1, h2.2.1, h2.2.2⟩

/-- C24: hazards never leave their lane.  For every moving layer whose
`velocity.y` is 0, `carAdvance` leaves `posNext.y` unchanged, recycled or not;
a game tick keeps each car's `velocity.y` at 0, so each car's `posNext.y` is
preserved by a game tick and by any run of the tick handler, for every button
word; from the initial state the three values stay 39, 83 and 127. -/
theorem C24_cars_stay_in_lane (s : State) (pressed : Nat) (inputs : List Nat)
    (hv1 : s.car1.velocity.y = 0) (hv2 : s.car2.velocity.y = 0)
    (hv3 : s.car3.velocity.y = 0) :
    (∀ (fence : Region) (carLayer : MovLayer), carLayer.velocity.y = 0 →
      (carAdvanceStep fence carLayer).layer.posNext.y = carLayer.layer.posNext.y) ∧
    ((gameTick s pressed).car1.velocity.y = 0 ∧ (gameTick s pressed).car2.velocity.y = 0 ∧
      (gameTick s pressed).car3.velocity.y = 0) ∧
    ((gameTick s pressed).car1.layer.posNext.y = s.car1.layer.posNext.y ∧
      (gameTick s pressed).car2.layer.posNext.y = s.car2.layer.posNext.y ∧
      (gameTick s pressed).car3.layer.posNext.y = s.car3.layer.posNext.y) ∧
    ((runHandler s inputs).car1.layer.posNext.y = s.car1.layer.posNext.y ∧
      (runHandler s inputs).car2.layer.posNext.y = s.car2.layer.posNext.y ∧
      (runHandler s inputs).car3.layer.posNext.y = s.car3.layer.posNext.y) ∧
    ((runHandler initialState inputs).car1.layer.posNext.y = 39 ∧
      (runHandler initialState inputs).car2.layer.posNext.y = 83 ∧
      (runHandler initialState inputs).car3.layer.posNext.y = 127) := by
  have hg := gameTick_lanes s pressed ⟨hv1, hv2, hv3⟩
  refine ⟨fun fence m hm => ?_, hg.1, hg.2, runHandler_lanes inputs s ⟨hv1, hv2, hv3⟩,
    runHandler_lanes inputs initialState ⟨rfl, rfl, rfl⟩⟩
  rw [carAdvanceStep_posNext_y, hm]
  simp

/-- Witness of C24 at `hitState` (cars staged at 66, 44, 88 in lanes 39, 83,
127): after a tick with "down" pressed the cars are staged at 69, 46, 92 in
the same lanes. -/
theorem C24_cars_stay_in_lane_witness :
    (gameTick hitState 65531).car1.layer.posNext = ⟨69, 39⟩ ∧
    (gameTick hitState 65531).car2.layer.posNext = ⟨46, 83⟩ ∧
    (gameTick hitState 65531).car3.layer.posNext = ⟨92, 127⟩ ∧
    (gameTick hitState 65531).car1.layer.posNext.y = hitState.car1.layer.posNext.y := by
  have h := C24_cars_stay_in_lane hitState 65531 [] (by decide) (by decide) (by decide)
  exact ⟨by decide, by decide, by decide, h.2.2.1.1⟩

/-- C25: `wasHit` does not see an overlap in which neither frog edge is strictly
inside the car's interval.  For regions with x coordinates in `0..255` such that
`frog.topLeft.x <= car.topLeft.x` and `frog.botRight.x >= car.botRight.x` (the
frog's x-interval covers the car's, identical x-bounds included),
`wasHit car frog` is 0. -/
theorem C25_wasHit_misses_covering_frog (car frog : Region)
    (hc1 : 0 ≤ car.topLeft.x ∧ car.topLeft.x ≤ 255)
    (hc2 : 0 ≤ car.botRight.x ∧ car.botRight.x ≤ 255)
    (hf1 : 0 ≤ frog.topLeft.x ∧ frog.topLeft.x ≤ 255)
    (hf2 : 0 ≤ frog.botRight.x ∧ frog.botRight.x ≤ 255)
    (hl : frog.topLeft.x ≤ car.topLeft.x) (hr : frog.botRight.x ≥ car.botRight.x) :
    wasHit car frog = 0 := by
  rcases wasHit_zero_or_one car frog with h | h
  · exact h
  · have h1 := (wasHit_eq_one_iff car frog).1 h
    rw [toUChar_of_range _ hc1.1 hc1.2, toUChar_of_range _ hc2.1 hc2.2,
      toUChar_of_range _ hf1.1 hf1.2, toUChar_of_range _ hf2.1 hf2.2] at h1
    omega

/-- Witness of C25: a frog with x-bounds `[58,70]` over a car with x-bounds
`[60,68]`, and a frog with the car's own x-bounds `[60,68]`, are not hit. -/
theorem C25_wasHit_misses_covering_frog_witness :
    wasHit ⟨⟨60, 39⟩, ⟨68, 39⟩⟩ ⟨⟨58, 39⟩, ⟨70, 39⟩⟩ = 0 ∧
    wasHit ⟨⟨60, 39⟩, ⟨68, 39⟩⟩ ⟨⟨60, 39⟩, ⟨68, 39⟩⟩ = 0 :=
  ⟨C25_wasHit_misses_covering_frog ⟨⟨60, 39⟩, ⟨68, 39⟩⟩ ⟨⟨58, 39⟩, ⟨70, 39⟩⟩
      (by decide) (by decide) (by decide) (by decide) (by decide) (by decide),
    C25_wasHit_misses_covering_frog ⟨⟨60, 39⟩, ⟨68, 39⟩⟩ ⟨⟨60, 39⟩, ⟨68, 39⟩⟩
      (by decide) (by decide) (by decide) (by decide) (by decide) (by decide)⟩

/-- C26: `wasHit` compares the 8-bit truncations of the bounds.  For all regions,
`wasHit car frog` is 1 exactly when the open-interval edge test holds for the
four x coordinates reduced modulo 256, and 0 otherwise; adding any multiple of
256 to any of the four x coordinates does not change the result; when the four
coordinates lie in `0..255` the test is the one on the coordinates themselves; a
car left edge of -1 is compared as 255. -/
theorem C26_wasHit_truncates (car frog : Region) :
    (wasHit car frog = 1 ↔
      (car.topLeft.x % 256 < frog.topLeft.x % 256 ∧
        frog.topLeft.x % 256 < car.botRight.x % 256) ∨
      (car.topLeft.x % 256 < frog.botRight.x % 256 ∧
        frog.botRight.x % 256 < car.botRight.x % 256)) ∧
    (wasHit car frog = 0 ∨ wasHit car frog = 1) ∧
    (∀ k1 k2 k3 k4 : Int,
      wasHit ⟨⟨car.topLeft.x + 256 * k1, car.topLeft.y⟩,
          ⟨car.botRight.x + 256 * k2, car.botRight.y⟩⟩
        ⟨⟨frog.topLeft.x + 256 * k3, frog.topLeft.y⟩,
          ⟨frog.botRight.x + 256 * k4, frog.botRight.y⟩⟩ = wasHit car frog) ∧
    ((0 ≤ car.topLeft.x ∧ car.topLeft.x ≤ 255) → (0 ≤ car.botRight.x ∧ car.botRight.x ≤ 255) →
      (0 ≤ frog.topLeft.x ∧ frog.topLeft.x ≤ 255) →
      (0 ≤ frog.botRight.x ∧ frog.botRight.x ≤ 255) →
      (wasHit car frog = 1 ↔
        (car.topLeft.x < frog.topLeft.x ∧ frog.topLeft.x < car.botRight.x) ∨
        (car.topLeft.x < frog.botRight.x ∧ frog.botRight.x < car.botRight.x))) ∧
    (toUChar (-1) = 255 ∧ wasHit ⟨⟨-1, 39⟩, ⟨10, 39⟩⟩ ⟨⟨5, 39⟩, ⟨8, 39⟩⟩ = 0) := by
  refine ⟨wasHit_eq_one_iff car frog, wasHit_zero_or_one car frog, ?_, ?_,
    ⟨by decide, by decide⟩⟩
  · intro k1 k2 k3 k4
    simp only [wasHit, toUChar_add_mul]
  · intro hc1 hc2 hf1 hf2
    rw [wasHit_eq_one_iff, toUChar_of_range _ hc1.1 hc1.2, toUChar_of_range _ hc2.1 hc2.2,
      toUChar_of_range _ hf1.1 hf1.2, toUChar_of_range _ hf2.1 hf2.2]

/-- Witness of C26: the frog `[5,8]` is hit by the car `[0,10]`, also when its
coordinates are written as `261` and `-504`; it is not hit by the car
`[-1,10]`, whose left edge is compared as 255. -/
theorem C26_wasHit_truncates_witness :
    wasHit ⟨⟨0, 39⟩, ⟨10, 39⟩⟩ ⟨⟨5, 39⟩, ⟨8, 39⟩⟩ = 1 ∧
    wasHit ⟨⟨0, 39⟩, ⟨10, 39⟩⟩ ⟨⟨261, 39⟩, ⟨-504, 39⟩⟩ = 1 ∧
    wasHit ⟨⟨-1, 39⟩, ⟨10, 39⟩⟩ ⟨⟨5, 39⟩, ⟨8, 39⟩⟩ = 0 := by
  have h := C26_wasHit_truncates ⟨⟨0, 39⟩, ⟨10, 39⟩⟩ ⟨⟨5, 39⟩, ⟨8, 39⟩⟩
  have h1 : wasHit ⟨⟨0, 39⟩, ⟨10, 39⟩⟩ ⟨⟨5, 39⟩, ⟨8, 39⟩⟩ = 1 :=
    h.1.2 (Or.inl ⟨by decide, by decide⟩)
  have h2 := h.2.2.1 0 0 1 (-2)
  exact ⟨h1, h2.trans h1, h.2.2.2.2.2⟩

/-- C27: the hit reset happens before the input reducer in the same tick.  For
every state in which `didLose` returns 1 at a game tick and only the "down"
button (bit 4) is newly pressed in that tick, the one call being `moveFrog 4`,
the tick ends with lane indices `(2,1)` and `frogLayer.posNext = (64,39)`, the
table entries `(lanePosX[2], lanePosY[1])`, not at the start indices `(2,0)`. -/
theorem C27_reset_then_move (s : State) (pressed : Nat)
    (hLose : didLose s = 1) (hDown : moveFrogCalls s.prevPress pressed = [4]) :
    ((gameTick s pressed).frogPosInd_x = 2 ∧ (gameTick s pressed).frogPosInd_y = 1) ∧
    (gameTick s pressed).frogLayer.posNext = ⟨64, 39⟩ ∧
    (lanePosX[2]? = some 64 ∧ lanePosY[1]? = some 39) ∧
    (gameTick s pressed).frogPosInd_y ≠ 0 := by
  have hf := gameTick_frog_of_calls s pressed
  have hb := beforeInput_after_hit s hLose
  rw [hDown] at hf
  simp only [List.foldl_cons, List.foldl_nil] at hf
  have hm : moveFrog 4 (carAdvanceGame (loseBranch (winBranch s)) gameViewBoundary) =
      setFrogPosNext
        { carAdvanceGame (loseBranch (winBranch s)) gameViewBoundary with frogPosInd_y := 1 }
        ⟨64, 39⟩ := by
    simp [moveFrog, hb.1, hb.2.1, incUChar, lanePosXAt, lanePosYAt, lanePosX, lanePosY]
  rw [hm] at hf
  have hy : (gameTick s pressed).frogPosInd_y = 1 := hf.2.1
  refine ⟨⟨hf.1.trans hb.1, hy⟩, ?_, ⟨by decide, by decide⟩, by rw [hy]; decide⟩
  unfold State.frogLayer
  rw [hf.2.2]
  rfl

/-- Witness of C27 at `hitStateReleased` (frog hit by `car1`, no button held
before) with "down" newly pressed: the tick ends at indices `(2,1)` with
`posNext = (64,39)`. -/
theorem C27_reset_then_move_witness :
    didLose hitStateReleased = 1 ∧
    ((gameTick hitStateReleased 65531).frogPosInd_x = 2 ∧
      (gameTick hitStateReleased 65531).frogPosInd_y = 1) ∧
    (gameTick hitStateReleased 65531).frogLayer.posNext = ⟨64, 39⟩ := by
  have h := C27_reset_then_move hitStateReleased 65531 (by decide) (by decide)
  exact ⟨by decide, h.1, h.2.1⟩

end Frogger
